import Mathlib

/-!
esp32-aptos-sdk: hex codec, address padding, BCS integers and the transaction builder

A shallow embedding of `src/AptosUtils.cpp` and `src/AptosTransaction.cpp`.

Conventions of the embedding:

* an Arduino `String` is a Lean `String`; every `Char` stands for one `char` of the
  C++ string, so `String.length` is `String::length()`;
* a `uint8_t` buffer is a `List Nat` (entries below 256), a pointer/length pair
  `(bytes, length)` that is only read is a list of that length;
* a function that writes through an output pointer returns the new buffer next to
  its C++ result;
* a `JsonDocument` is a value of the type `Json` below, with the member operations
  of ArduinoJson that the builder uses.
-/

namespace AptosUtils

/-! ## Hex codec (`AptosUtils.cpp`, lines 3-41 and 283-296) -/

/-- The table `hexChars = "0123456789abcdef"`. -/
def hexChars : List Char :=
  "0123456789abcdef".data

/-- `nibbleToHex`: `hexChars[nibble & 0x0F]`. -/
def nibbleToHex (nibble : Nat) : Char :=
  hexChars.getD (nibble &&& 0x0F) '0'

/-- `hexToNibble`: the value of a hex digit, `0xFF` for any other character. -/
def hexToNibble (hex : Char) : Nat :=
  if '0' ≤ hex ∧ hex ≤ '9' then hex.toNat - '0'.toNat
  else if 'a' ≤ hex ∧ hex ≤ 'f' then hex.toNat - 'a'.toNat + 10
  else if 'A' ≤ hex ∧ hex ≤ 'F' then hex.toNat - 'A'.toNat + 10
  else 0xFF

/-- The loop body of `bytesToHex`, over the bytes still to be written out. -/
def bytesToHexChars : List Nat → List Char
  | [] => []
  | b :: rest => nibbleToHex (b >>> 4) :: nibbleToHex (b &&& 0x0F) :: bytesToHexChars rest

/-- `bytesToHex(bytes, length)`: two lowercase hex characters per byte. -/
def bytesToHex (bytes : List Nat) : String :=
  ⟨bytesToHexChars bytes⟩

/-- `removeHexPrefix`: drops one leading `0x` or `0X`. -/
def removeHexPrefix (hex : String) : String :=
  match hex.data with
  | '0' :: 'x' :: rest => ⟨rest⟩
  | '0' :: 'X' :: rest => ⟨rest⟩
  | _ => hex

/-- `String::charAt(i)`: the character at `i`, NUL when `i` is out of range. -/
def charAt (s : String) (i : Nat) : Char :=
  s.data.getD i (Char.ofNat 0)

/-- The `for` loop of `hexToBytes`: `n` iterations are left, `i` is the loop
counter. A bad digit returns `false` at once and keeps what was written so far. -/
def hexToBytesLoop (cleanHex : String) : Nat → Nat → List Nat → Bool × List Nat
  | 0, _, bytes => (true, bytes)
  | n + 1, i, bytes =>
    let high := hexToNibble (charAt cleanHex (i * 2))
    let low := hexToNibble (charAt cleanHex (i * 2 + 1))
    if high = 0xFF ∨ low = 0xFF then (false, bytes)
    else hexToBytesLoop cleanHex n (i + 1) (bytes.set i (((high <<< 4) ||| low) % 256))

/-- `hexToBytes(hex, bytes, maxLength)`: the result flag and the buffer afterwards. -/
def hexToBytes (hex : String) (bytes : List Nat) (maxLength : Nat) : Bool × List Nat :=
  let cleanHex := removeHexPrefix hex
  if cleanHex.length % 2 ≠ 0 then (false, bytes)
  else
    let byteLength := cleanHex.length / 2
    if byteLength > maxLength then (false, bytes)
    else hexToBytesLoop cleanHex byteLength 0 bytes

/-! ## Address padding (`AptosUtils.cpp`, lines 92-122) -/

/-- `String::toLowerCase()`: `tolower` on every character. -/
def toLowerCase (s : String) : String :=
  ⟨s.data.map Char.toLower⟩

/-- The loop `while (addr.length() < 64) addr = "0" + addr;`. -/
def padLoop (addr : String) : String :=
  if addr.length < 64 then padLoop ("0" ++ addr) else addr
termination_by 64 - addr.length
decreasing_by
  simp only [String.length_append]
  have h1 : "0".length = 1 := rfl
  omega

/-- `padHexAddress`: strip the prefix, lowercase, left-pad to 64, put `0x` in front. -/
def padHexAddress (address : String) : String :=
  "0x" ++ padLoop (toLowerCase (removeHexPrefix address))

/-! ## Predicates and readings used to state the properties -/

/-- A character in `0-9`, `a-f` or `A-F`. -/
def isHexDigit (c : Char) : Prop :=
  ('0' ≤ c ∧ c ≤ '9') ∨ ('a' ≤ c ∧ c ≤ 'f') ∨ ('A' ≤ c ∧ c ≤ 'F')

instance decIsHexDigit (c : Char) : Decidable (isHexDigit c) := by unfold isHexDigit; infer_instance

/-- A character in `0-9` or `a-f`. -/
def isLowerHexDigit (c : Char) : Prop :=
  ('0' ≤ c ∧ c ≤ '9') ∨ ('a' ≤ c ∧ c ≤ 'f')

instance decIsLowerHexDigit (c : Char) : Decidable (isLowerHexDigit c) := by unfold isLowerHexDigit; infer_instance

/-- The text is `0x` followed by exactly 64 lowercase hex digits. -/
def isNormalizedAddress (s : String) : Prop :=
  s.data.take 2 = ['0', 'x'] ∧ (s.data.drop 2).length = 64 ∧
    ∀ c ∈ s.data.drop 2, isLowerHexDigit c

instance decIsNormalizedAddress (s : String) : Decidable (isNormalizedAddress s) := by
  unfold isNormalizedAddress; infer_instance

/-- The number a string of hex digits denotes, most significant digit first. -/
def hexValue (s : String) : Nat :=
  s.data.foldl (fun acc c => acc * 16 + hexToNibble c) 0

/-! ## BCS integers (`AptosUtils.cpp`, lines 141-154) -/

/-- `serializeU8`: the hex text of the single byte. -/
def serializeU8 (value : Nat) : String :=
  bytesToHex [value]

/-- The array `bytes[8]` that `serializeU64` fills: `bytes[i] = (value >> (i * 8)) & 0xFF`. -/
def serializeU64Bytes (value : Nat) : List Nat :=
  (List.range 8).map fun i => (value >>> (i * 8)) &&& 0xFF

/-- `serializeU64`: the hex text of the eight little-endian bytes. -/
def serializeU64 (value : Nat) : String :=
  bytesToHex (serializeU64Bytes value)

/-- The number a little-endian byte sequence denotes: the sum of `b_i * 256^i`. -/
def decodeLE : List Nat → Nat
  | [] => 0
  | b :: rest => b + 256 * decodeLE rest

end AptosUtils

/-! ## The JSON document (the ArduinoJson operations the builder calls) -/

/-- A JSON value held by a `JsonDocument`. -/
inductive Json where
  | null
  | bool (b : Bool)
  | num (n : Int)
  | str (s : String)
  | arr (items : List Json)
  | obj (members : List (String × Json))

namespace Json

/-- `doc.containsKey(key)`: the root is an object that has a member `key`. -/
def containsKey : Json → String → Bool
  | obj members, key => members.any fun m => m.1 == key
  | _, _ => false

/-- The value read by `doc[key]`; `none` is the unbound variant. -/
def getMember : Json → String → Option Json
  | obj members, key => (members.find? fun m => m.1 == key).map fun m => m.2
  | _, _ => none

/-- Replaces the value of the first member `key`, or appends the member. -/
def setField : List (String × Json) → String → Json → List (String × Json)
  | [], key, v => [(key, v)]
  | m :: rest, key, v => if m.1 == key then (key, v) :: rest else m :: setField rest key v

/-- `doc[key] = v`: a null root becomes an object first; a root that is neither
null nor an object is left as it is (the member reference is unbound). -/
def setMember : Json → String → Json → Json
  | null, key, v => obj [(key, v)]
  | obj members, key, v => obj (setField members key v)
  | d, _, _ => d

/-- `doc.createNestedArray()` without a key: appends an empty array to the root
when the root is null (which becomes an array) or an array. The second component
is the returned `JsonArray` reference: the index of the new element, or `none`
for the unbound reference obtained on any other root. -/
def createNestedArray : Json → Json × Option Nat
  | null => (arr [arr []], some 0)
  | arr items => (arr (items ++ [arr []]), some items.length)
  | d => (d, none)

/-- Appends `v` to the array stored at position `i` of `items`. -/
def addAt : List Json → Nat → Json → List Json
  | [], _, _ => []
  | arr xs :: rest, 0, v => arr (xs ++ [v]) :: rest
  | e :: rest, 0, _ => e :: rest
  | e :: rest, i + 1, v => e :: addAt rest i v

/-- `array.add(v)` through a reference returned by `createNestedArray`;
nothing happens through the unbound reference. -/
def addTo : Json → Option Nat → Json → Json
  | arr items, some i, v => arr (addAt items i v)
  | d, _, _ => d

/-- The value a `JsonArray` reference stands for when it is copied into a
member: the array it points to, null for the unbound reference. -/
def deref : Json → Option Nat → Json
  | arr items, some i => items.getD i null
  | _, _ => null

/-- The elements visited by `for (JsonVariant x : array)`. -/
def elements : Json → List Json
  | arr items => items
  | _ => []

end Json

/-! ## The transaction builder (`AptosTransaction.cpp`) -/

/-- The private members of `class AptosTransaction`. -/
structure AptosTransaction where
  transaction : Json
  isBuilt : Bool
  lastError : String

namespace AptosTransaction

open AptosUtils

def DEFAULT_MAX_GAS : Nat := 2000
def DEFAULT_GAS_PRICE : Nat := 100
def DEFAULT_EXPIRATION_OFFSET : Nat := 600

/-- `AptosUtils::getCurrentTimestamp()`: `millis() / 1000 + 1640995200`, computed on
the 32-bit `unsigned long` that `millis()` returns; `millis` is the clock reading. -/
def getCurrentTimestamp (millis : Nat) : Nat :=
  (millis % 2 ^ 32 / 1000 + 1640995200) % 2 ^ 32

/-- `AptosTransaction()`. -/
def new : AptosTransaction :=
  { transaction := Json.null, isBuilt := false, lastError := "" }

/-- `AptosTransaction(const JsonDocument& txn)`. -/
def fromDocument (txn : Json) : AptosTransaction :=
  { transaction := txn, isBuilt := true, lastError := "" }

def setSender (t : AptosTransaction) (sender : String) : AptosTransaction :=
  { t with transaction := t.transaction.setMember "sender" (Json.str (padHexAddress sender)) }

def setSequenceNumber (t : AptosTransaction) (sequenceNumber : Nat) : AptosTransaction :=
  { t with transaction :=
      t.transaction.setMember "sequence_number" (Json.str (toString sequenceNumber)) }

def setMaxGasAmount (t : AptosTransaction) (maxGasAmount : Nat) : AptosTransaction :=
  { t with transaction :=
      t.transaction.setMember "max_gas_amount" (Json.str (toString maxGasAmount)) }

def setGasUnitPrice (t : AptosTransaction) (gasUnitPrice : Nat) : AptosTransaction :=
  { t with transaction :=
      t.transaction.setMember "gas_unit_price" (Json.str (toString gasUnitPrice)) }

def setExpirationTimestamp (t : AptosTransaction) (expirationTimestamp : Nat) :
    AptosTransaction :=
  let value := Json.str (toString expirationTimestamp)
  { t with transaction := t.transaction.setMember "expiration_timestamp_secs" value }

/-- `setChainId`: the body only returns `*this`. -/
def setChainId (t : AptosTransaction) (_chainId : Nat) : AptosTransaction := t

/-- `buildEntryFunctionPayload`: a fresh object under `payload`, then its four members. -/
def buildEntryFunctionPayload (t : AptosTransaction)
    (moduleAddress moduleName functionName : String) (typeArgs args : Json) :
    AptosTransaction :=
  let payload := Json.obj []
  let payload := payload.setMember "type" (Json.str "entry_function_payload")
  let payload := payload.setMember "function"
    (Json.str (padHexAddress moduleAddress ++ "::" ++ moduleName ++ "::" ++ functionName))
  let payload := payload.setMember "type_arguments" typeArgs
  let payload := payload.setMember "arguments" args
  { t with transaction := t.transaction.setMember "payload" payload }

/-- `buildScriptPayload`. -/
def buildScriptPayload (t : AptosTransaction) (code : String) (typeArgs args : Json) :
    AptosTransaction :=
  let payload := Json.obj []
  let payload := payload.setMember "type" (Json.str "script_payload")
  let payload := payload.setMember "code" (Json.null.setMember "bytecode" (Json.str code))
  let payload := payload.setMember "type_arguments" typeArgs
  let payload := payload.setMember "arguments" args
  { t with transaction := t.transaction.setMember "payload" payload }

def entryFunction (t : AptosTransaction) (moduleAddress moduleName functionName : String)
    (typeArgs args : Json) : AptosTransaction :=
  buildEntryFunctionPayload t moduleAddress moduleName functionName typeArgs args

def script (t : AptosTransaction) (code : String) (typeArgs args : Json) : AptosTransaction :=
  buildScriptPayload t code typeArgs args

def coinTransfer (t : AptosTransaction) (recipient : String) (amount : Nat)
    (coinType : String) : AptosTransaction :=
  let (d, typeArgs) := t.transaction.createNestedArray
  let d := d.addTo typeArgs (Json.str coinType)
  let (d, args) := d.createNestedArray
  let d := d.addTo args (Json.str (padHexAddress recipient))
  let d := d.addTo args (Json.str (toString amount))
  entryFunction { t with transaction := d } "0x1" "aptos_account" "transfer_coins"
    (d.deref typeArgs) (d.deref args)

def tokenTransfer (t : AptosTransaction) (recipient creator collection tokenName : String)
    (amount : Nat) : AptosTransaction :=
  let (d, typeArgs) := t.transaction.createNestedArray
  let (d, args) := d.createNestedArray
  let d := d.addTo args (Json.str (padHexAddress creator))
  let d := d.addTo args (Json.str collection)
  let d := d.addTo args (Json.str tokenName)
  let d := d.addTo args (Json.str (padHexAddress recipient))
  let d := d.addTo args (Json.str (toString amount))
  entryFunction { t with transaction := d } "0x3" "token" "direct_transfer_script"
    (d.deref typeArgs) (d.deref args)

def createAccount (t : AptosTransaction) (authKey : String) : AptosTransaction :=
  let (d, typeArgs) := t.transaction.createNestedArray
  let (d, args) := d.createNestedArray
  let d := d.addTo args (Json.str (padHexAddress authKey))
  entryFunction { t with transaction := d } "0x1" "aptos_account" "create_account"
    (d.deref typeArgs) (d.deref args)

def createCollection (t : AptosTransaction) (name description uri : String) (maximum : Nat)
    (mutateSettings : Json) : AptosTransaction :=
  let (d, typeArgs) := t.transaction.createNestedArray
  let (d, args) := d.createNestedArray
  let d := d.addTo args (Json.str name)
  let d := d.addTo args (Json.str description)
  let d := d.addTo args (Json.str uri)
  let d := d.addTo args (Json.str (toString maximum))
  let d := mutateSettings.elements.foldl (fun d setting => d.addTo args setting) d
  entryFunction { t with transaction := d } "0x3" "token" "create_collection_script"
    (d.deref typeArgs) (d.deref args)

def createToken (t : AptosTransaction) (collection name description : String) (supply : Nat)
    (uri : String) (mutateSettings : Json) : AptosTransaction :=
  let (d, typeArgs) := t.transaction.createNestedArray
  let (d, args) := d.createNestedArray
  let d := d.addTo args (Json.str collection)
  let d := d.addTo args (Json.str name)
  let d := d.addTo args (Json.str description)
  let d := d.addTo args (Json.str (toString supply))
  let d := d.addTo args (Json.str uri)
  let d := mutateSettings.elements.foldl (fun d setting => d.addTo args setting) d
  entryFunction { t with transaction := d } "0x3" "token" "create_token_script"
    (d.deref typeArgs) (d.deref args)

def publishModule (t : AptosTransaction) (moduleCode : String) : AptosTransaction :=
  let payload := Json.obj []
  let payload := payload.setMember "type" (Json.str "module_bundle_payload")
  let module := Json.null.setMember "bytecode" (Json.str moduleCode)
  let payload := payload.setMember "modules" (Json.arr [module])
  { t with transaction := t.transaction.setMember "payload" payload }

def callContract (t : AptosTransaction) (contractAddress moduleName functionName : String)
    (args : Json) : AptosTransaction :=
  let (d, typeArgs) := t.transaction.createNestedArray
  entryFunction { t with transaction := d } contractAddress moduleName functionName
    (d.deref typeArgs) args

/-- `build()`: the returned flag and the builder afterwards; `millis` is what the
clock reads if `getCurrentTimestamp()` is called. -/
def build (t : AptosTransaction) (millis : Nat) : Bool × AptosTransaction :=
  let t := if !t.transaction.containsKey "max_gas_amount" then
      setMaxGasAmount t DEFAULT_MAX_GAS else t
  let t := if !t.transaction.containsKey "gas_unit_price" then
      setGasUnitPrice t DEFAULT_GAS_PRICE else t
  let t := if !t.transaction.containsKey "expiration_timestamp_secs" then
      let currentTime := getCurrentTimestamp millis
      setExpirationTimestamp t ((currentTime + DEFAULT_EXPIRATION_OFFSET) % 2 ^ 64)
    else t
  if !t.transaction.containsKey "sender" then
    (false, { t with lastError := "Sender is required" })
  else if !t.transaction.containsKey "sequence_number" then
    (false, { t with lastError := "Sequence number is required" })
  else if !t.transaction.containsKey "payload" then
    (false, { t with lastError := "Payload is required" })
  else
    (true, { t with isBuilt := true })

/-- `isValid()`: `isBuilt && !lastError.length()`. -/
def isValid (t : AptosTransaction) : Bool :=
  t.isBuilt && t.lastError.length == 0

def getError (t : AptosTransaction) : String :=
  t.lastError

/-- `reset()`. -/
def reset (_t : AptosTransaction) : AptosTransaction :=
  { transaction := Json.null, isBuilt := false, lastError := "" }

/-- A call of one of the public mutating operations, with its arguments. -/
inductive Op where
  | setSender (sender : String)
  | setSequenceNumber (sequenceNumber : Nat)
  | setMaxGasAmount (maxGasAmount : Nat)
  | setGasUnitPrice (gasUnitPrice : Nat)
  | setExpirationTimestamp (expirationTimestamp : Nat)
  | setChainId (chainId : Nat)
  | entryFunction (moduleAddress moduleName functionName : String) (typeArgs args : Json)
  | script (code : String) (typeArgs args : Json)
  | coinTransfer (recipient : String) (amount : Nat) (coinType : String)
  | tokenTransfer (recipient creator collection tokenName : String) (amount : Nat)
  | createAccount (authKey : String)
  | createCollection (name description uri : String) (maximum : Nat) (mutateSettings : Json)
  | createToken (collection name description : String) (supply : Nat) (uri : String)
      (mutateSettings : Json)
  | publishModule (moduleCode : String)
  | callContract (contractAddress moduleName functionName : String) (args : Json)
  | build (millis : Nat)
  | reset

/-- The builder after one operation. -/
def step (t : AptosTransaction) : Op → AptosTransaction
  | .setSender s => setSender t s
  | .setSequenceNumber n => setSequenceNumber t n
  | .setMaxGasAmount n => setMaxGasAmount t n
  | .setGasUnitPrice n => setGasUnitPrice t n
  | .setExpirationTimestamp n => setExpirationTimestamp t n
  | .setChainId n => setChainId t n
  | .entryFunction a m f ta args => entryFunction t a m f ta args
  | .script c ta args => script t c ta args
  | .coinTransfer r a c => coinTransfer t r a c
  | .tokenTransfer r c col n a => tokenTransfer t r c col n a
  | .createAccount k => createAccount t k
  | .createCollection n d u m s => createCollection t n d u m s
  | .createToken c n d s u ms => createToken t c n d s u ms
  | .publishModule c => publishModule t c
  | .callContract a m f args => callContract t a m f args
  | .build millis => (build t millis).2
  | .reset => reset t

/-- The builder after a sequence of operations, first operation first. -/
def run (t : AptosTransaction) (ops : List Op) : AptosTransaction :=
  ops.foldl step t

/-- The three required members are present in the document. -/
def hasRequired (t : AptosTransaction) : Bool :=
  t.transaction.containsKey "sender" && t.transaction.containsKey "sequence_number" &&
    t.transaction.containsKey "payload"

/-- The builder after the three default-filling statements that open `build()`. -/
def withDefaults (t : AptosTransaction) (millis : Nat) : AptosTransaction :=
  let t := if !t.transaction.containsKey "max_gas_amount" then
      setMaxGasAmount t DEFAULT_MAX_GAS else t
  let t := if !t.transaction.containsKey "gas_unit_price" then
      setGasUnitPrice t DEFAULT_GAS_PRICE else t
  if !t.transaction.containsKey "expiration_timestamp_secs" then
    setExpirationTimestamp t ((getCurrentTimestamp millis + DEFAULT_EXPIRATION_OFFSET) % 2 ^ 64)
  else t

/-- The built flag is only ever set over a document that has the required members. -/
def builtInv (t : AptosTransaction) : Prop :=
  t.isBuilt = true → hasRequired t = true

end AptosTransaction

/-! ## Readers, getters and helper definitions for the frame properties -/

namespace Json

/-- The root accepts member assignments: it is null (and becomes an object on the
first assignment) or already an object. -/
def isNullOrObject : Json → Bool
  | null => true
  | obj _ => true
  | _ => false

end Json

namespace AptosUtils

/-! ## JSON readers (`AptosUtils.cpp`, lines 253-269) -/

/-- `isspace` in the C locale. -/
def isSpace (c : Char) : Bool :=
  c = ' ' || (9 ≤ c.toNat && c.toNat ≤ 13)

/-- `strtoull(text, nullptr, 10)` of the C library: leading white space is skipped,
one sign is accepted, the longest run of decimal digits is read, a value that does
not fit 64 bits gives `ULLONG_MAX`, and a minus sign negates modulo `2^64`. -/
def strtoull (text : String) : Nat :=
  let cs := text.data.dropWhile isSpace
  let negative := cs.head? = some '-'
  let cs := if cs.head? = some '-' ∨ cs.head? = some '+' then cs.tail else cs
  let digits := cs.takeWhile Char.isDigit
  let value := digits.foldl (fun acc c => acc * 10 + (c.toNat - '0'.toNat)) 0
  if value ≥ 2 ^ 64 then 2 ^ 64 - 1
  else if negative then (2 ^ 64 - value) % 2 ^ 64
  else value

/-- `getJsonString(doc, key, defaultValue)`. -/
def getJsonString (doc : Json) (key : String) (defaultValue : String) : String :=
  match doc.getMember key with
  | some (Json.str s) => s
  | _ => defaultValue

/-- `getJsonUint64(doc, key, defaultValue)`: a string member is parsed with `strtoull`,
an integer member that fits `uint64_t` is returned as it is. -/
def getJsonUint64 (doc : Json) (key : String) (defaultValue : Nat) : Nat :=
  match doc.getMember key with
  | some (Json.str s) => strtoull s
  | some (Json.num n) => if 0 ≤ n ∧ n < 2 ^ 64 then n.toNat else defaultValue
  | _ => defaultValue

/-- After one optional `0x`/`0X`, the text is at most 64 hexadecimal digits. -/
def isHexAddressText (s : String) : Prop :=
  (∀ c ∈ (removeHexPrefix s).data, isHexDigit c) ∧ (removeHexPrefix s).length ≤ 64

instance decIsHexAddressText (s : String) : Decidable (isHexAddressText s) := by
  unfold isHexAddressText; infer_instance

end AptosUtils

namespace AptosTransaction
open AptosUtils

/-! ## Getters and the default coin type (`AptosTransaction.cpp`, lines 224-242) -/

/-- The default argument `coinType = "0x1::aptos_coin::AptosCoin"` of `coinTransfer`. -/
def DEFAULT_COIN_TYPE : String := "0x1::aptos_coin::AptosCoin"

def getSender (t : AptosTransaction) : String :=
  getJsonString t.transaction "sender" ""

def getSequenceNumber (t : AptosTransaction) : Nat :=
  getJsonUint64 t.transaction "sequence_number" 0

def getMaxGasAmount (t : AptosTransaction) : Nat :=
  getJsonUint64 t.transaction "max_gas_amount" 0

def getGasUnitPrice (t : AptosTransaction) : Nat :=
  getJsonUint64 t.transaction "gas_unit_price" 0

def getExpirationTimestamp (t : AptosTransaction) : Nat :=
  getJsonUint64 t.transaction "expiration_timestamp_secs" 0

/-- The envelope member an operation writes, if it writes one. -/
def Op.target : Op → Option String
  | .setSender _ => some "sender"
  | .setSequenceNumber _ => some "sequence_number"
  | .setMaxGasAmount _ => some "max_gas_amount"
  | .setGasUnitPrice _ => some "gas_unit_price"
  | .setExpirationTimestamp _ => some "expiration_timestamp_secs"
  | .setChainId _ => none
  | .entryFunction _ _ _ _ _ => some "payload"
  | .script _ _ _ => some "payload"
  | .coinTransfer _ _ _ => some "payload"
  | .tokenTransfer _ _ _ _ _ => some "payload"
  | .createAccount _ => some "payload"
  | .createCollection _ _ _ _ _ => some "payload"
  | .createToken _ _ _ _ _ _ => some "payload"
  | .publishModule _ => some "payload"
  | .callContract _ _ _ _ => some "payload"
  | .build _ => none
  | .reset => none

/-- The operation is a setter or a payload constructor (neither `build` nor `reset`). -/
def Op.isMutator : Op → Bool
  | .build _ => false
  | .reset => false
  | _ => true

/-- The member `inner` of the member `outer` of the document, as read by
`doc[outer][inner]`. -/
def getNested (doc : Json) (outer inner : String) : Option Json :=
  (doc.getMember outer).bind fun m => m.getMember inner

end AptosTransaction

namespace Json

/-- The statement `if (!doc.containsKey(key)) doc[key] = v;`. -/
def setIfAbsent (d : Json) (key : String) (v : Json) : Json :=
  if !d.containsKey key then d.setMember key v else d

end Json

namespace AptosTransaction
open AptosUtils

/-- The document after the three default-filling statements of `build()`. -/
def fillDefaults (d : Json) (millis : Nat) : Json :=
  ((d.setIfAbsent "max_gas_amount" (Json.str (toString DEFAULT_MAX_GAS))).setIfAbsent
    "gas_unit_price" (Json.str (toString DEFAULT_GAS_PRICE))).setIfAbsent
    "expiration_timestamp_secs"
    (Json.str (toString ((getCurrentTimestamp millis + DEFAULT_EXPIRATION_OFFSET) % 2 ^ 64)))

/-- The validation statements that close `build()`, on the builder `w` that the
default-filling statements left. -/
def validate (w : AptosTransaction) : Bool × AptosTransaction :=
  if !w.transaction.containsKey "sender" then
    (false, { w with lastError := "Sender is required" })
  else if !w.transaction.containsKey "sequence_number" then
    (false, { w with lastError := "Sequence number is required" })
  else if !w.transaction.containsKey "payload" then
    (false, { w with lastError := "Payload is required" })
  else
    (true, { w with isBuilt := true })

/-- The stored sender is a string of the form `0x` + 64 lowercase hex digits. -/
def senderNormalized (t : AptosTransaction) : Prop :=
  ∃ a, t.transaction.getMember "sender" = some (Json.str a) ∧ isNormalizedAddress a

/-- An operation that is not `reset` and, when it is `setSender`, is given a text of
at most 64 hexadecimal digits after the optional prefix. -/
def Op.keepsSender : Op → Prop
  | .reset => False
  | .setSender s => isHexAddressText s
  | _ => True

instance decKeepsSender (op : Op) : Decidable op.keepsSender := by
  cases op <;> unfold Op.keepsSender <;> infer_instance

end AptosTransaction

namespace Sha256

/-! ## SHA-256 (the `mbedtls_sha256_*` calls of `AptosAccount.cpp` and `AptosUtils.cpp`)

The digest function of the mbedtls library, written after FIPS 180-4 on 32-bit words
held as natural numbers. -/

/-- The sixty-four round constants. -/
def roundConstants : List Nat :=
  [
    1116352408, 1899447441, 3049323471, 3921009573, 961987163, 1508970993,
    2453635748, 2870763221, 3624381080, 310598401, 607225278, 1426881987,
    1925078388, 2162078206, 2614888103, 3248222580, 3835390401, 4022224774,
    264347078, 604807628, 770255983, 1249150122, 1555081692, 1996064986,
    2554220882, 2821834349, 2952996808, 3210313671, 3336571891, 3584528711,
    113926993, 338241895, 666307205, 773529912, 1294757372, 1396182291,
    1695183700, 1986661051, 2177026350, 2456956037, 2730485921, 2820302411,
    3259730800, 3345764771, 3516065817, 3600352804, 4094571909, 275423344,
    430227734, 506948616, 659060556, 883997877, 958139571, 1322822218,
    1537002063, 1747873779, 1955562222, 2024104815, 2227730452, 2361852424,
    2428436474, 2756734187, 3204031479, 3329325298
  ]

/-- Addition of 32-bit words. -/
def add32 (a b : Nat) : Nat := (a + b) % 2 ^ 32

/-- Rotation of a 32-bit word to the right by `n` bits. -/
def rotr (x n : Nat) : Nat := ((x >>> n) ||| (x <<< (32 - n))) % 2 ^ 32

def bigSigma0 (x : Nat) : Nat := rotr x 2 ^^^ rotr x 13 ^^^ rotr x 22
def bigSigma1 (x : Nat) : Nat := rotr x 6 ^^^ rotr x 11 ^^^ rotr x 25
def smallSigma0 (x : Nat) : Nat := rotr x 7 ^^^ rotr x 18 ^^^ (x >>> 3)
def smallSigma1 (x : Nat) : Nat := rotr x 17 ^^^ rotr x 19 ^^^ (x >>> 10)
def choose (x y z : Nat) : Nat := (x &&& y) ^^^ ((2 ^ 32 - 1 - x) &&& z)
def majority (x y z : Nat) : Nat := (x &&& y) ^^^ (x &&& z) ^^^ (y &&& z)

/-- The eight working words of the hash state. -/
structure Words where
  a : Nat
  b : Nat
  c : Nat
  d : Nat
  e : Nat
  f : Nat
  g : Nat
  h : Nat

def initial : Words :=
  { a := 1779033703, b := 3144134277, c := 1013904242, d := 2773480762,
    e := 1359893119, f := 2600822924, g := 528734635, h := 1541459225 }

/-- Message padding: a one bit, zero bits, the bit length on 64 bits. -/
def pad (msg : List Nat) : List Nat :=
  let bits := 8 * msg.length
  msg ++ [128] ++ List.replicate ((119 - msg.length % 64) % 64) 0 ++
    [(bits >>> 56) % 256, (bits >>> 48) % 256, (bits >>> 40) % 256, (bits >>> 32) % 256,
     (bits >>> 24) % 256, (bits >>> 16) % 256, (bits >>> 8) % 256, bits % 256]

/-- Big-endian 32-bit words of a byte sequence. -/
def toWords : List Nat → List Nat
  | b0 :: b1 :: b2 :: b3 :: rest =>
    ((b0 % 256) * 16777216 + (b1 % 256) * 65536 + (b2 % 256) * 256 + b3 % 256) :: toWords rest
  | _ => []

/-- The message schedule, newest word first: `n` more words after `w`. -/
def extend : Nat → List Nat → List Nat
  | 0, w => w
  | n + 1, w =>
    let x := add32 (add32 (smallSigma1 (w.getD 1 0)) (w.getD 6 0))
      (add32 (smallSigma0 (w.getD 14 0)) (w.getD 15 0))
    extend n (x :: w)

def round (s : Words) (kw : Nat × Nat) : Words :=
  let t1 := add32 (add32 (add32 s.h (bigSigma1 s.e)) (choose s.e s.f s.g)) (add32 kw.1 kw.2)
  let t2 := add32 (bigSigma0 s.a) (majority s.a s.b s.c)
  { a := add32 t1 t2, b := s.a, c := s.b, d := s.c, e := add32 s.d t1, f := s.e, g := s.f,
    h := s.g }

def compress (s : Words) (block : List Nat) : Words :=
  let w := (extend 48 (toWords block).reverse).reverse
  let r := (roundConstants.zip w).foldl round s
  { a := add32 s.a r.a, b := add32 s.b r.b, c := add32 s.c r.c, d := add32 s.d r.d,
    e := add32 s.e r.e, f := add32 s.f r.f, g := add32 s.g r.g, h := add32 s.h r.h }

/-- The compression function over the 64-byte blocks of `bytes`; `n` bounds their number. -/
def blocks : Nat → Words → List Nat → Words
  | 0, s, _ => s
  | n + 1, s, bytes =>
    if bytes.length < 64 then s else blocks n (compress s (bytes.take 64)) (bytes.drop 64)

def wordBytes (w : Nat) : List Nat :=
  [(w >>> 24) % 256, (w >>> 16) % 256, (w >>> 8) % 256, w % 256]

/-- SHA-256 of a byte sequence: the 32 bytes of the digest. -/
def sha256 (msg : List Nat) : List Nat :=
  let s := blocks (msg.length / 64 + 2) initial (pad msg)
  wordBytes s.a ++ wordBytes s.b ++ wordBytes s.c ++ wordBytes s.d ++
    wordBytes s.e ++ wordBytes s.f ++ wordBytes s.g ++ wordBytes s.h

end Sha256

/-! ## The account (`AptosAccount.cpp`) -/

/-- The data members of `class AptosAccount`; `seeded` records whether the random
generator of the crypto context was seeded (the value `initCrypto()` returns). -/
structure AptosAccount where
  privateKey : List Nat
  publicKey : List Nat
  address : String
  isInitialized : Bool
  seeded : Bool

namespace AptosAccount
open AptosUtils Sha256

def PRIVATE_KEY_SIZE : Nat := 32
def PUBLIC_KEY_SIZE : Nat := 32
def SIGNATURE_SIZE : Nat := 64
def ADDRESS_SIZE : Nat := 32

/-- `AptosAccount()`: both key buffers zeroed; the result `seedOk` of `initCrypto()`
is not looked at. -/
def new (seedOk : Bool) : AptosAccount :=
  { privateKey := List.replicate PRIVATE_KEY_SIZE 0
    publicKey := List.replicate PUBLIC_KEY_SIZE 0
    address := ""
    isInitialized := false
    seeded := seedOk }

/-- `deriveAddress()`: SHA-256 of the public key followed by the byte `0x00`, in hex
behind `0x`; always returns true. -/
def deriveAddress (a : AptosAccount) : Bool × AptosAccount :=
  let input := a.publicKey ++ [0]
  let hash := sha256 input
  (true, { a with address := "0x" ++ bytesToHex hash })

/-- `generateKeyPair()`: the public key is SHA-256 of the private key. -/
def generateKeyPair (a : AptosAccount) : Bool × AptosAccount :=
  let a := { a with publicKey := sha256 a.privateKey }
  let r := deriveAddress a
  (r.1, { r.2 with isInitialized := r.1 })

/-- `createRandom()`: `ret` is what `mbedtls_ctr_drbg_random` returns and `random` the
bytes it left in the 32-byte private-key buffer. -/
def createRandom (a : AptosAccount) (ret : Int) (random : List Nat) : Bool × AptosAccount :=
  let a := { a with
    privateKey := (List.range PRIVATE_KEY_SIZE).map fun i => random.getD i 0 % 256 }
  if ret ≠ 0 then (false, a) else generateKeyPair a

/-- `fromPrivateKey(privateKeyHex)`: the hex text is decoded straight into the
private-key buffer. -/
def fromPrivateKey (a : AptosAccount) (privateKeyHex : String) : Bool × AptosAccount :=
  let r := hexToBytes privateKeyHex a.privateKey PRIVATE_KEY_SIZE
  let a := { a with privateKey := r.2 }
  if !r.1 then (false, a) else generateKeyPair a

/-- `AptosAccount(const String& privateKeyHex)`. -/
def newFromKey (seedOk : Bool) (privateKeyHex : String) : AptosAccount :=
  (fromPrivateKey (new seedOk) privateKeyHex).2

def getPrivateKeyHex (a : AptosAccount) : String :=
  if !a.isInitialized then "" else bytesToHex a.privateKey

def getPublicKeyHex (a : AptosAccount) : String :=
  if !a.isInitialized then "" else bytesToHex a.publicKey

def getAddress (a : AptosAccount) : String :=
  a.address

def isValid (a : AptosAccount) : Bool :=
  a.isInitialized

/-- `signMessage(message, messageLen, signature)`: the flag, the signature buffer
afterwards, and the account afterwards. -/
def signMessage (a : AptosAccount) (message : List Nat) (signature : List Nat) :
    Bool × List Nat × AptosAccount :=
  if !a.isInitialized then (false, signature, a)
  else
    let messageHash := sha256 message
    let signature := (List.range SIGNATURE_SIZE).foldl
      (fun sig i =>
        sig.set i (messageHash.getD (i % 32) 0 ^^^ a.privateKey.getD (i % PRIVATE_KEY_SIZE) 0))
      signature
    (true, signature, a)

/-- The bytes `(const uint8_t*)s.c_str()` of a string, `s.length()` of them. -/
def stringBytes (s : String) : List Nat :=
  s.data.map fun c => c.toNat % 256

/-- The value copied by `dst[key] = src[key]`: null when `src` has no such member. -/
def memberValue (src : Json) (key : String) : Json :=
  (src.getMember key).getD Json.null

/-- The document `signedTransaction` that `signTransaction` builds once the
signature bytes are known. -/
def signedDocument (a : AptosAccount) (transaction : Json) (signature : List Nat) : Json :=
  let doc := Json.null
  let doc := doc.setMember "sender" (Json.str a.address)
  let doc := doc.setMember "sequence_number" (memberValue transaction "sequence_number")
  let doc := doc.setMember "max_gas_amount" (memberValue transaction "max_gas_amount")
  let doc := doc.setMember "gas_unit_price" (memberValue transaction "gas_unit_price")
  let doc := doc.setMember "expiration_timestamp_secs"
    (memberValue transaction "expiration_timestamp_secs")
  let doc := doc.setMember "payload" (memberValue transaction "payload")
  let authenticator := Json.obj []
  let authenticator := authenticator.setMember "type" (Json.str "ed25519_signature")
  let authenticator := authenticator.setMember "public_key"
    (Json.str ("0x" ++ getPublicKeyHex a))
  let authenticator := authenticator.setMember "signature"
    (Json.str ("0x" ++ bytesToHex signature))
  doc.setMember "signature" authenticator

/-- `signTransaction(transaction, signedTxn)`: the flag, the output string afterwards
and the account afterwards. `serializeJson` is the serializer of ArduinoJson. -/
def signTransaction (serializeJson : Json → String) (a : AptosAccount) (transaction : Json)
    (signedTxn : String) : Bool × String × AptosAccount :=
  if !a.isInitialized then (false, signedTxn, a)
  else
    let txnString := serializeJson transaction
    let r := signMessage a (stringBytes txnString) (List.replicate SIGNATURE_SIZE 0)
    if !r.1 then (false, signedTxn, r.2.2)
    else (true, serializeJson (signedDocument r.2.2 transaction r.2.1), r.2.2)

/-- `EEPROM.read(address)` after `EEPROM.begin(512)`: zero outside the 512 bytes. -/
def eepromRead (store : List Nat) (address : Int) : Nat :=
  if address < 0 ∨ address ≥ 512 then 0 else store.getD address.toNat 0 % 256

/-- `EEPROM.write(address, value)` after `EEPROM.begin(512)`. -/
def eepromWrite (store : List Nat) (address : Int) (value : Nat) : List Nat :=
  if address < 0 ∨ address ≥ 512 then store else store.set address.toNat (value % 256)

/-- `saveToEEPROM(offset)`; `magic0` and `magic1` are the two magic bytes, written
`0xAP` and `0xTO` in the source. -/
def saveToEEPROM (magic0 magic1 : Nat) (a : AptosAccount) (store : List Nat) (offset : Int) :
    Bool × List Nat :=
  if !a.isInitialized then (false, store)
  else
    let store := eepromWrite store offset magic0
    let store := eepromWrite store (offset + 1) magic1
    let store := (List.range PRIVATE_KEY_SIZE).foldl
      (fun st (i : Nat) => eepromWrite st (offset + 2 + i) (a.privateKey.getD i 0)) store
    (true, store)

/-- `loadFromEEPROM(offset)`. -/
def loadFromEEPROM (magic0 magic1 : Nat) (a : AptosAccount) (store : List Nat)
    (offset : Int) : Bool × AptosAccount :=
  if eepromRead store offset ≠ magic0 ∨ eepromRead store (offset + 1) ≠ magic1 then
    (false, a)
  else
    let privateKey := (List.range PRIVATE_KEY_SIZE).foldl
      (fun key (i : Nat) => key.set i (eepromRead store (offset + 2 + i))) a.privateKey
    generateKeyPair { a with privateKey := privateKey }

/-- `verifySignature(message, messageLen, signature)`; `memcmp` compares 64 bytes. -/
def verifySignature (a : AptosAccount) (message : List Nat) (signature : List Nat) : Bool :=
  if !a.isInitialized then false
  else
    let r := signMessage a message (List.replicate SIGNATURE_SIZE 0)
    if !r.1 then false
    else decide (signature.take SIGNATURE_SIZE = r.2.1.take SIGNATURE_SIZE)

/-- `clear()`. -/
def clear (a : AptosAccount) : AptosAccount :=
  { a with
    privateKey := List.replicate PRIVATE_KEY_SIZE 0
    publicKey := List.replicate PUBLIC_KEY_SIZE 0
    address := ""
    isInitialized := false }

/-- A call of a public operation that can change the account, with what the
environment supplies to it. -/
inductive Op where
  | createRandom (ret : Int) (random : List Nat)
  | fromPrivateKey (privateKeyHex : String)
  | loadFromEEPROM (store : List Nat) (offset : Int)
  | clear

/-- The account after one operation. -/
def step (magic0 magic1 : Nat) (a : AptosAccount) : Op → AptosAccount
  | .createRandom ret random => (createRandom a ret random).2
  | .fromPrivateKey hex => (fromPrivateKey a hex).2
  | .loadFromEEPROM store offset => (loadFromEEPROM magic0 magic1 a store offset).2
  | .clear => clear a

/-- The account after a sequence of operations, first operation first. -/
def run (magic0 magic1 : Nat) (a : AptosAccount) (ops : List Op) : AptosAccount :=
  ops.foldl (step magic0 magic1) a

/-- The 64 bytes that the loop of `signMessage` writes: byte `i` is
`messageHash[i % 32] ^ privateKey[i % 32]`. -/
def signatureBytes (privateKey message : List Nat) : List Nat :=
  (List.range SIGNATURE_SIZE).map fun i =>
    (sha256 message).getD (i % 32) 0 ^^^ privateKey.getD (i % PRIVATE_KEY_SIZE) 0

/-- The address is `0x` + 64 lowercase hex digits when the account is initialized and
empty when it is not. -/
def addressInv (a : AptosAccount) : Prop :=
  (a.isInitialized = true → isNormalizedAddress a.address) ∧
    (a.isInitialized = false → a.address = "")

end AptosAccount

namespace Json

/-- A JSON string literal: the text in double quotes, with the quote and the
backslash escaped. -/
def quote (s : String) : String :=
  let dq := Char.ofNat 34
  let bs := Char.ofNat 92
  String.mk (dq :: (s.data.foldr
    (fun c acc => if c = dq ∨ c = bs then bs :: c :: acc else c :: acc) [dq]))

mutual

/-- A compact JSON text of a value (no white space), an instance of the serializer
that `signTransaction` takes as a parameter. -/
def compact : Json → String
  | null => "null"
  | bool b => if b then "true" else "false"
  | num n => toString n
  | str s => quote s
  | arr items => "[" ++ compactItems items ++ "]"
  | obj members => "\x7b" ++ compactMembers members ++ "\x7d"

/-- The elements of an array, separated by commas. -/
def compactItems : List Json → String
  | [] => ""
  | [x] => compact x
  | x :: y :: rest => compact x ++ "," ++ compactItems (y :: rest)

/-- The members of an object, separated by commas. -/
def compactMembers : List (String × Json) → String
  | [] => ""
  | [(k, v)] => quote k ++ ":" ++ compact v
  | (k, v) :: m :: rest => quote k ++ ":" ++ compact v ++ "," ++ compactMembers (m :: rest)

end

end Json

namespace AptosUtils

/-! ## BCS strings, addresses and vectors (`AptosUtils.cpp`, lines 156-191) -/

/-- The loop of `serializeString`: `result += serializeU8((uint8_t)str.charAt(i))`. -/
def serializeStringLoop : List Char → String → String
  | [], result => result
  | c :: rest, result => serializeStringLoop rest (result ++ serializeU8 (c.toNat % 256))

/-- `serializeString`: the length as a u64, then every character as a u8. -/
def serializeString (str : String) : String :=
  serializeStringLoop str.data (serializeU64 str.length)

/-- `serializeAddress`: the padded address is decoded into the local array
`bytes[32]` (taken as zero-filled before the call) and encoded again. -/
def serializeAddress (address : String) : String :=
  let normalized := padHexAddress address
  let cleanHex := removeHexPrefix normalized
  let r := hexToBytes cleanHex (List.replicate 32 0) 32
  if r.1 then bytesToHex r.2 else ""

/-- One turn of the loop of `serializeVector`. `item.is<String>()` holds for a
string; `item.is<int>()` holds for an integer that fits the 32-bit `int`, and
`item.as<uint64_t>()` of a negative integer is 0. -/
def serializeItem (result : String) (item : Json) : String :=
  match item with
  | Json.str s => result ++ serializeString s
  | Json.num n =>
    if -(2 : Int) ^ 31 ≤ n ∧ n < 2 ^ 31 then
      result ++ serializeU64 (if 0 ≤ n then n.toNat else 0)
    else result
  | _ => result

/-- `serializeVector`: `array.size()` as a u64, then the loop over the elements. -/
def serializeVector (array : Json) : String :=
  array.elements.foldl serializeItem (serializeU64 array.elements.length)

/-- The bytes that a text of hex digit pairs denotes. -/
def pairsToBytes : List Char → List Nat
  | c1 :: c2 :: rest => (hexToNibble c1 * 16 + hexToNibble c2) :: pairsToBytes rest
  | _ => []

end AptosUtils

/-! ## Address checks of the client (`AptosSDK.cpp`, lines 364-404) -/

namespace AptosSDK
open AptosUtils

/-- The loop of `isValidAddress` over the characters still to be checked. -/
def allHexChars : List Char → Bool
  | [] => true
  | c :: rest =>
    if !(('0' ≤ c ∧ c ≤ '9') ∨ ('a' ≤ c ∧ c ≤ 'f') ∨ ('A' ≤ c ∧ c ≤ 'F')) then false
    else allHexChars rest

/-- `AptosSDK::isValidAddress`. -/
def isValidAddress (address : String) : Bool :=
  let addr : String :=
    match address.data with
    | '0' :: 'x' :: rest => String.mk rest
    | '0' :: 'X' :: rest => String.mk rest
    | _ => address
  if addr.length = 0 ∨ addr.length > 64 then false
  else allHexChars addr.data

/-- The loop `while (addr.length() < 64) addr = "0" + addr;` of `normalizeAddress`. -/
def normalizeLoop (addr : String) : String :=
  if addr.length < 64 then normalizeLoop ("0" ++ addr) else addr
termination_by 64 - addr.length
decreasing_by
  simp only [String.length_append]
  have h1 : "0".length = 1 := rfl
  omega

/-- `AptosSDK::normalizeAddress`. -/
def normalizeAddress (address : String) : String :=
  let addr : String :=
    match address.data with
    | '0' :: 'x' :: rest => String.mk rest
    | '0' :: 'X' :: rest => String.mk rest
    | _ => address
  let addr := String.mk (addr.data.map Char.toLower)
  "0x" ++ normalizeLoop addr

end AptosSDK

/-! ## Properties -/

namespace AptosUtils

theorem hexToNibble_nibbleToHex : ∀ n, n < 16 → hexToNibble (nibbleToHex n) = n := by
  decide

theorem nibbleToHex_ne_x : ∀ n, n < 16 → nibbleToHex n ≠ 'x' ∧ nibbleToHex n ≠ 'X' := by
  decide

theorem nibbleToHex_mask (n : Nat) : nibbleToHex n = nibbleToHex (n % 16) := by
  have h : n &&& 0x0F = n % 16 := Nat.and_pow_two_sub_one_eq_mod n 4
  have h2 : (n % 16) &&& 0x0F = n % 16 := by
    have := Nat.and_pow_two_sub_one_eq_mod (n % 16) 4
    simp at this ⊢
    omega
  unfold nibbleToHex
  rw [h, h2]

theorem pack_nibbles : ∀ h, h < 16 → ∀ l, l < 16 → ((h <<< 4) ||| l) % 256 = h * 16 + l := by
  decide

theorem bytesToHexChars_append (xs ys : List Nat) :
    bytesToHexChars (xs ++ ys) = bytesToHexChars xs ++ bytesToHexChars ys := by
  induction xs with
  | nil => rfl
  | cons x xs ih => simp [bytesToHexChars, ih]

theorem bytesToHexChars_length (xs : List Nat) : (bytesToHexChars xs).length = 2 * xs.length := by
  induction xs with
  | nil => rfl
  | cons x xs ih => simp [bytesToHexChars, ih]; omega

theorem removeHexPrefix_bytesToHex (b : List Nat) : removeHexPrefix (bytesToHex b) = bytesToHex b := by
  cases b with
  | nil => rfl
  | cons x xs =>
    have hx := nibbleToHex_ne_x ((x &&& 0x0F) % 16) (Nat.mod_lt _ (by decide))
    rw [← nibbleToHex_mask] at hx
    unfold removeHexPrefix bytesToHex
    simp only [bytesToHexChars]
    split
    · rename_i h; simp at h; exact absurd h.2.1 hx.1
    · rename_i h; simp at h; exact absurd h.2.1 hx.2
    · rfl

theorem charAt_bytesToHex (done todo : List Nat) (j : Nat) :
    charAt (bytesToHex (done ++ todo)) (done.length * 2 + j)
      = (bytesToHexChars todo).getD j (Char.ofNat 0) := by
  unfold charAt bytesToHex
  simp only [bytesToHexChars_append]
  rw [List.getD_append_right]
  · congr 1
    rw [bytesToHexChars_length]; omega
  · rw [bytesToHexChars_length]; omega

theorem byte_nibbles (t : Nat) (ht : t < 256) :
    hexToNibble (nibbleToHex (t >>> 4)) = t / 16 ∧ hexToNibble (nibbleToHex (t &&& 0x0F)) = t % 16 := by
  have h1 : t >>> 4 = t / 16 := by rw [Nat.shiftRight_eq_div_pow]
  have h2 : t &&& 0x0F = t % 16 := Nat.and_pow_two_sub_one_eq_mod t 4
  rw [h1, h2]
  exact ⟨hexToNibble_nibbleToHex _ (by omega), hexToNibble_nibbleToHex _ (Nat.mod_lt _ (by decide))⟩

theorem hexToBytesLoop_bytesToHex (todo : List Nat) :
    ∀ (done pre tail : List Nat), done.length = pre.length → todo.length ≤ tail.length →
      (∀ x ∈ todo, x < 256) →
      hexToBytesLoop (bytesToHex (done ++ todo)) todo.length pre.length (pre ++ tail)
        = (true, pre ++ todo ++ tail.drop todo.length) := by
  induction todo with
  | nil => intro done pre tail _ _ _; simp [hexToBytesLoop]
  | cons t ts ih =>
    intro done pre tail hlen htail hbytes
    have ht : t < 256 := hbytes t (List.mem_cons_self _ _)
    obtain ⟨hhi, hlo⟩ := byte_nibbles t ht
    cases tail with
    | nil => simp at htail
    | cons x tail' =>
      have c0 := charAt_bytesToHex done (t :: ts) 0
      have c1 := charAt_bytesToHex done (t :: ts) 1
      simp only [bytesToHexChars, List.getD_cons_zero, List.getD_cons_succ, Nat.add_zero] at c0 c1
      rw [hlen] at c0 c1
      simp only [List.length_cons, hexToBytesLoop, c0, c1, hhi, hlo]
      have hne : ¬ (t / 16 = 0xFF ∨ t % 16 = 0xFF) := by omega
      rw [if_neg hne, pack_nibbles _ (by omega) _ (Nat.mod_lt _ (by decide))]
      have hset : (pre ++ x :: tail').set pre.length (t / 16 * 16 + t % 16) = (pre ++ [t]) ++ tail' := by
        have : t / 16 * 16 + t % 16 = t := by omega
        rw [this]; simp
      rw [hset]
      have key := ih (done ++ [t]) (pre ++ [t]) tail' (by simp [hlen]) (by simpa using htail)
        (fun y hy => hbytes y (List.mem_cons_of_mem _ hy))
      simp only [List.append_assoc, List.singleton_append, List.length_append, List.length_singleton] at key
      simp only [List.append_assoc, List.singleton_append, List.drop_succ_cons, List.cons_append]
      exact key

theorem hexToBytes_after_bytesToHex (b buf : List Nat) (maxLength : Nat)
    (hb : ∀ x ∈ b, x < 256) (hcap : b.length ≤ maxLength) (hbuf : maxLength ≤ buf.length) :
    hexToBytes (bytesToHex b) buf maxLength = (true, b ++ buf.drop b.length) := by
  have hlen : (bytesToHex b).length = 2 * b.length := bytesToHexChars_length b
  have hloop := hexToBytesLoop_bytesToHex b [] [] buf rfl (by omega) hb
  simp only [List.nil_append, List.length_nil] at hloop
  unfold hexToBytes
  simp only [removeHexPrefix_bytesToHex, hlen]
  rw [if_neg (by omega), if_neg (by omega)]
  have h2 : 2 * b.length / 2 = b.length := by omega
  rw [h2, hloop]

/-- Claim C1: hex round trip. For every byte sequence `b` and every capacity
`maxLength ≥ length b` of a buffer that really has that many bytes,
`hexToBytes (bytesToHex b) buf maxLength` succeeds and the first `length b` bytes of the
buffer are `b`. -/
theorem hexToBytes_bytesToHex (b buf : List Nat) (maxLength : Nat)
    (hb : ∀ x ∈ b, x < 256) (hcap : b.length ≤ maxLength) (hbuf : maxLength ≤ buf.length) :
    (hexToBytes (bytesToHex b) buf maxLength).1 = true ∧
      (hexToBytes (bytesToHex b) buf maxLength).2.take b.length = b := by
  rw [hexToBytes_after_bytesToHex b buf maxLength hb hcap hbuf]
  simp

theorem hexToBytes_bytesToHex_witness :
    (∀ x ∈ [0, 255, 26], x < 256) ∧
    (hexToBytes (bytesToHex [0, 255, 26]) [9, 9, 9, 9] 4).1 = true ∧
      (hexToBytes (bytesToHex [0, 255, 26]) [9, 9, 9, 9] 4).2.take 3 = [0, 255, 26] :=
  ⟨by decide, hexToBytes_bytesToHex [0, 255, 26] [9, 9, 9, 9] 4 (by decide) (by decide) (by decide)⟩

theorem char_le_iff (a b : Char) : a ≤ b ↔ a.toNat ≤ b.toNat := by
  rfl

theorem hexToNibble_lt_of_isHexDigit (c : Char) (h : isHexDigit c) : hexToNibble c < 16 := by
  unfold isHexDigit at h
  unfold hexToNibble
  simp only [char_le_iff] at h ⊢
  have e0 : '0'.toNat = 48 := rfl
  have e9 : '9'.toNat = 57 := rfl
  have ea : 'a'.toNat = 97 := rfl
  have ef : 'f'.toNat = 102 := rfl
  have eA : 'A'.toNat = 65 := rfl
  have eF : 'F'.toNat = 70 := rfl
  rw [e0, e9, ea, ef, eA, eF] at h ⊢
  split_ifs <;> omega

theorem hexToNibble_eq_ff_iff (c : Char) : hexToNibble c = 0xFF ↔ ¬ isHexDigit c := by
  constructor
  · intro h hd
    have := hexToNibble_lt_of_isHexDigit c hd
    omega
  · intro h
    unfold isHexDigit at h
    unfold hexToNibble
    split_ifs with h1 h2 h3
    · exact absurd (Or.inl h1) h
    · exact absurd (Or.inr (Or.inl h2)) h
    · exact absurd (Or.inr (Or.inr h3)) h
    · rfl

theorem hexToBytesLoop_ok_iff (s : String) (n : Nat) :
    ∀ (i : Nat) (bytes : List Nat),
      (hexToBytesLoop s n i bytes).1 = true ↔
        ∀ j, i * 2 ≤ j → j < (i + n) * 2 → isHexDigit (charAt s j) := by
  induction n with
  | zero => intro i bytes; simp [hexToBytesLoop]; intro j h1 h2; omega
  | succ n ih =>
    intro i bytes
    simp only [hexToBytesLoop]
    split_ifs with hbad
    · simp only [Bool.false_eq_true, false_iff]
      intro hall
      rcases hbad with hb | hb
      · exact (hexToNibble_eq_ff_iff _).1 hb (hall _ (by omega) (by omega))
      · exact (hexToNibble_eq_ff_iff _).1 hb (hall _ (by omega) (by omega))
    · rw [ih]
      have hhi : isHexDigit (charAt s (i * 2)) := by
        by_contra hc; exact hbad (Or.inl ((hexToNibble_eq_ff_iff _).2 hc))
      have hlo : isHexDigit (charAt s (i * 2 + 1)) := by
        by_contra hc; exact hbad (Or.inr ((hexToNibble_eq_ff_iff _).2 hc))
      constructor
      · intro hall j h1 h2
        by_cases e0 : j = i * 2
        · rw [e0]; exact hhi
        · by_cases e1 : j = i * 2 + 1
          · rw [e1]; exact hlo
          · exact hall j (by omega) (by omega)
      · intro hall j h1 h2
        exact hall j (by omega) (by omega)

theorem all_charAt_iff (s : String) :
    (∀ j, j < s.length → isHexDigit (charAt s j)) ↔ ∀ c ∈ s.data, isHexDigit c := by
  unfold charAt
  constructor
  · intro h c hc
    obtain ⟨n, hn, rfl⟩ := List.getElem_of_mem hc
    have := h n hn
    rwa [List.getD_eq_getElem _ _ hn] at this
  · intro h j hj
    rw [List.getD_eq_getElem _ _ hj]
    exact h _ (List.getElem_mem _)

/-- Claim C2: `hexToBytes` fails exactly when, after the optional `0x`/`0X` is stripped,
the text has odd length, or holds a character outside `0-9a-fA-F`, or has more than
`2 * maxLength` characters; it succeeds in every other case. In particular
`hexToBytes "0xZZ" buf 32` fails for every buffer. -/
theorem hexToBytes_fails_iff :
    (∀ (hex : String) (buf : List Nat) (maxLength : Nat),
      (hexToBytes hex buf maxLength).1 = false ↔
        ((removeHexPrefix hex).length % 2 = 1 ∨
          (∃ c ∈ (removeHexPrefix hex).data, ¬ isHexDigit c) ∨
          (removeHexPrefix hex).length > 2 * maxLength)) ∧
    (∀ buf : List Nat, (hexToBytes "0xZZ" buf 32).1 = false) := by
  refine ⟨?_, fun buf => rfl⟩
  intro hex buf maxLength
  unfold hexToBytes
  simp only
  generalize removeHexPrefix hex = s
  split_ifs with hodd hbig
  · simp only [true_iff]; left; omega
  · simp only [true_iff]; right; right; omega
  · have hok := hexToBytesLoop_ok_iff s (s.length / 2) 0 buf
    have hlen : (0 + s.length / 2) * 2 = s.length := by omega
    rw [hlen] at hok
    have hall := all_charAt_iff s
    rw [← Bool.not_eq_true, hok]
    constructor
    · intro hn
      right; left
      by_contra hc
      push_neg at hc
      exact hn (fun j _ hj => hall.2 hc j hj)
    · rintro (h | ⟨c, hc, hnc⟩ | h)
      · omega
      · intro hn
        exact hnc (hall.1 (fun j hj => hn j (by omega) hj) c hc)
      · omega

theorem replicate_append_cons {α : Type} (a : α) (l : List α) (k : Nat) :
    List.replicate k a ++ a :: l = List.replicate (k + 1) a ++ l := by
  induction k with
  | zero => rfl
  | succ k ih => rw [List.replicate_succ, List.cons_append, ih]; rfl

theorem padLoop_data_aux (n : Nat) :
    ∀ s : String, 64 - s.length = n →
      (padLoop s).data = List.replicate (64 - s.length) '0' ++ s.data := by
  induction n with
  | zero =>
    intro s h
    rw [padLoop, if_neg (by omega), h]; simp
  | succ n ih =>
    intro s h
    rw [padLoop, if_pos (by omega)]
    have hl : ("0" ++ s).length = s.length + 1 := by
      rw [String.length_append]; have : "0".length = 1 := rfl; omega
    rw [ih ("0" ++ s) (by omega), hl]
    have hd : ("0" ++ s).data = '0' :: s.data := rfl
    have hk : 64 - s.length = (64 - (s.length + 1)) + 1 := by omega
    rw [hd, hk, replicate_append_cons]

theorem padLoop_data (s : String) :
    (padLoop s).data = List.replicate (64 - s.length) '0' ++ s.data :=
  padLoop_data_aux _ s rfl

theorem toLower_eq_self_of_not_upper (c : Char) (h : ¬ (65 ≤ c.toNat ∧ c.toNat ≤ 90)) :
    c.toLower = c := by
  unfold Char.toLower
  simp only [ge_iff_le]
  rw [if_neg h]

theorem toLower_upper_table :
    ∀ n, n < 91 → 65 ≤ n →
      ((Char.ofNat n).toLower).toNat = n + 32 := by
  decide

theorem toLower_toNat_of_upper (c : Char) (h : 65 ≤ c.toNat ∧ c.toNat ≤ 90) :
    c.toLower.toNat = c.toNat + 32 := by
  have := toLower_upper_table c.toNat (by omega) h.1
  rwa [Char.ofNat_toNat] at this

theorem toLower_idem (c : Char) : c.toLower.toLower = c.toLower := by
  by_cases h : 65 ≤ c.toNat ∧ c.toNat ≤ 90
  · apply toLower_eq_self_of_not_upper
    rw [toLower_toNat_of_upper c h]; omega
  · rw [toLower_eq_self_of_not_upper c h, toLower_eq_self_of_not_upper c h]

theorem toLowerCase_idem (s : String) : toLowerCase (toLowerCase s) = toLowerCase s := by
  unfold toLowerCase
  congr 1
  rw [List.map_map]
  exact List.map_congr_left (fun c _ => toLower_idem c)

theorem removeHexPrefix_0x (t : String) : removeHexPrefix ("0x" ++ t) = t := rfl

theorem padLoop_of_long (s : String) (h : 64 ≤ s.length) : padLoop s = s := by
  rw [padLoop, if_neg (by omega)]

theorem padLoop_length_ge (s : String) : 64 ≤ (padLoop s).length := by
  show 64 ≤ (padLoop s).data.length
  rw [padLoop_data]
  simp only [List.length_append, List.length_replicate]
  have : s.data.length = s.length := rfl
  omega

theorem toLowerCase_padLoop (s : String) :
    toLowerCase (padLoop (toLowerCase s)) = padLoop (toLowerCase s) := by
  apply String.ext
  show ((padLoop (toLowerCase s)).data.map Char.toLower) = _
  rw [padLoop_data]
  simp only [List.map_append, List.map_replicate]
  have h0 : Char.toLower '0' = '0' := by decide
  rw [h0]
  congr 1
  show (s.data.map Char.toLower).map Char.toLower = s.data.map Char.toLower
  rw [List.map_map]
  exact List.map_congr_left (fun c _ => toLower_idem c)

/-- Claim C3: `padHexAddress` is idempotent on every string. -/
theorem padHexAddress_idempotent (a : String) :
    padHexAddress (padHexAddress a) = padHexAddress a := by
  unfold padHexAddress
  rw [removeHexPrefix_0x, toLowerCase_padLoop, padLoop_of_long _ (padLoop_length_ge _)]

theorem padHexAddress_data (a : String) :
    (padHexAddress a).data =
      '0' :: 'x' :: (List.replicate (64 - (toLowerCase (removeHexPrefix a)).length) '0'
        ++ (toLowerCase (removeHexPrefix a)).data) := by
  unfold padHexAddress
  rw [String.data_append, padLoop_data]
  rfl

theorem toLowerCase_length (s : String) : (toLowerCase s).length = s.length := by
  show (s.data.map Char.toLower).length = s.data.length
  simp

theorem char_consts :
    '0'.toNat = 48 ∧ '9'.toNat = 57 ∧ 'a'.toNat = 97 ∧ 'f'.toNat = 102 ∧
      'A'.toNat = 65 ∧ 'F'.toNat = 70 := by decide

theorem isLowerHexDigit_toLower (c : Char) (h : isHexDigit c) : isLowerHexDigit c.toLower := by
  obtain ⟨e0, e9, ea, ef, eA, eF⟩ := char_consts
  unfold isHexDigit at h
  unfold isLowerHexDigit
  simp only [char_le_iff] at h ⊢
  rw [e0, e9, ea, ef, eA, eF] at h
  rw [e0, e9, ea, ef]
  by_cases hu : 65 ≤ c.toNat ∧ c.toNat ≤ 90
  · rw [toLower_toNat_of_upper c hu]; omega
  · rw [toLower_eq_self_of_not_upper c hu]; omega

theorem hexToNibble_toLower (c : Char) :
    hexToNibble c.toLower = hexToNibble c := by
  obtain ⟨e0, e9, ea, ef, eA, eF⟩ := char_consts
  by_cases hu : 65 ≤ c.toNat ∧ c.toNat ≤ 90
  · have ht := toLower_toNat_of_upper c hu
    unfold hexToNibble
    simp only [char_le_iff]
    rw [e0, e9, ea, ef, eA, eF, ht]
    split_ifs <;> omega
  · rw [toLower_eq_self_of_not_upper c hu]

/-- Claim C4 as stated fails: `padHexAddress "0xZZ"` is not `0x` followed by 64
lowercase hex digits (it ends in `zz`), and on a 65-digit input the result has length
67, not 66. -/
theorem padHexAddress_not_always_normalized :
    ¬ isNormalizedAddress (padHexAddress "0xZZ") ∧
      (padHexAddress
        "11111111111111111111111111111111111111111111111111111111111111111").length = 67 := by
  constructor
  · unfold isNormalizedAddress
    rw [padHexAddress_data]
    decide
  · show (padHexAddress _).data.length = 67
    rw [padHexAddress_data]
    decide

/-- Claim C4, amended: for every input that, after the optional `0x`/`0X` is stripped,
consists of at most 64 hexadecimal digits, `padHexAddress` yields `0x` followed by
exactly 64 lowercase hex digits, a text of length 66. -/
theorem padHexAddress_normalized (a : String)
    (hhex : ∀ c ∈ (removeHexPrefix a).data, isHexDigit c)
    (hlen : (removeHexPrefix a).length ≤ 64) :
    isNormalizedAddress (padHexAddress a) ∧ (padHexAddress a).length = 66 := by
  have hl := toLowerCase_length (removeHexPrefix a)
  have hl2 : (toLowerCase (removeHexPrefix a)).data.length = (removeHexPrefix a).length := hl
  constructor
  · unfold isNormalizedAddress
    rw [padHexAddress_data]
    refine ⟨rfl, ?_, ?_⟩
    · simp only [List.drop_succ_cons, List.drop_zero, List.length_append, List.length_replicate]
      omega
    · simp only [List.drop_succ_cons, List.drop_zero, List.mem_append]
      rintro c (hc | hc)
      · rw [List.eq_of_mem_replicate hc]; decide
      · change c ∈ (removeHexPrefix a).data.map Char.toLower at hc
        obtain ⟨c0, hc0, rfl⟩ := List.mem_map.1 hc
        exact isLowerHexDigit_toLower c0 (hhex c0 hc0)
  · show (padHexAddress a).data.length = 66
    rw [padHexAddress_data]
    simp only [List.length_cons, List.length_append, List.length_replicate]
    omega

theorem padHexAddress_normalized_witness :
    isNormalizedAddress (padHexAddress "0xCAFE") ∧ (padHexAddress "0xCAFE").length = 66 :=
  padHexAddress_normalized "0xCAFE" (by decide) (by decide)

theorem removeHexPrefix_of_hex (d : String) (hhex : ∀ c ∈ d.data, isHexDigit c) :
    removeHexPrefix d = d := by
  unfold removeHexPrefix
  split
  · rename_i rest h
    exact absurd (hhex 'x' (by rw [h]; simp)) (by decide)
  · rename_i rest h
    exact absurd (hhex 'X' (by rw [h]; simp)) (by decide)
  · rfl

theorem removeHexPrefix_of_prefixed (p d : String) (hp : p = "" ∨ p = "0x" ∨ p = "0X")
    (hhex : ∀ c ∈ d.data, isHexDigit c) : removeHexPrefix (p ++ d) = d := by
  rcases hp with rfl | rfl | rfl
  · have : "" ++ d = d := by apply String.ext; rfl
    rw [this]; exact removeHexPrefix_of_hex d hhex
  · rfl
  · rfl

theorem foldl_hex_zeros (k : Nat) :
    (List.replicate k '0').foldl (fun acc c => acc * 16 + hexToNibble c) 0 = 0 := by
  induction k with
  | zero => rfl
  | succ k ih => rw [List.replicate_succ, List.foldl_cons]; exact ih

theorem foldl_hex_toLower (cs : List Char) :
    ∀ acc : Nat, (cs.map Char.toLower).foldl (fun acc c => acc * 16 + hexToNibble c) acc
      = cs.foldl (fun acc c => acc * 16 + hexToNibble c) acc := by
  induction cs with
  | nil => intro acc; rfl
  | cons c cs ih =>
    intro acc
    simp only [List.map_cons, List.foldl_cons, hexToNibble_toLower]
    exact ih _

theorem getD_padded (k i : Nat) (cs : List Char) (z : Char) :
    ('0' :: 'x' :: (List.replicate k '0' ++ cs)).getD (2 + k + i) z = cs.getD i z := by
  have e : 2 + k + i = (k + i) + 1 + 1 := by omega
  rw [e, List.getD_cons_succ, List.getD_cons_succ, List.getD_eq_getElem?_getD,
    List.getD_eq_getElem?_getD,
    List.getElem?_append_right (by rw [List.length_replicate]; omega), List.length_replicate]
  have e2 : k + i - k = i := by omega
  rw [e2]

theorem getD_padded_zero (k i : Nat) (cs : List Char) (z : Char) (h : i < k) :
    ('0' :: 'x' :: (List.replicate k '0' ++ cs)).getD (2 + i) z = '0' := by
  have e : 2 + i = i + 1 + 1 := by omega
  rw [e, List.getD_cons_succ, List.getD_cons_succ, List.getD_eq_getElem?_getD,
    List.getElem?_append_left (by rw [List.length_replicate]; exact h)]
  simp [List.getElem?_replicate, h]

theorem getD_map_toLower (cs : List Char) (i : Nat) (h : i < cs.length) (z : Char) :
    (cs.map Char.toLower).getD i z = (cs.getD i z).toLower := by
  rw [List.getD_eq_getElem?_getD, List.getD_eq_getElem?_getD, List.getElem?_map,
    List.getElem?_eq_getElem h]
  rfl

theorem isHexDigit_getD (cs : List Char) (hhex : ∀ c ∈ cs, isHexDigit c) (i : Nat)
    (h : i < cs.length) (z : Char) : isHexDigit (cs.getD i z) := by
  rw [List.getD_eq_getElem _ _ h]
  exact hhex _ (List.getElem_mem _)

theorem toLower_of_hexDigit (c : Char) (h : isHexDigit c) :
    (¬ ('A' ≤ c ∧ c ≤ 'F') → c.toLower = c) ∧
      ('A' ≤ c ∧ c ≤ 'F' → c.toLower.toNat = c.toNat + 32) := by
  obtain ⟨e0, e9, ea, ef, eA, eF⟩ := char_consts
  unfold isHexDigit at h
  simp only [char_le_iff] at h ⊢
  rw [e0, e9, ea, ef, eA, eF] at h
  rw [eA, eF]
  constructor
  · intro hn
    exact toLower_eq_self_of_not_upper c (by omega)
  · intro hu
    exact toLower_toNat_of_upper c (by omega)

/-- Claim C5: for an address made of an optional `0x`/`0X` prefix `p` and 1 to 64
hexadecimal digits `d`, `padHexAddress` returns `0x`, then `64 - |d|` zeros, then `d` in
lowercase: every padding character is `0`, and every digit of `d` appears at its place
as a character of `0-9a-f` with the same value, unchanged unless it is one of `A-F`,
which becomes the letter 32 code points higher. The result has length 66 and its
digits denote the same number as `d`. -/
theorem padHexAddress_spec (p d : String) (hp : p = "" ∨ p = "0x" ∨ p = "0X")
    (hmin : 1 ≤ d.length) (hmax : d.length ≤ 64) (hhex : ∀ c ∈ d.data, isHexDigit c) :
    padHexAddress (p ++ d)
        = "0x" ++ String.mk (List.replicate (64 - d.length) '0')
            ++ String.mk (d.data.map Char.toLower) ∧
      (padHexAddress (p ++ d)).length = 66 ∧
      (∀ i, i < 64 - d.length → charAt (padHexAddress (p ++ d)) (2 + i) = '0') ∧
      (∀ i, i < d.length →
        isLowerHexDigit (charAt (padHexAddress (p ++ d)) (66 - d.length + i)) ∧
        hexToNibble (charAt (padHexAddress (p ++ d)) (66 - d.length + i))
          = hexToNibble (charAt d i) ∧
        (¬ ('A' ≤ charAt d i ∧ charAt d i ≤ 'F') →
          charAt (padHexAddress (p ++ d)) (66 - d.length + i) = charAt d i) ∧
        ('A' ≤ charAt d i ∧ charAt d i ≤ 'F' →
          (charAt (padHexAddress (p ++ d)) (66 - d.length + i)).toNat
            = (charAt d i).toNat + 32)) ∧
      hexValue (removeHexPrefix (padHexAddress (p ++ d))) = hexValue d := by
  have hr := removeHexPrefix_of_prefixed p d hp hhex
  have hl := toLowerCase_length d
  have hl2 : (toLowerCase d).data.length = d.length := hl
  have hdata := padHexAddress_data (p ++ d)
  rw [hr, hl] at hdata
  have hmap : (toLowerCase d).data = d.data.map Char.toLower := rfl
  rw [hmap] at hdata
  have hlen : d.data.length = d.length := rfl
  refine ⟨?_, ?_, ?_, ?_, ?_⟩
  · apply String.ext
    rw [hdata]
    simp only [String.data_append]
    rfl
  · show (padHexAddress (p ++ d)).data.length = 66
    rw [hdata]
    simp only [List.length_cons, List.length_append, List.length_replicate, List.length_map]
    omega
  · intro i hi
    unfold charAt
    rw [hdata]
    exact getD_padded_zero _ i _ _ hi
  · intro i hi
    have hidx : 66 - d.length + i = 2 + (64 - d.length) + i := by omega
    have hch : charAt (padHexAddress (p ++ d)) (66 - d.length + i) = (charAt d i).toLower := by
      unfold charAt
      rw [hdata, hidx, getD_padded, getD_map_toLower _ _ (by rw [hlen]; exact hi)]
    have hdig : isHexDigit (charAt d i) :=
      isHexDigit_getD d.data hhex i (by rw [hlen]; exact hi) _
    rw [hch]
    exact ⟨isLowerHexDigit_toLower _ hdig, hexToNibble_toLower _,
      (toLower_of_hexDigit _ hdig).1, (toLower_of_hexDigit _ hdig).2⟩
  · unfold padHexAddress
    rw [removeHexPrefix_0x, hr]
    unfold hexValue
    rw [padLoop_data, hl, List.foldl_append, foldl_hex_zeros]
    exact foldl_hex_toLower d.data 0

theorem padHexAddress_spec_witness :
    padHexAddress ("0X" ++ "CAFE")
        = "0x000000000000000000000000000000000000000000000000000000000000cafe" ∧
      (padHexAddress ("0X" ++ "CAFE")).length = 66 ∧
      (charAt (padHexAddress ("0X" ++ "CAFE")) (66 - "CAFE".length + 0)).toNat
        = (charAt "CAFE" 0).toNat + 32 ∧
      hexValue (removeHexPrefix (padHexAddress ("0X" ++ "CAFE"))) = 51966 :=
  ⟨(padHexAddress_spec "0X" "CAFE" (by decide) (by decide) (by decide) (by decide)).1.trans
      (by decide),
    (padHexAddress_spec "0X" "CAFE" (by decide) (by decide) (by decide) (by decide)).2.1,
    ((padHexAddress_spec "0X" "CAFE" (by decide) (by decide) (by decide)
      (by decide)).2.2.2.1 0 (by decide)).2.2.2 (by decide),
    (padHexAddress_spec "0X" "CAFE" (by decide) (by decide) (by decide)
      (by decide)).2.2.2.2.trans (by decide)⟩

theorem serializeU64Bytes_eq (v : Nat) :
    serializeU64Bytes v =
      [v % 256, v / 256 % 256, v / 256 ^ 2 % 256, v / 256 ^ 3 % 256, v / 256 ^ 4 % 256,
        v / 256 ^ 5 % 256, v / 256 ^ 6 % 256, v / 256 ^ 7 % 256] := by
  have hm : ∀ x : Nat, x &&& 0xFF = x % 256 := fun x => Nat.and_pow_two_sub_one_eq_mod x 8
  have hs : ∀ k : Nat, v >>> (k * 8) = v / 256 ^ k := by
    intro k
    rw [Nat.shiftRight_eq_div_pow, Nat.mul_comm, Nat.pow_mul]
  show List.map _ [0, 1, 2, 3, 4, 5, 6, 7] = _
  simp only [List.map_cons, List.map_nil, hm, hs]
  simp

theorem bytesToHex_injective (a b : List Nat) (ha : ∀ x ∈ a, x < 256) (hb : ∀ x ∈ b, x < 256)
    (hlen : a.length = b.length) (h : bytesToHex a = bytesToHex b) : a = b := by
  have h1 := hexToBytes_after_bytesToHex a (List.replicate a.length 0) a.length ha (le_refl _) (by simp)
  have h2 := hexToBytes_after_bytesToHex b (List.replicate a.length 0) a.length hb (by omega) (by simp)
  rw [h] at h1
  rw [h1] at h2
  simpa [hlen] using h2

/-- Claim C6: for every `v < 2^64`, `serializeU64 v` is the hex text (16 characters) of
exactly 8 bytes, byte `i` being `v / 256^i % 256` (little-endian); decoding the text with
`hexToBytes` gives those bytes back and their little-endian sum is `v`; hence
`serializeU64` is injective on 64-bit values. -/
theorem serializeU64_roundtrip (v : Nat) (hv : v < 2 ^ 64) :
    (serializeU64Bytes v).length = 8 ∧
      (∀ i, i < 8 → (serializeU64Bytes v).getD i 0 = v / 256 ^ i % 256) ∧
      serializeU64 v = bytesToHex (serializeU64Bytes v) ∧
      (serializeU64 v).length = 16 ∧
      hexToBytes (serializeU64 v) (List.replicate 8 0) 8 = (true, serializeU64Bytes v) ∧
      decodeLE (serializeU64Bytes v) = v ∧
      ∀ w, w < 2 ^ 64 → serializeU64 w = serializeU64 v → w = v := by
  have hbytes : ∀ u : Nat, ∀ x ∈ serializeU64Bytes u, x < 256 := by
    intro u x hx
    rw [serializeU64Bytes_eq] at hx
    simp only [List.mem_cons, List.mem_singleton, List.not_mem_nil, or_false] at hx
    rcases hx with h | h | h | h | h | h | h | h <;> rw [h] <;> exact Nat.mod_lt _ (by decide)
  have hdec : ∀ u : Nat, u < 2 ^ 64 → decodeLE (serializeU64Bytes u) = u := by
    intro u hu
    rw [serializeU64Bytes_eq]
    simp only [decodeLE]
    norm_num at hu ⊢
    omega
  have hlen : ∀ u : Nat, (serializeU64Bytes u).length = 8 := fun u => by
    rw [serializeU64Bytes_eq]; rfl
  refine ⟨hlen v, ?_, rfl, ?_, ?_, hdec v hv, ?_⟩
  · intro i hi
    rw [serializeU64Bytes_eq]
    interval_cases i <;> simp
  · show (bytesToHexChars (serializeU64Bytes v)).length = 16
    rw [bytesToHexChars_length, hlen]
  · have h := hexToBytes_after_bytesToHex (serializeU64Bytes v) (List.replicate 8 0) 8 (hbytes v)
      (by rw [hlen]) (by simp)
    unfold serializeU64
    rw [h, hlen]
    simp
  · intro w hw heq
    have hb := bytesToHex_injective _ _ (hbytes w) (hbytes v) (by rw [hlen, hlen]) heq
    rw [← hdec w hw, ← hdec v hv, hb]

theorem serializeU64_roundtrip_witness :
    (serializeU64Bytes (2 ^ 63)).length = 8 ∧
      (∀ i, i < 8 → (serializeU64Bytes (2 ^ 63)).getD i 0 = 2 ^ 63 / 256 ^ i % 256) ∧
      serializeU64 (2 ^ 63) = bytesToHex (serializeU64Bytes (2 ^ 63)) ∧
      (serializeU64 (2 ^ 63)).length = 16 ∧
      hexToBytes (serializeU64 (2 ^ 63)) (List.replicate 8 0) 8
        = (true, serializeU64Bytes (2 ^ 63)) ∧
      decodeLE (serializeU64Bytes (2 ^ 63)) = 2 ^ 63 ∧
      ∀ w, w < 2 ^ 64 → serializeU64 w = serializeU64 (2 ^ 63) → w = 2 ^ 63 :=
  serializeU64_roundtrip (2 ^ 63) (by decide)

end AptosUtils

namespace Json

theorem any_setField (members : List (String × Json)) (key : String) (v : Json) (k : String) :
    (setField members key v).any (fun m => m.1 == k)
      = (members.any (fun m => m.1 == k) || (key == k)) := by
  induction members with
  | nil => simp [setField]
  | cons m rest ih =>
    unfold setField
    by_cases h : (m.1 == key) = true
    · rw [if_pos h]
      have hk : m.1 = key := by simpa using h
      simp only [List.any_cons, hk]
      cases (key == k) <;> simp
    · rw [if_neg h]
      simp only [List.any_cons, ih, Bool.or_assoc]

theorem containsKey_setMember_of_ne (d : Json) (key : String) (v : Json) (k : String)
    (hne : key ≠ k) : (d.setMember key v).containsKey k = d.containsKey k := by
  have hb : (key == k) = false := by simpa using hne
  cases d <;> simp [setMember, containsKey, any_setField, hb]

theorem containsKey_setMember_mono (d : Json) (key : String) (v : Json) (k : String)
    (h : d.containsKey k = true) : (d.setMember key v).containsKey k = true := by
  cases d with
  | obj members =>
    simp only [setMember, containsKey, any_setField] at h ⊢
    rw [h]; rfl
  | _ => simp [containsKey] at h

theorem find_setField_self (members : List (String × Json)) (key : String) (v : Json) :
    (setField members key v).find? (fun m => m.1 == key) = some (key, v) := by
  induction members with
  | nil => simp [setField]
  | cons m rest ih =>
    unfold setField
    by_cases h : (m.1 == key) = true
    · rw [if_pos h]; simp
    · rw [if_neg h]
      simp only [List.find?_cons, h]
      exact ih

theorem find_setField_of_ne (members : List (String × Json)) (key : String) (v : Json)
    (k : String) (hne : key ≠ k) :
    (setField members key v).find? (fun m => m.1 == k) = members.find? (fun m => m.1 == k) := by
  have hb : (key == k) = false := by simpa using hne
  induction members with
  | nil => simp [setField, List.find?_cons, hb]
  | cons m rest ih =>
    unfold setField
    by_cases h : (m.1 == key) = true
    · rw [if_pos h]
      have hk : m.1 = key := by simpa using h
      simp only [List.find?_cons, hb, hk]
    · rw [if_neg h]
      simp only [List.find?_cons, ih]

theorem getMember_setMember_self (d : Json) (key : String) (v : Json)
    (hd : d = null ∨ ∃ members, d = obj members) :
    (d.setMember key v).getMember key = some v := by
  rcases hd with rfl | ⟨members, rfl⟩
  · simp [setMember, getMember]
  · simp [setMember, getMember, find_setField_self]

theorem getMember_setMember_of_ne (d : Json) (key : String) (v : Json) (k : String)
    (hne : key ≠ k) : (d.setMember key v).getMember k = d.getMember k := by
  have hb : (key == k) = false := by simpa using hne
  cases d with
  | obj members => simp only [setMember, getMember, find_setField_of_ne _ _ _ _ hne]
  | null => simp [setMember, getMember, List.find?_cons, hb]
  | _ => rfl

theorem isObj_of_containsKey (d : Json) (k : String) (h : d.containsKey k = true) :
    ∃ members, d = obj members := by
  cases d with
  | obj members => exact ⟨members, rfl⟩
  | _ => simp [containsKey] at h

theorem isObj_setMember (d : Json) (key : String) (v : Json)
    (hd : d = null ∨ ∃ members, d = obj members) :
    ∃ members, d.setMember key v = obj members := by
  rcases hd with rfl | ⟨members, rfl⟩
  · exact ⟨_, rfl⟩
  · exact ⟨_, rfl⟩

end Json

namespace AptosTransaction
open AptosUtils

theorem build_eq (t : AptosTransaction) (millis : Nat) :
    build t millis =
      if !(withDefaults t millis).transaction.containsKey "sender" then
        (false, { withDefaults t millis with lastError := "Sender is required" })
      else if !(withDefaults t millis).transaction.containsKey "sequence_number" then
        (false, { withDefaults t millis with lastError := "Sequence number is required" })
      else if !(withDefaults t millis).transaction.containsKey "payload" then
        (false, { withDefaults t millis with lastError := "Payload is required" })
      else
        (true, { withDefaults t millis with isBuilt := true }) := rfl

theorem withDefaults_isBuilt (t : AptosTransaction) (millis : Nat) :
    (withDefaults t millis).isBuilt = t.isBuilt := by
  unfold withDefaults setMaxGasAmount setGasUnitPrice setExpirationTimestamp
  simp only
  split_ifs <;> rfl

theorem withDefaults_lastError (t : AptosTransaction) (millis : Nat) :
    (withDefaults t millis).lastError = t.lastError := by
  unfold withDefaults setMaxGasAmount setGasUnitPrice setExpirationTimestamp
  simp only
  split_ifs <;> rfl

theorem withDefaults_containsKey (t : AptosTransaction) (millis : Nat) (k : String)
    (h1 : "max_gas_amount" ≠ k) (h2 : "gas_unit_price" ≠ k)
    (h3 : "expiration_timestamp_secs" ≠ k) :
    (withDefaults t millis).transaction.containsKey k = t.transaction.containsKey k := by
  unfold withDefaults setMaxGasAmount setGasUnitPrice setExpirationTimestamp
  simp only
  split_ifs <;>
    simp only [Json.containsKey_setMember_of_ne _ _ _ _ h1,
      Json.containsKey_setMember_of_ne _ _ _ _ h2, Json.containsKey_setMember_of_ne _ _ _ _ h3]

theorem withDefaults_mono (t : AptosTransaction) (millis : Nat) (k : String)
    (h : t.transaction.containsKey k = true) :
    (withDefaults t millis).transaction.containsKey k = true := by
  unfold withDefaults setMaxGasAmount setGasUnitPrice setExpirationTimestamp
  simp only
  split_ifs <;> repeat (first | exact h | apply Json.containsKey_setMember_mono)

theorem withDefaults_hasRequired (t : AptosTransaction) (millis : Nat) :
    hasRequired (withDefaults t millis) = hasRequired t := by
  unfold hasRequired
  rw [withDefaults_containsKey t millis "sender" (by decide) (by decide) (by decide),
    withDefaults_containsKey t millis "sequence_number" (by decide) (by decide) (by decide),
    withDefaults_containsKey t millis "payload" (by decide) (by decide) (by decide)]

theorem build_fst (t : AptosTransaction) (millis : Nat) :
    (build t millis).1 = hasRequired t := by
  rw [build_eq, ← withDefaults_hasRequired t millis]
  unfold hasRequired
  cases (withDefaults t millis).transaction.containsKey "sender" <;>
    cases (withDefaults t millis).transaction.containsKey "sequence_number" <;>
    cases (withDefaults t millis).transaction.containsKey "payload" <;> rfl

theorem build_error_of_missing (t : AptosTransaction) (millis : Nat)
    (h : hasRequired t = false) : getError (build t millis).2 ≠ "" := by
  rw [← withDefaults_hasRequired t millis] at h
  rw [build_eq]
  unfold hasRequired at h
  unfold getError
  cases h1 : (withDefaults t millis).transaction.containsKey "sender" <;>
    cases h2 : (withDefaults t millis).transaction.containsKey "sequence_number" <;>
    cases h3 : (withDefaults t millis).transaction.containsKey "payload" <;>
    simp [h1, h2, h3] at h ⊢

/-- Claim C7: `build()` returns true if and only if the document has a `sender`, a
`sequence_number` and a `payload` at the time of the call; when one of them is absent it
returns false and the recorded error message is not empty. -/
theorem build_succeeds_iff (t : AptosTransaction) (millis : Nat) :
    ((build t millis).1 = true ↔
      (t.transaction.containsKey "sender" = true ∧
        t.transaction.containsKey "sequence_number" = true ∧
        t.transaction.containsKey "payload" = true)) ∧
    (¬ (t.transaction.containsKey "sender" = true ∧
        t.transaction.containsKey "sequence_number" = true ∧
        t.transaction.containsKey "payload" = true) →
      (build t millis).1 = false ∧ getError (build t millis).2 ≠ "") := by
  have hreq : hasRequired t = true ↔
      (t.transaction.containsKey "sender" = true ∧
        t.transaction.containsKey "sequence_number" = true ∧
        t.transaction.containsKey "payload" = true) := by
    unfold hasRequired
    simp only [Bool.and_eq_true, and_assoc]
  refine ⟨?_, ?_⟩
  · rw [build_fst]; exact hreq
  · intro h
    have hf : hasRequired t = false := by
      rw [← Bool.not_eq_true]; exact fun hc => h (hreq.1 hc)
    exact ⟨by rw [build_fst]; exact hf, build_error_of_missing t millis hf⟩

theorem build_succeeds_iff_witness :
    (build (setSequenceNumber new 5) 0).1 = false ∧
      getError (build (setSequenceNumber new 5) 0).2 ≠ "" :=
  (build_succeeds_iff (setSequenceNumber new 5) 0).2 (by decide)

theorem withDefaults_of_absent (t : AptosTransaction) (millis : Nat)
    (hm : t.transaction.containsKey "max_gas_amount" = false)
    (hg : t.transaction.containsKey "gas_unit_price" = false)
    (he : t.transaction.containsKey "expiration_timestamp_secs" = false) :
    (withDefaults t millis).transaction =
      ((t.transaction.setMember "max_gas_amount" (Json.str (toString DEFAULT_MAX_GAS))).setMember
        "gas_unit_price" (Json.str (toString DEFAULT_GAS_PRICE))).setMember
        "expiration_timestamp_secs"
        (Json.str (toString ((getCurrentTimestamp millis + DEFAULT_EXPIRATION_OFFSET) % 2 ^ 64))) := by
  unfold withDefaults setMaxGasAmount setGasUnitPrice setExpirationTimestamp
  simp only [hm, Bool.not_false, if_true,
    Json.containsKey_setMember_of_ne _ "max_gas_amount" _ "gas_unit_price" (by decide),
    Json.containsKey_setMember_of_ne _ "max_gas_amount" _ "expiration_timestamp_secs" (by decide),
    Json.containsKey_setMember_of_ne _ "gas_unit_price" _ "expiration_timestamp_secs" (by decide),
    hg, he]

theorem build_snd_transaction (t : AptosTransaction) (millis : Nat) :
    (build t millis).2.transaction = (withDefaults t millis).transaction := by
  rw [build_eq]
  split_ifs <;> rfl

theorem getCurrentTimestamp_lt (millis : Nat) : getCurrentTimestamp millis < 2 ^ 32 :=
  Nat.mod_lt _ (by decide)

/-- Claim C8: on a builder that has sender, sequence_number and payload and none of
max_gas_amount, gas_unit_price, expiration_timestamp_secs, `build()` succeeds and
afterwards max_gas_amount is "2000", gas_unit_price is "100" and
expiration_timestamp_secs is the decimal text of `getCurrentTimestamp() + 600`. -/
theorem build_fills_defaults (t : AptosTransaction) (millis : Nat)
    (hs : t.transaction.containsKey "sender" = true)
    (hq : t.transaction.containsKey "sequence_number" = true)
    (hp : t.transaction.containsKey "payload" = true)
    (hm : t.transaction.containsKey "max_gas_amount" = false)
    (hg : t.transaction.containsKey "gas_unit_price" = false)
    (he : t.transaction.containsKey "expiration_timestamp_secs" = false) :
    (build t millis).1 = true ∧
      (build t millis).2.transaction.getMember "max_gas_amount" = some (Json.str "2000") ∧
      (build t millis).2.transaction.getMember "gas_unit_price" = some (Json.str "100") ∧
      (build t millis).2.transaction.getMember "expiration_timestamp_secs"
        = some (Json.str (toString (getCurrentTimestamp millis + 600))) := by
  obtain ⟨members, hobj⟩ := Json.isObj_of_containsKey _ _ hs
  have h0 : t.transaction = Json.null ∨ ∃ ms, t.transaction = Json.obj ms := Or.inr ⟨members, hobj⟩
  have h1 := Json.isObj_setMember t.transaction "max_gas_amount"
    (Json.str (toString DEFAULT_MAX_GAS)) h0
  have h2 := Json.isObj_setMember _ "gas_unit_price" (Json.str (toString DEFAULT_GAS_PRICE))
    (Or.inr h1)
  have hnow : (getCurrentTimestamp millis + DEFAULT_EXPIRATION_OFFSET) % 2 ^ 64
      = getCurrentTimestamp millis + 600 := by
    have := getCurrentTimestamp_lt millis
    unfold DEFAULT_EXPIRATION_OFFSET
    apply Nat.mod_eq_of_lt
    norm_num at this ⊢
    omega
  refine ⟨?_, ?_, ?_, ?_⟩
  · rw [build_fst]; unfold hasRequired; rw [hs, hq, hp]; rfl
  · rw [build_snd_transaction, withDefaults_of_absent t millis hm hg he,
      Json.getMember_setMember_of_ne _ _ _ _ (by decide),
      Json.getMember_setMember_of_ne _ _ _ _ (by decide),
      Json.getMember_setMember_self _ _ _ h0]
    rfl
  · rw [build_snd_transaction, withDefaults_of_absent t millis hm hg he,
      Json.getMember_setMember_of_ne _ _ _ _ (by decide),
      Json.getMember_setMember_self _ _ _ (Or.inr h1)]
    rfl
  · rw [build_snd_transaction, withDefaults_of_absent t millis hm hg he,
      Json.getMember_setMember_self _ _ _ (Or.inr h2), hnow]

theorem build_fills_defaults_witness :
    (build (publishModule (setSequenceNumber (setSender new "0x1") 5) "00") 7000).1 = true ∧
      (build (publishModule (setSequenceNumber (setSender new "0x1") 5) "00")
        7000).2.transaction.getMember "max_gas_amount" = some (Json.str "2000") ∧
      (build (publishModule (setSequenceNumber (setSender new "0x1") 5) "00")
        7000).2.transaction.getMember "gas_unit_price" = some (Json.str "100") ∧
      (build (publishModule (setSequenceNumber (setSender new "0x1") 5) "00")
        7000).2.transaction.getMember "expiration_timestamp_secs"
        = some (Json.str (toString (getCurrentTimestamp 7000 + 600))) :=
  build_fills_defaults (publishModule (setSequenceNumber (setSender new "0x1") 5) "00") 7000
    (by decide) (by decide) (by decide) (by decide) (by decide) (by decide)

theorem foldl_addTo_obj (members : List (String × Json)) (l : List Json) (r : Option Nat) :
    l.foldl (fun d setting => Json.addTo d r setting) (Json.obj members) = Json.obj members := by
  induction l with
  | nil => rfl
  | cons x xs ih => simpa [Json.addTo] using ih

theorem foldl_keep (d : Json) (l : List Json) :
    l.foldl (fun (d : Json) (_ : Json) => d) d = d := by
  induction l with
  | nil => rfl
  | cons x xs ih => exact ih

theorem step_transaction_of_obj (t : AptosTransaction) (op : Op)
    (members : List (String × Json)) (ht : t.transaction = Json.obj members)
    (hop : op ≠ Op.reset) :
    (∃ key v, (step t op).transaction = (Json.obj members).setMember key v) ∨
      (step t op).transaction = Json.obj members ∨
      ∃ millis, op = Op.build millis := by
  obtain ⟨d, b, e⟩ := t
  simp only at ht
  subst ht
  cases op with
  | reset => exact absurd rfl hop
  | build millis => exact Or.inr (Or.inr ⟨millis, rfl⟩)
  | setChainId n => exact Or.inr (Or.inl rfl)
  | setSender s => exact Or.inl ⟨_, _, rfl⟩
  | setSequenceNumber n => exact Or.inl ⟨_, _, rfl⟩
  | setMaxGasAmount n => exact Or.inl ⟨_, _, rfl⟩
  | setGasUnitPrice n => exact Or.inl ⟨_, _, rfl⟩
  | setExpirationTimestamp n => exact Or.inl ⟨_, _, rfl⟩
  | entryFunction a m f ta args => exact Or.inl ⟨_, _, rfl⟩
  | script c ta args => exact Or.inl ⟨_, _, rfl⟩
  | coinTransfer r a c => exact Or.inl ⟨_, _, rfl⟩
  | tokenTransfer r c col n a => exact Or.inl ⟨_, _, rfl⟩
  | createAccount k => exact Or.inl ⟨_, _, rfl⟩
  | createCollection n d u m s =>
    left
    simp only [step, createCollection, Json.createNestedArray, Json.addTo, foldl_addTo_obj, foldl_keep,
      entryFunction, buildEntryFunctionPayload]
    exact ⟨_, _, rfl⟩
  | createToken c n d s u ms =>
    left
    simp only [step, createToken, Json.createNestedArray, Json.addTo, foldl_addTo_obj, foldl_keep,
      entryFunction, buildEntryFunctionPayload]
    exact ⟨_, _, rfl⟩
  | publishModule c => exact Or.inl ⟨_, _, rfl⟩
  | callContract a m f args => exact Or.inl ⟨_, _, rfl⟩

theorem step_containsKey_mono (t : AptosTransaction) (op : Op) (k : String)
    (hop : op ≠ Op.reset) (h : t.transaction.containsKey k = true) :
    (step t op).transaction.containsKey k = true := by
  obtain ⟨members, hobj⟩ := Json.isObj_of_containsKey _ _ h
  rcases step_transaction_of_obj t op members hobj hop with ⟨key, v, hs⟩ | hs | ⟨millis, rfl⟩
  · rw [hs]; apply Json.containsKey_setMember_mono; rw [← hobj]; exact h
  · rw [hs, ← hobj]; exact h
  · show (build t millis).2.transaction.containsKey k = true
    rw [build_snd_transaction]
    exact withDefaults_mono t millis k h

theorem step_hasRequired_mono (t : AptosTransaction) (op : Op) (hop : op ≠ Op.reset)
    (h : hasRequired t = true) : hasRequired (step t op) = true := by
  unfold hasRequired at h ⊢
  simp only [Bool.and_eq_true] at h ⊢
  exact ⟨⟨step_containsKey_mono t op _ hop h.1.1, step_containsKey_mono t op _ hop h.1.2⟩,
    step_containsKey_mono t op _ hop h.2⟩

theorem build_isBuilt (t : AptosTransaction) (millis : Nat) :
    (build t millis).2.isBuilt = (t.isBuilt || hasRequired t) := by
  rw [← withDefaults_hasRequired t millis, ← withDefaults_isBuilt t millis, build_eq]
  unfold hasRequired
  cases (withDefaults t millis).transaction.containsKey "sender" <;>
    cases (withDefaults t millis).transaction.containsKey "sequence_number" <;>
    cases (withDefaults t millis).transaction.containsKey "payload" <;> simp

theorem step_isBuilt (t : AptosTransaction) (op : Op) :
    (step t op).isBuilt = true → t.isBuilt = true ∨ hasRequired t = true := by
  cases op with
  | reset => intro h; simp [step, reset] at h
  | build millis =>
    intro h
    change (build t millis).2.isBuilt = true at h
    rw [build_isBuilt] at h
    simpa using h
  | _ => intro h; exact Or.inl h

theorem step_builtInv (t : AptosTransaction) (op : Op) (h : builtInv t) :
    builtInv (step t op) := by
  intro hb
  by_cases hop : op = Op.reset
  · subst hop; simp [step, reset] at hb
  · rcases step_isBuilt t op hb with h1 | h1
    · exact step_hasRequired_mono t op hop (h h1)
    · exact step_hasRequired_mono t op hop h1

theorem run_builtInv (ops : List Op) : ∀ t : AptosTransaction, builtInv t → builtInv (run t ops) := by
  induction ops with
  | nil => intro t h; exact h
  | cons op ops ih => intro t h; exact ih (step t op) (step_builtInv t op h)

/-- Claim C9 fails on the code: after a failed `build()` on a fresh builder, setting
sender, sequence number and payload makes the next `build()` return true, yet
`isValid()` is false right afterwards, because the error of the failed call
("Sender is required") is still recorded. -/
theorem build_true_but_not_valid :
    (build (run new [Op.build 0, Op.setSender "0x1", Op.setSequenceNumber 5,
        Op.publishModule "00"]) 0).1 = true ∧
      isValid (build (run new [Op.build 0, Op.setSender "0x1", Op.setSequenceNumber 5,
        Op.publishModule "00"]) 0).2 = false ∧
      getError (build (run new [Op.build 0, Op.setSender "0x1", Op.setSequenceNumber 5,
        Op.publishModule "00"]) 0).2 = "Sender is required" := by
  decide

/-- Claim C10 as stated fails: the builder made by the `JsonDocument` constructor from an
empty document is valid although sender, sequence_number and payload are all absent. -/
theorem fromDocument_valid_without_fields :
    isValid (run (fromDocument Json.null) []) = true ∧
      (run (fromDocument Json.null) []).transaction.containsKey "sender" = false ∧
      (run (fromDocument Json.null) []).transaction.containsKey "sequence_number" = false ∧
      (run (fromDocument Json.null) []).transaction.containsKey "payload" = false := by
  decide

/-- Claim C10, amended: in every state reached through setters, payload constructors,
`build` and `reset` from the default constructor, or from the `JsonDocument` constructor
applied to a document that has sender, sequence_number and payload, a valid builder has
sender, sequence_number and payload present. -/
theorem valid_has_required (init : AptosTransaction) (ops : List Op)
    (hinit : init = new ∨ ∃ txn, init = fromDocument txn ∧ txn.containsKey "sender" = true ∧
      txn.containsKey "sequence_number" = true ∧ txn.containsKey "payload" = true)
    (hvalid : isValid (run init ops) = true) :
    (run init ops).transaction.containsKey "sender" = true ∧
      (run init ops).transaction.containsKey "sequence_number" = true ∧
      (run init ops).transaction.containsKey "payload" = true := by
  have h0 : builtInv init := by
    rcases hinit with rfl | ⟨txn, rfl, h1, h2, h3⟩
    · intro hb; simp [new] at hb
    · intro _; unfold hasRequired fromDocument; simp [h1, h2, h3]
  have hinv := run_builtInv ops init h0
  have hb : (run init ops).isBuilt = true := by
    unfold isValid at hvalid
    simp only [Bool.and_eq_true] at hvalid
    exact hvalid.1
  have hr := hinv hb
  unfold hasRequired at hr
  simp only [Bool.and_eq_true] at hr
  exact ⟨hr.1.1, hr.1.2, hr.2⟩

theorem valid_has_required_witness :
    (run new [Op.setSender "0x1", Op.setSequenceNumber 5, Op.publishModule "00",
        Op.build 0]).transaction.containsKey "sender" = true ∧
      (run new [Op.setSender "0x1", Op.setSequenceNumber 5, Op.publishModule "00",
        Op.build 0]).transaction.containsKey "sequence_number" = true ∧
      (run new [Op.setSender "0x1", Op.setSequenceNumber 5, Op.publishModule "00",
        Op.build 0]).transaction.containsKey "payload" = true :=
  valid_has_required new [Op.setSender "0x1", Op.setSequenceNumber 5, Op.publishModule "00",
    Op.build 0] (Or.inl rfl) (by decide)

end AptosTransaction

/-! ## Properties of the builder: frame, errors, presets, getters -/

namespace Json

theorem setMember_of_not (d : Json) (key : String) (v : Json)
    (h : d.isNullOrObject = false) : d.setMember key v = d := by
  cases d <;> first | rfl | simp [isNullOrObject] at h

theorem containsKey_of_not (d : Json) (k : String) (h : d.isNullOrObject = false) :
    d.containsKey k = false := by
  cases d <;> first | rfl | simp [isNullOrObject] at h

theorem nullOrObject_iff (d : Json) :
    d.isNullOrObject = true ↔ (d = null ∨ ∃ members, d = obj members) := by
  cases d <;> simp [isNullOrObject]

theorem containsKey_setMember_self (d : Json) (key : String) (v : Json)
    (h : d.isNullOrObject = true) : (d.setMember key v).containsKey key = true := by
  cases d <;> simp [isNullOrObject] at h <;> simp [setMember, containsKey, any_setField]

theorem isNullOrObject_setMember (d : Json) (key : String) (v : Json) :
    (d.setMember key v).isNullOrObject = d.isNullOrObject := by
  cases d <;> rfl

theorem containsKey_iff_getMember (d : Json) (k : String) :
    d.containsKey k = (d.getMember k).isSome := by
  cases d with
  | obj members =>
    simp only [containsKey, getMember, Option.isSome_map']
    induction members with
    | nil => rfl
    | cons m rest ih =>
      simp only [List.any_cons, List.find?_cons]
      cases h : (m.1 == k) <;> simp [ih]
  | _ => rfl

theorem setIfAbsent_getMember (d : Json) (key : String) (v : Json) (k : String)
    (hk : d.containsKey k = true) : (d.setIfAbsent key v).getMember k = d.getMember k := by
  unfold setIfAbsent
  split_ifs with h
  · apply getMember_setMember_of_ne
    intro e
    subst e
    rw [hk] at h
    simp at h
  · rfl

theorem setIfAbsent_mono (d : Json) (key : String) (v : Json) (k : String)
    (hk : d.containsKey k = true) : (d.setIfAbsent key v).containsKey k = true := by
  unfold setIfAbsent
  split_ifs
  · exact containsKey_setMember_mono d key v k hk
  · exact hk

theorem setIfAbsent_self (d : Json) (key : String) (v : Json)
    (h : d.isNullOrObject = true) : (d.setIfAbsent key v).containsKey key = true := by
  unfold setIfAbsent
  split_ifs with hc
  · exact containsKey_setMember_self d key v h
  · simpa using hc

theorem setIfAbsent_of_present (d : Json) (key : String) (v : Json)
    (h : d.containsKey key = true) : d.setIfAbsent key v = d := by
  unfold setIfAbsent
  rw [h]; rfl

theorem setIfAbsent_of_not (d : Json) (key : String) (v : Json)
    (h : d.isNullOrObject = false) : d.setIfAbsent key v = d := by
  unfold setIfAbsent
  split_ifs
  · exact setMember_of_not d key v h
  · rfl

theorem isNullOrObject_setIfAbsent (d : Json) (key : String) (v : Json) :
    (d.setIfAbsent key v).isNullOrObject = d.isNullOrObject := by
  unfold setIfAbsent
  split_ifs
  · exact isNullOrObject_setMember d key v
  · rfl

end Json

namespace AptosTransaction
open AptosUtils

theorem withDefaults_eq (t : AptosTransaction) (millis : Nat) :
    withDefaults t millis = { t with transaction := fillDefaults t.transaction millis } := by
  obtain ⟨d, b, e⟩ := t
  simp only [withDefaults, fillDefaults, Json.setIfAbsent, setMaxGasAmount, setGasUnitPrice,
    setExpirationTimestamp]
  split_ifs <;> rfl

theorem fillDefaults_getMember (d : Json) (millis : Nat) (k : String)
    (hk : d.containsKey k = true) : (fillDefaults d millis).getMember k = d.getMember k := by
  unfold fillDefaults
  rw [Json.setIfAbsent_getMember _ _ _ _ (Json.setIfAbsent_mono _ _ _ _
      (Json.setIfAbsent_mono _ _ _ _ hk)),
    Json.setIfAbsent_getMember _ _ _ _ (Json.setIfAbsent_mono _ _ _ _ hk),
    Json.setIfAbsent_getMember _ _ _ _ hk]

theorem fillDefaults_mono (d : Json) (millis : Nat) (k : String)
    (hk : d.containsKey k = true) : (fillDefaults d millis).containsKey k = true :=
  Json.setIfAbsent_mono _ _ _ _ (Json.setIfAbsent_mono _ _ _ _ (Json.setIfAbsent_mono _ _ _ _ hk))

theorem fillDefaults_idem (d : Json) (m1 m2 : Nat) :
    fillDefaults (fillDefaults d m1) m2 = fillDefaults d m1 := by
  cases h : d.isNullOrObject
  · have h1 : fillDefaults d m1 = d := by
      unfold fillDefaults
      rw [Json.setIfAbsent_of_not d _ _ h, Json.setIfAbsent_of_not d _ _ h,
        Json.setIfAbsent_of_not d _ _ h]
    rw [h1]
    unfold fillDefaults
    rw [Json.setIfAbsent_of_not d _ _ h, Json.setIfAbsent_of_not d _ _ h,
      Json.setIfAbsent_of_not d _ _ h]
  · have hA : (fillDefaults d m1).containsKey "max_gas_amount" = true := by
      unfold fillDefaults
      exact Json.setIfAbsent_mono _ _ _ _ (Json.setIfAbsent_mono _ _ _ _
        (Json.setIfAbsent_self _ _ _ h))
    have hB : (fillDefaults d m1).containsKey "gas_unit_price" = true := by
      unfold fillDefaults
      refine Json.setIfAbsent_mono _ _ _ _ (Json.setIfAbsent_self _ _ _ ?_)
      rw [Json.isNullOrObject_setIfAbsent]; exact h
    have hC : (fillDefaults d m1).containsKey "expiration_timestamp_secs" = true := by
      unfold fillDefaults
      refine Json.setIfAbsent_self _ _ _ ?_
      rw [Json.isNullOrObject_setIfAbsent, Json.isNullOrObject_setIfAbsent]; exact h
    generalize fillDefaults d m1 = w at hA hB hC
    unfold fillDefaults
    rw [Json.setIfAbsent_of_present w _ _ hA, Json.setIfAbsent_of_present w _ _ hB,
      Json.setIfAbsent_of_present w _ _ hC]

theorem build_getMember_of_present (t : AptosTransaction) (millis : Nat) (k : String)
    (hk : t.transaction.containsKey k = true) :
    (build t millis).2.transaction.getMember k = t.transaction.getMember k := by
  rw [build_snd_transaction, withDefaults_eq]
  exact fillDefaults_getMember _ _ _ hk

/-- Claim C11: `build()` never changes or discards a member that was present before
the call, whether it succeeds or fails: every member `k` of the document (in particular
sender, sequence_number, max_gas_amount, gas_unit_price, expiration_timestamp_secs and
payload) that was present is still present and has the same value afterwards. -/
theorem build_keeps_present_fields (t : AptosTransaction) (millis : Nat) (k : String)
    (hk : t.transaction.containsKey k = true) :
    (build t millis).2.transaction.containsKey k = true ∧
      (build t millis).2.transaction.getMember k = t.transaction.getMember k := by
  refine ⟨?_, build_getMember_of_present t millis k hk⟩
  rw [build_snd_transaction]
  exact withDefaults_mono t millis k hk

theorem build_keeps_present_fields_witness :
    (build (setMaxGasAmount (setSender new "0x1") 7) 0).2.transaction.containsKey
        "max_gas_amount" = true ∧
      (build (setMaxGasAmount (setSender new "0x1") 7) 0).2.transaction.getMember
        "max_gas_amount"
        = (setMaxGasAmount (setSender new "0x1") 7).transaction.getMember "max_gas_amount" :=
  build_keeps_present_fields (setMaxGasAmount (setSender new "0x1") 7) 0 "max_gas_amount"
    (by decide)

theorem isValid_of_error (s : AptosTransaction) (h : s.lastError.length ≠ 0) :
    isValid s = false := by
  unfold isValid
  simp [h]

theorem build_eq_validate (t : AptosTransaction) (millis : Nat) :
    build t millis = validate (withDefaults t millis) := rfl

theorem validate_no_sender (w : AptosTransaction)
    (h : w.transaction.containsKey "sender" = false) :
    validate w = (false, { w with lastError := "Sender is required" }) := by
  unfold validate; rw [h]; rfl

theorem validate_no_sequence (w : AptosTransaction)
    (h1 : w.transaction.containsKey "sender" = true)
    (h2 : w.transaction.containsKey "sequence_number" = false) :
    validate w = (false, { w with lastError := "Sequence number is required" }) := by
  unfold validate; rw [h1, h2]; rfl

theorem validate_no_payload (w : AptosTransaction)
    (h1 : w.transaction.containsKey "sender" = true)
    (h2 : w.transaction.containsKey "sequence_number" = true)
    (h3 : w.transaction.containsKey "payload" = false) :
    validate w = (false, { w with lastError := "Payload is required" }) := by
  unfold validate; rw [h1, h2, h3]; rfl

theorem validate_ok (w : AptosTransaction)
    (h1 : w.transaction.containsKey "sender" = true)
    (h2 : w.transaction.containsKey "sequence_number" = true)
    (h3 : w.transaction.containsKey "payload" = true) :
    validate w = (true, { w with isBuilt := true }) := by
  unfold validate; rw [h1, h2, h3]; rfl

/-- Claim C12: `build()` on a builder with no sender returns false, leaves the error
"Sender is required" and an invalid builder, whatever else is set; with a sender but no
sequence number the error is "Sequence number is required"; with both but no payload it
is "Payload is required". -/
theorem build_missing_field_errors (t : AptosTransaction) (millis : Nat) :
    (t.transaction.containsKey "sender" = false →
      (build t millis).1 = false ∧ getError (build t millis).2 = "Sender is required" ∧
        isValid (build t millis).2 = false) ∧
    (t.transaction.containsKey "sender" = true →
      t.transaction.containsKey "sequence_number" = false →
      (build t millis).1 = false ∧
        getError (build t millis).2 = "Sequence number is required" ∧
        isValid (build t millis).2 = false) ∧
    (t.transaction.containsKey "sender" = true →
      t.transaction.containsKey "sequence_number" = true →
      t.transaction.containsKey "payload" = false →
      (build t millis).1 = false ∧ getError (build t millis).2 = "Payload is required" ∧
        isValid (build t millis).2 = false) := by
  have hs := withDefaults_containsKey t millis "sender" (by decide) (by decide) (by decide)
  have hq := withDefaults_containsKey t millis "sequence_number" (by decide) (by decide)
    (by decide)
  have hp := withDefaults_containsKey t millis "payload" (by decide) (by decide) (by decide)
  refine ⟨?_, ?_, ?_⟩
  · intro h1
    rw [build_eq_validate, validate_no_sender _ (hs.trans h1)]
    exact ⟨rfl, rfl, isValid_of_error _ (by show "Sender is required".length ≠ 0; decide)⟩
  · intro h1 h2
    rw [build_eq_validate, validate_no_sequence _ (hs.trans h1) (hq.trans h2)]
    exact ⟨rfl, rfl,
      isValid_of_error _ (by show "Sequence number is required".length ≠ 0; decide)⟩
  · intro h1 h2 h3
    rw [build_eq_validate, validate_no_payload _ (hs.trans h1) (hq.trans h2) (hp.trans h3)]
    exact ⟨rfl, rfl, isValid_of_error _ (by show "Payload is required".length ≠ 0; decide)⟩

theorem build_missing_field_errors_witness :
    ((build new 0).1 = false ∧ getError (build new 0).2 = "Sender is required" ∧
        isValid (build new 0).2 = false) ∧
      ((build (setSender new "0x1") 0).1 = false ∧
        getError (build (setSender new "0x1") 0).2 = "Sequence number is required" ∧
        isValid (build (setSender new "0x1") 0).2 = false) ∧
      ((build (setSequenceNumber (setSender new "0x1") 5) 0).1 = false ∧
        getError (build (setSequenceNumber (setSender new "0x1") 5) 0).2
          = "Payload is required" ∧
        isValid (build (setSequenceNumber (setSender new "0x1") 5) 0).2 = false) :=
  ⟨(build_missing_field_errors new 0).1 (by decide),
    (build_missing_field_errors (setSender new "0x1") 0).2.1 (by decide) (by decide),
    (build_missing_field_errors (setSequenceNumber (setSender new "0x1") 5) 0).2.2
      (by decide) (by decide) (by decide)⟩

/-- Claim C19: after `reset()` no member is present, the error is empty, the builder is
not valid, and the builder equals a default-constructed one, so every later sequence of
operations and every later `build()` gives the same result on both. -/
theorem reset_is_fresh (t : AptosTransaction) :
    (∀ k, (reset t).transaction.containsKey k = false) ∧
      getError (reset t) = "" ∧
      isValid (reset t) = false ∧
      reset t = new ∧
      (∀ ops : List Op, run (reset t) ops = run new ops) ∧
      (∀ (ops : List Op) (millis : Nat),
        build (run (reset t) ops) millis = build (run new ops) millis) := by
  refine ⟨fun k => rfl, rfl, rfl, rfl, fun ops => rfl, fun ops millis => rfl⟩

theorem validate_transaction (w : AptosTransaction) :
    (validate w).2.transaction = w.transaction := by
  unfold validate
  split_ifs <;> rfl

theorem validate_idem (w : AptosTransaction) : validate (validate w).2 = validate w := by
  cases h1 : w.transaction.containsKey "sender"
  · rw [validate_no_sender w h1]
    exact validate_no_sender _ h1
  · cases h2 : w.transaction.containsKey "sequence_number"
    · rw [validate_no_sequence w h1 h2]
      exact validate_no_sequence _ h1 h2
    · cases h3 : w.transaction.containsKey "payload"
      · rw [validate_no_payload w h1 h2 h3]
        exact validate_no_payload _ h1 h2 h3
      · rw [validate_ok w h1 h2 h3]
        exact validate_ok _ h1 h2 h3

theorem withDefaults_of_filled (s : AptosTransaction) (millis : Nat)
    (h : fillDefaults s.transaction millis = s.transaction) : withDefaults s millis = s := by
  rw [withDefaults_eq, h]

/-- Claim C20: `build()` called twice in a row returns the same flag both times and the
second call leaves the builder exactly as the first call left it, whatever the clock
reads at either call. -/
theorem build_idempotent (t : AptosTransaction) (m1 m2 : Nat) :
    (build (build t m1).2 m2).1 = (build t m1).1 ∧
      (build (build t m1).2 m2).2 = (build t m1).2 := by
  have hW : withDefaults (build t m1).2 m2 = (build t m1).2 := by
    apply withDefaults_of_filled
    rw [build_eq_validate, validate_transaction, withDefaults_eq]
    exact fillDefaults_idem _ _ _
  have h : build (build t m1).2 m2 = build t m1 := by
    rw [build_eq_validate (build t m1).2 m2, hW, build_eq_validate t m1, validate_idem]
  rw [h]
  exact ⟨rfl, rfl⟩

end AptosTransaction

namespace Json

theorem getMember_createNestedArray (d : Json) (k : String) :
    d.createNestedArray.1.getMember k = d.getMember k := by
  cases d <;> rfl

theorem getMember_addTo (d : Json) (r : Option Nat) (v : Json) (k : String) :
    (d.addTo r v).getMember k = d.getMember k := by
  cases d <;> cases r <;> rfl

theorem getMember_foldl_addTo (l : List Json) (r : Option Nat) (k : String) :
    ∀ d : Json, (l.foldl (fun d setting => d.addTo r setting) d).getMember k = d.getMember k := by
  induction l with
  | nil => intro d; rfl
  | cons x xs ih => intro d; rw [List.foldl_cons, ih, getMember_addTo]

end Json

namespace AptosTransaction
open AptosUtils

theorem step_flags (t : AptosTransaction) (op : Op) (hop : op.isMutator = true) :
    (step t op).isBuilt = t.isBuilt ∧ (step t op).lastError = t.lastError := by
  cases op <;> first | exact ⟨rfl, rfl⟩ | simp [Op.isMutator] at hop

theorem step_getMember_frame (t : AptosTransaction) (op : Op) (hop : op.isMutator = true)
    (k : String) (hk : op.target ≠ some k) :
    (step t op).transaction.getMember k = t.transaction.getMember k := by
  have hne : ∀ key : String, op.target = some key → key ≠ k := by
    intro key h e
    rw [h, e] at hk
    exact hk rfl
  cases op with
  | reset => simp [Op.isMutator] at hop
  | build millis => simp [Op.isMutator] at hop
  | setChainId n => rfl
  | setSender s => exact Json.getMember_setMember_of_ne _ _ _ _ (hne _ rfl)
  | setSequenceNumber n => exact Json.getMember_setMember_of_ne _ _ _ _ (hne _ rfl)
  | setMaxGasAmount n => exact Json.getMember_setMember_of_ne _ _ _ _ (hne _ rfl)
  | setGasUnitPrice n => exact Json.getMember_setMember_of_ne _ _ _ _ (hne _ rfl)
  | setExpirationTimestamp n => exact Json.getMember_setMember_of_ne _ _ _ _ (hne _ rfl)
  | entryFunction a m f ta args => exact Json.getMember_setMember_of_ne _ _ _ _ (hne _ rfl)
  | script c ta args => exact Json.getMember_setMember_of_ne _ _ _ _ (hne _ rfl)
  | publishModule c => exact Json.getMember_setMember_of_ne _ _ _ _ (hne _ rfl)
  | coinTransfer r a c =>
    have h := hne "payload" rfl
    simp only [step, coinTransfer, entryFunction, buildEntryFunctionPayload,
      Json.getMember_setMember_of_ne _ _ _ _ h, Json.getMember_addTo,
      Json.getMember_createNestedArray]
  | tokenTransfer r c col n a =>
    have h := hne "payload" rfl
    simp only [step, tokenTransfer, entryFunction, buildEntryFunctionPayload,
      Json.getMember_setMember_of_ne _ _ _ _ h, Json.getMember_addTo,
      Json.getMember_createNestedArray]
  | createAccount key =>
    have h := hne "payload" rfl
    simp only [step, createAccount, entryFunction, buildEntryFunctionPayload,
      Json.getMember_setMember_of_ne _ _ _ _ h, Json.getMember_addTo,
      Json.getMember_createNestedArray]
  | createCollection n d u m s =>
    have h := hne "payload" rfl
    simp only [step, createCollection, entryFunction, buildEntryFunctionPayload,
      Json.getMember_setMember_of_ne _ _ _ _ h, Json.getMember_addTo,
      Json.getMember_foldl_addTo, Json.getMember_createNestedArray]
  | createToken c n d s u ms =>
    have h := hne "payload" rfl
    simp only [step, createToken, entryFunction, buildEntryFunctionPayload,
      Json.getMember_setMember_of_ne _ _ _ _ h, Json.getMember_addTo,
      Json.getMember_foldl_addTo, Json.getMember_createNestedArray]
  | callContract a m f args =>
    have h := hne "payload" rfl
    simp only [step, callContract, entryFunction, buildEntryFunctionPayload,
      Json.getMember_setMember_of_ne _ _ _ _ h, Json.getMember_addTo,
      Json.getMember_createNestedArray]

/-- Claim C18: no operation other than `reset` removes a member that was present; every
setter and every payload constructor leaves the built flag, the error message and every
member other than its own one (`Op.target`) as they were. -/
theorem step_frame (t : AptosTransaction) (op : Op) :
    (op ≠ Op.reset → ∀ k, t.transaction.containsKey k = true →
      (step t op).transaction.containsKey k = true) ∧
    (op.isMutator = true →
      (step t op).isBuilt = t.isBuilt ∧ (step t op).lastError = t.lastError ∧
        ∀ k, op.target ≠ some k →
          (step t op).transaction.getMember k = t.transaction.getMember k) := by
  refine ⟨fun hop k hk => step_containsKey_mono t op k hop hk, fun hop => ?_⟩
  exact ⟨(step_flags t op hop).1, (step_flags t op hop).2,
    fun k hk => step_getMember_frame t op hop k hk⟩

theorem step_frame_witness :
    (step (setSender new "0x1") (Op.coinTransfer "0xCAFE" 1000 DEFAULT_COIN_TYPE)).isBuilt
        = (setSender new "0x1").isBuilt ∧
      (step (setSender new "0x1") (Op.coinTransfer "0xCAFE" 1000 DEFAULT_COIN_TYPE)).lastError
        = (setSender new "0x1").lastError ∧
      ∀ k, (Op.coinTransfer "0xCAFE" 1000 DEFAULT_COIN_TYPE).target ≠ some k →
        (step (setSender new "0x1")
          (Op.coinTransfer "0xCAFE" 1000 DEFAULT_COIN_TYPE)).transaction.getMember k
          = (setSender new "0x1").transaction.getMember k :=
  (step_frame (setSender new "0x1") (Op.coinTransfer "0xCAFE" 1000 DEFAULT_COIN_TYPE)).2
    (by decide)

end AptosTransaction

namespace AptosUtils

theorem digitChar_spec : ∀ d, d < 10 →
    (Nat.digitChar d).isDigit = true ∧ (Nat.digitChar d).toNat - '0'.toNat = d := by
  decide

theorem isDigit_not_space_sign : ∀ n, n < 58 → 48 ≤ n →
    isSpace (Char.ofNat n) = false ∧ Char.ofNat n ≠ '-' ∧ Char.ofNat n ≠ '+' := by
  decide

theorem not_space_sign_of_isDigit (c : Char) (h : c.isDigit = true) :
    isSpace c = false ∧ c ≠ '-' ∧ c ≠ '+' := by
  have hc : 48 ≤ c.toNat ∧ c.toNat ≤ 57 := by
    simpa [Char.isDigit, Char.toNat, UInt32.le_def, Nat.le_antisymm_iff] using h
  have := isDigit_not_space_sign c.toNat (by omega) hc.1
  rwa [Char.ofNat_toNat] at this

/-- The value read from a run of decimal digits, starting from `acc`. -/
theorem foldl_digits_acc (ds : List Char) : ∀ acc : Nat,
    ds.foldl (fun acc c => acc * 10 + (c.toNat - '0'.toNat)) acc
      = acc * 10 ^ ds.length + ds.foldl (fun acc c => acc * 10 + (c.toNat - '0'.toNat)) 0 := by
  induction ds with
  | nil => intro acc; simp
  | cons d ds ih =>
    intro acc
    simp only [List.foldl_cons, List.length_cons]
    rw [ih (acc * 10 + _), ih (0 * 10 + _)]
    ring

theorem toDigitsCore_spec (fuel : Nat) : ∀ (n : Nat) (ds : List Char), n < fuel →
    (∀ c ∈ ds, c.isDigit = true) →
    (∀ c ∈ Nat.toDigitsCore 10 fuel n ds, c.isDigit = true) ∧
      (Nat.toDigitsCore 10 fuel n ds).foldl (fun acc c => acc * 10 + (c.toNat - '0'.toNat)) 0
        = n * 10 ^ ds.length
          + ds.foldl (fun acc c => acc * 10 + (c.toNat - '0'.toNat)) 0 := by
  induction fuel with
  | zero => intro n ds h; omega
  | succ fuel ih =>
    intro n ds hn hds
    obtain ⟨hd1, hd2⟩ := digitChar_spec (n % 10) (Nat.mod_lt _ (by decide))
    have hcons : ∀ c ∈ Nat.digitChar (n % 10) :: ds, c.isDigit = true := by
      intro c hc
      rcases List.mem_cons.1 hc with rfl | hc
      · exact hd1
      · exact hds c hc
    have hval : (Nat.digitChar (n % 10) :: ds).foldl
        (fun acc c => acc * 10 + (c.toNat - '0'.toNat)) 0
          = (n % 10) * 10 ^ ds.length
            + ds.foldl (fun acc c => acc * 10 + (c.toNat - '0'.toNat)) 0 := by
      rw [List.foldl_cons, foldl_digits_acc, hd2]
      simp
    unfold Nat.toDigitsCore
    simp only
    split_ifs with h0
    · refine ⟨hcons, ?_⟩
      rw [hval]
      have : n % 10 = n := by omega
      rw [this]
    · obtain ⟨h1, h2⟩ := ih (n / 10) (Nat.digitChar (n % 10) :: ds) (by omega) hcons
      refine ⟨h1, ?_⟩
      rw [h2, hval, List.length_cons, pow_succ]
      have hn10 : n = n / 10 * 10 + n % 10 := by omega
      nth_rewrite 3 [hn10]
      ring

theorem toString_nat_data (v : Nat) : (toString v).data = Nat.toDigits 10 v := rfl

theorem strtoull_toString (v : Nat) (hv : v < 2 ^ 64) : strtoull (toString v) = v := by
  obtain ⟨hdig, hval⟩ := toDigitsCore_spec (v + 1) v [] (by omega) (by simp)
  simp only [List.length_nil, pow_zero, mul_one, List.foldl_nil, add_zero] at hval
  have hd : (toString v).data = Nat.toDigitsCore 10 (v + 1) v [] := rfl
  unfold strtoull
  simp only [hd]
  generalize Nat.toDigitsCore 10 (v + 1) v [] = cs at hdig hval
  have hdrop : cs.dropWhile isSpace = cs := by
    cases cs with
    | nil => rfl
    | cons c rest =>
      rw [List.dropWhile_cons, (not_space_sign_of_isDigit c (hdig c (by simp))).1]
      rfl
  have hhead : ¬ (cs.head? = some '-' ∨ cs.head? = some '+') := by
    cases cs with
    | nil => simp
    | cons c rest =>
      have := not_space_sign_of_isDigit c (hdig c (by simp))
      simp [this.2.1, this.2.2]
  have htake : cs.takeWhile Char.isDigit = cs := by
    rw [List.takeWhile_eq_self_iff]
    exact hdig
  have hneg : ¬ (cs.head? = some '-') := fun h => hhead (Or.inl h)
  rw [hdrop, if_neg hhead, htake, hval, if_neg (by omega), if_neg hneg]

end AptosUtils

namespace AptosTransaction
open AptosUtils

theorem getMember_setMember_ok (d : Json) (key : String) (v : Json)
    (h : d.isNullOrObject = true) : (d.setMember key v).getMember key = some v :=
  Json.getMember_setMember_self d key v ((Json.nullOrObject_iff d).1 h)

theorem getJsonUint64_stored (d : Json) (key : String) (v : Nat) (hv : v < 2 ^ 64)
    (h : d.isNullOrObject = true) :
    (d.setMember key (Json.str (toString v))).getMember key = some (Json.str (toString v)) ∧
      getJsonUint64 (d.setMember key (Json.str (toString v))) key 0 = v := by
  have hg := getMember_setMember_ok d key (Json.str (toString v)) h
  refine ⟨hg, ?_⟩
  unfold getJsonUint64
  rw [hg]
  exact strtoull_toString v hv

/-- Claim C17 as stated fails: on a builder whose document root is an array (made by the
`JsonDocument` constructor, or left by a preset called on an empty builder)
`setSequenceNumber 5` stores nothing and `getSequenceNumber()` returns 0. -/
theorem numeric_setter_lost_on_array_root :
    (setSequenceNumber (fromDocument (Json.arr [])) 5).transaction.getMember "sequence_number"
        = none ∧
      getSequenceNumber (setSequenceNumber (fromDocument (Json.arr [])) 5) = 0 ∧
      getSequenceNumber
        (setSequenceNumber (coinTransfer new "0xCAFE" 1000 DEFAULT_COIN_TYPE) 5) = 0 := by
  refine ⟨rfl, by decide, by decide⟩

/-- Claim C17, amended: on a builder whose document is empty or an object, for every
`v < 2^64`, after `setSequenceNumber v` the stored sequence_number is the decimal text of
`v` and `getSequenceNumber()` returns `v`; the same holds for max_gas_amount,
gas_unit_price and expiration_timestamp_secs with their setters and getters. -/
theorem numeric_fields_exact (t : AptosTransaction) (v : Nat) (hv : v < 2 ^ 64)
    (ht : t.transaction.isNullOrObject = true) :
    ((setSequenceNumber t v).transaction.getMember "sequence_number"
        = some (Json.str (toString v)) ∧
      getSequenceNumber (setSequenceNumber t v) = v) ∧
    ((setMaxGasAmount t v).transaction.getMember "max_gas_amount"
        = some (Json.str (toString v)) ∧
      getMaxGasAmount (setMaxGasAmount t v) = v) ∧
    ((setGasUnitPrice t v).transaction.getMember "gas_unit_price"
        = some (Json.str (toString v)) ∧
      getGasUnitPrice (setGasUnitPrice t v) = v) ∧
    ((setExpirationTimestamp t v).transaction.getMember "expiration_timestamp_secs"
        = some (Json.str (toString v)) ∧
      getExpirationTimestamp (setExpirationTimestamp t v) = v) :=
  ⟨getJsonUint64_stored _ _ v hv ht, getJsonUint64_stored _ _ v hv ht,
    getJsonUint64_stored _ _ v hv ht, getJsonUint64_stored _ _ v hv ht⟩

theorem numeric_fields_exact_witness :
    ((setSequenceNumber new (2 ^ 64 - 1)).transaction.getMember "sequence_number"
        = some (Json.str (toString (2 ^ 64 - 1))) ∧
      getSequenceNumber (setSequenceNumber new (2 ^ 64 - 1)) = 2 ^ 64 - 1) ∧
    ((setMaxGasAmount new (2 ^ 64 - 1)).transaction.getMember "max_gas_amount"
        = some (Json.str (toString (2 ^ 64 - 1))) ∧
      getMaxGasAmount (setMaxGasAmount new (2 ^ 64 - 1)) = 2 ^ 64 - 1) ∧
    ((setGasUnitPrice new (2 ^ 64 - 1)).transaction.getMember "gas_unit_price"
        = some (Json.str (toString (2 ^ 64 - 1))) ∧
      getGasUnitPrice (setGasUnitPrice new (2 ^ 64 - 1)) = 2 ^ 64 - 1) ∧
    ((setExpirationTimestamp new (2 ^ 64 - 1)).transaction.getMember
        "expiration_timestamp_secs" = some (Json.str (toString (2 ^ 64 - 1))) ∧
      getExpirationTimestamp (setExpirationTimestamp new (2 ^ 64 - 1)) = 2 ^ 64 - 1) :=
  numeric_fields_exact new (2 ^ 64 - 1) (by decide) (by decide)

/-- Claim C14 as stated fails: on a builder whose document root is an array (made by the
`JsonDocument` constructor, or left by `coinTransfer` on an empty builder)
`entryFunction` stores no payload at all. -/
theorem entryFunction_ignored_on_array_root :
    (entryFunction (fromDocument (Json.arr [])) "0x1" "coin" "transfer" (Json.arr [])
        (Json.arr [])).transaction.getMember "payload" = none ∧
      (entryFunction (coinTransfer new "0xCAFE" 1000 DEFAULT_COIN_TYPE) "0x1" "coin" "transfer"
        (Json.arr []) (Json.arr [])).transaction.getMember "payload" = none :=
  ⟨rfl, rfl⟩

theorem entryFunction_payload (t : AptosTransaction)
    (moduleAddress moduleName functionName : String) (typeArgs args : Json)
    (ht : t.transaction.isNullOrObject = true) :
    (entryFunction t moduleAddress moduleName functionName typeArgs args).transaction.getMember
        "payload"
      = some (Json.obj [("type", Json.str "entry_function_payload"),
          ("function",
            Json.str (padHexAddress moduleAddress ++ "::" ++ moduleName ++ "::" ++ functionName)),
          ("type_arguments", typeArgs), ("arguments", args)]) := by
  unfold entryFunction buildEntryFunctionPayload
  simp only
  rw [getMember_setMember_ok _ _ _ ht]
  rfl

/-- Claim C14, amended: on a builder whose document is empty or an object,
`entryFunction` sets the payload to an entry-function payload: its type is
"entry_function_payload", its function id is
`padHexAddress moduleAddress ++ "::" ++ moduleName ++ "::" ++ functionName`, and its
type_arguments and arguments are the given values. -/
theorem entryFunction_sets_payload (t : AptosTransaction)
    (moduleAddress moduleName functionName : String) (typeArgs args : Json)
    (ht : t.transaction.isNullOrObject = true) :
    getNested (entryFunction t moduleAddress moduleName functionName typeArgs args).transaction
        "payload" "type" = some (Json.str "entry_function_payload") ∧
      getNested (entryFunction t moduleAddress moduleName functionName typeArgs args).transaction
        "payload" "function"
        = some (Json.str
            (padHexAddress moduleAddress ++ "::" ++ moduleName ++ "::" ++ functionName)) ∧
      getNested (entryFunction t moduleAddress moduleName functionName typeArgs args).transaction
        "payload" "type_arguments" = some typeArgs ∧
      getNested (entryFunction t moduleAddress moduleName functionName typeArgs args).transaction
        "payload" "arguments" = some args := by
  unfold getNested
  rw [entryFunction_payload t moduleAddress moduleName functionName typeArgs args ht]
  exact ⟨rfl, rfl, rfl, rfl⟩

theorem entryFunction_sets_payload_witness :
    getNested (entryFunction new "0x1" "coin" "transfer" (Json.arr [Json.str "T"])
        (Json.arr [Json.str "a", Json.str "b"])).transaction
        "payload" "type" = some (Json.str "entry_function_payload") ∧
      getNested (entryFunction new "0x1" "coin" "transfer" (Json.arr [Json.str "T"])
        (Json.arr [Json.str "a", Json.str "b"])).transaction
        "payload" "function"
        = some (Json.str (padHexAddress "0x1" ++ "::" ++ "coin" ++ "::" ++ "transfer")) ∧
      getNested (entryFunction new "0x1" "coin" "transfer" (Json.arr [Json.str "T"])
        (Json.arr [Json.str "a", Json.str "b"])).transaction
        "payload" "type_arguments" = some (Json.arr [Json.str "T"]) ∧
      getNested (entryFunction new "0x1" "coin" "transfer" (Json.arr [Json.str "T"])
        (Json.arr [Json.str "a", Json.str "b"])).transaction
        "payload" "arguments" = some (Json.arr [Json.str "a", Json.str "b"]) :=
  entryFunction_sets_payload new "0x1" "coin" "transfer" (Json.arr [Json.str "T"])
    (Json.arr [Json.str "a", Json.str "b"]) (by decide)

theorem padHexAddress_length_ge (a : String) : 66 ≤ (padHexAddress a).length := by
  show 66 ≤ (padHexAddress a).data.length
  rw [padHexAddress_data]
  simp only [List.length_cons, List.length_append, List.length_replicate]
  have : (toLowerCase (removeHexPrefix a)).data.length
      = (toLowerCase (removeHexPrefix a)).length := rfl
  omega

/-- Claim C13 as stated fails at recipient "0xCAFE", amount 1000: after the build the
function id is not "0x1::aptos_account::transfer_coins" (the module address is padded
to 64 digits) and the arguments member is not the two-element list (it is null). -/
theorem coinTransfer_scenario_differs :
    getNested (build (coinTransfer (setSequenceNumber (setSender new "0x1") 5) "0xCAFE" 1000
        DEFAULT_COIN_TYPE) 0).2.transaction "payload" "function"
        ≠ some (Json.str "0x1::aptos_account::transfer_coins") ∧
      getNested (build (coinTransfer (setSequenceNumber (setSender new "0x1") 5) "0xCAFE" 1000
        DEFAULT_COIN_TYPE) 0).2.transaction "payload" "arguments"
        ≠ some (Json.arr [Json.str (padHexAddress "0xCAFE"), Json.str "1000"]) := by
  constructor
  · intro h
    have h1 : getNested (build (coinTransfer (setSequenceNumber (setSender new "0x1") 5)
        "0xCAFE" 1000 DEFAULT_COIN_TYPE) 0).2.transaction "payload" "function"
        = some (Json.str (padHexAddress "0x1" ++ "::" ++ "aptos_account" ++ "::"
            ++ "transfer_coins")) := rfl
    rw [h1] at h
    injection h with h
    injection h with h
    have hl := congrArg String.length h
    have hge := padHexAddress_length_ge "0x1"
    simp only [String.length_append] at hl
    have e1 : "0x1::aptos_account::transfer_coins".length = 34 := by decide
    rw [e1] at hl
    omega
  · intro h
    have h1 : getNested (build (coinTransfer (setSequenceNumber (setSender new "0x1") 5)
        "0xCAFE" 1000 DEFAULT_COIN_TYPE) 0).2.transaction "payload" "arguments"
        = some Json.null := rfl
    rw [h1] at h
    injection h with h
    cases h

/-- Claim C13, amended: for every recipient and amount, the builder obtained from a new
one by `setSender "0x1"`, `setSequenceNumber 5` and `coinTransfer r a` builds
successfully, and afterwards the function id is
`padHexAddress "0x1" ++ "::aptos_account::transfer_coins"`, max_gas_amount is "2000"
and gas_unit_price is "100". -/
theorem coinTransfer_scenario (r : String) (a : Nat) (millis : Nat) :
    (build (coinTransfer (setSequenceNumber (setSender new "0x1") 5) r a DEFAULT_COIN_TYPE)
        millis).1 = true ∧
      getNested (build (coinTransfer (setSequenceNumber (setSender new "0x1") 5) r a
        DEFAULT_COIN_TYPE) millis).2.transaction "payload" "function"
        = some (Json.str (padHexAddress "0x1" ++ "::aptos_account::transfer_coins")) ∧
      (build (coinTransfer (setSequenceNumber (setSender new "0x1") 5) r a DEFAULT_COIN_TYPE)
        millis).2.transaction.getMember "max_gas_amount" = some (Json.str "2000") ∧
      (build (coinTransfer (setSequenceNumber (setSender new "0x1") 5) r a DEFAULT_COIN_TYPE)
        millis).2.transaction.getMember "gas_unit_price" = some (Json.str "100") := by
  refine ⟨rfl, ?_, rfl, rfl⟩
  have h1 : getNested (build (coinTransfer (setSequenceNumber (setSender new "0x1") 5) r a
      DEFAULT_COIN_TYPE) millis).2.transaction "payload" "function"
      = some (Json.str (padHexAddress "0x1" ++ "::" ++ "aptos_account" ++ "::"
          ++ "transfer_coins")) := rfl
  rw [h1, String.append_assoc, String.append_assoc, String.append_assoc]
  rfl

/-- Claim C15 fails on the code: after `setSender "0x1"`, `tokenTransfer` stores a
payload whose arguments and type_arguments are both null, and on a new builder it stores
no payload: the five arguments land in an array at the root of the document. -/
theorem tokenTransfer_drops_arguments :
    getNested (tokenTransfer (setSender new "0x1") "0xB0B" "0xA11CE" "col" "tok"
        7).transaction "payload" "arguments" = some Json.null ∧
      getNested (tokenTransfer (setSender new "0x1") "0xB0B" "0xA11CE" "col" "tok"
        7).transaction "payload" "type_arguments" = some Json.null ∧
      (tokenTransfer new "0xB0B" "0xA11CE" "col" "tok" 7).transaction.containsKey "payload"
        = false ∧
      (tokenTransfer new "0xB0B" "0xA11CE" "col" "tok" 7).transaction
        = Json.arr [Json.arr [], Json.arr [Json.str (padHexAddress "0xA11CE"), Json.str "col",
            Json.str "tok", Json.str (padHexAddress "0xB0B"), Json.str "7"]] :=
  ⟨rfl, rfl, rfl, rfl⟩

end AptosTransaction

namespace AptosUtils

theorem isNormalizedAddress_padHexAddress (a : String) (h : isHexAddressText a) :
    isNormalizedAddress (padHexAddress a) := by
  obtain ⟨hhex, hlen⟩ := h
  have hl2 : (toLowerCase (removeHexPrefix a)).data.length = (removeHexPrefix a).length :=
    toLowerCase_length (removeHexPrefix a)
  have hl := toLowerCase_length (removeHexPrefix a)
  unfold isNormalizedAddress
  rw [padHexAddress_data]
  refine ⟨rfl, ?_, ?_⟩
  · simp only [List.drop_succ_cons, List.drop_zero, List.length_append, List.length_replicate]
    omega
  · simp only [List.drop_succ_cons, List.drop_zero, List.mem_append]
    rintro c (hc | hc)
    · rw [List.eq_of_mem_replicate hc]; decide
    · change c ∈ (removeHexPrefix a).data.map Char.toLower at hc
      obtain ⟨c0, hc0, rfl⟩ := List.mem_map.1 hc
      exact isLowerHexDigit_toLower c0 (hhex c0 hc0)

end AptosUtils

namespace AptosTransaction
open AptosUtils

theorem getSender_of_normalized (t : AptosTransaction) (h : senderNormalized t) :
    isNormalizedAddress (getSender t) := by
  obtain ⟨a, ha, hn⟩ := h
  unfold getSender getJsonString
  rw [ha]
  exact hn

theorem setSender_normalized (t : AptosTransaction) (s : String)
    (ht : t.transaction.isNullOrObject = true) (hs : isHexAddressText s) :
    senderNormalized (setSender t s) :=
  ⟨padHexAddress s, getMember_setMember_ok _ _ _ ht, isNormalizedAddress_padHexAddress s hs⟩

theorem nullOrObject_of_getMember (d : Json) (k : String) (v : Json)
    (h : d.getMember k = some v) : d.isNullOrObject = true := by
  cases d <;> first | rfl | simp [Json.getMember] at h

theorem step_senderNormalized (t : AptosTransaction) (op : Op) (hop : op.keepsSender)
    (h : senderNormalized t) : senderNormalized (step t op) := by
  obtain ⟨a, ha, hn⟩ := h
  have hc : t.transaction.containsKey "sender" = true := by
    rw [Json.containsKey_iff_getMember, ha]; rfl
  have frame : op.isMutator = true → op.target ≠ some "sender" →
      senderNormalized (step t op) := fun h1 h2 =>
    ⟨a, (step_getMember_frame t op h1 "sender" h2).trans ha, hn⟩
  cases op with
  | reset => exact absurd hop (by simp [Op.keepsSender])
  | build millis => exact ⟨a, (build_getMember_of_present t millis "sender" hc).trans ha, hn⟩
  | setSender s => exact setSender_normalized t s (nullOrObject_of_getMember _ _ _ ha) hop
  | setChainId n => exact frame rfl (by simp [Op.target])
  | setSequenceNumber n => exact frame rfl (by simp [Op.target])
  | setMaxGasAmount n => exact frame rfl (by simp [Op.target])
  | setGasUnitPrice n => exact frame rfl (by simp [Op.target])
  | setExpirationTimestamp n => exact frame rfl (by simp [Op.target])
  | entryFunction a m f ta args => exact frame rfl (by simp [Op.target])
  | script c ta args => exact frame rfl (by simp [Op.target])
  | publishModule c => exact frame rfl (by simp [Op.target])
  | coinTransfer r a c => exact frame rfl (by simp [Op.target])
  | tokenTransfer r c col n a => exact frame rfl (by simp [Op.target])
  | createAccount key => exact frame rfl (by simp [Op.target])
  | createCollection n d u m s => exact frame rfl (by simp [Op.target])
  | createToken c n d s u ms => exact frame rfl (by simp [Op.target])
  | callContract a m f args => exact frame rfl (by simp [Op.target])

theorem run_senderNormalized (ops : List Op) : ∀ t : AptosTransaction,
    (∀ op ∈ ops, op.keepsSender) → senderNormalized t → senderNormalized (run t ops) := by
  induction ops with
  | nil => intro t _ h; exact h
  | cons op ops ih =>
    intro t hops h
    exact ih (step t op) (fun o ho => hops o (List.mem_cons_of_mem _ ho))
      (step_senderNormalized t op (hops op (List.mem_cons_self _ _)) h)

/-- Claim C16 as stated fails: after `setSender "0xZZ"` on a new builder the stored
sender is not `0x` followed by 64 lowercase hex digits, and on a builder whose document
root is an array `setSender "0x1"` stores nothing, so `getSender()` is empty. -/
theorem setSender_not_always_normalized :
    ¬ isNormalizedAddress (getSender (setSender new "0xZZ")) ∧
      getSender (setSender (fromDocument (Json.arr [])) "0x1") = "" := by
  constructor
  · have h : getSender (setSender new "0xZZ") = padHexAddress "0xZZ" := rfl
    rw [h]
    unfold isNormalizedAddress
    rw [padHexAddress_data]
    decide
  · rfl

/-- Claim C16, amended: for every text `s` of at most 64 hexadecimal digits after the
optional prefix, on a builder whose document is empty or an object, after `setSender s`
the stored sender is `padHexAddress s`, which is `0x` followed by 64 lowercase hex
digits, and it is still of that form after every later sequence of operations that has
no `reset` and gives every `setSender` such a text again. -/
theorem sender_stays_normalized (t : AptosTransaction) (s : String) (ops : List Op)
    (ht : t.transaction.isNullOrObject = true) (hs : isHexAddressText s)
    (hops : ∀ op ∈ ops, op.keepsSender) :
    getSender (setSender t s) = padHexAddress s ∧
      isNormalizedAddress (getSender (setSender t s)) ∧
      isNormalizedAddress (getSender (run (setSender t s) ops)) := by
  have h0 := setSender_normalized t s ht hs
  refine ⟨?_, getSender_of_normalized _ h0,
    getSender_of_normalized _ (run_senderNormalized ops _ hops h0)⟩
  unfold getSender getJsonString setSender
  simp only
  rw [getMember_setMember_ok _ _ _ ht]

theorem sender_stays_normalized_witness :
    getSender (setSender new "0xCAFE") = padHexAddress "0xCAFE" ∧
      isNormalizedAddress (getSender (setSender new "0xCAFE")) ∧
      isNormalizedAddress (getSender (run (setSender new "0xCAFE")
        [Op.setSequenceNumber 5, Op.coinTransfer "0xB0B" 1 DEFAULT_COIN_TYPE, Op.build 0,
          Op.setSender "0X1"])) :=
  sender_stays_normalized new "0xCAFE"
    [Op.setSequenceNumber 5, Op.coinTransfer "0xB0B" 1 DEFAULT_COIN_TYPE, Op.build 0,
      Op.setSender "0X1"] (by decide) (by decide) (by decide)

end AptosTransaction

/-! ## Properties of the account: import, derivation, signing, persistence -/

namespace Sha256

theorem sha256_length (msg : List Nat) : (sha256 msg).length = 32 := by
  simp [sha256, wordBytes]

theorem sha256_byte_lt (msg : List Nat) : ∀ b ∈ sha256 msg, b < 256 := by
  intro b hb
  simp only [sha256, wordBytes, List.mem_append, List.mem_cons, List.mem_singleton,
    List.not_mem_nil, or_false] at hb
  rcases hb with ((((((h | h) | h) | h) | h) | h) | h) | h <;>
    rcases h with h | h | h | h <;> rw [h] <;> exact Nat.mod_lt _ (by decide)

set_option maxRecDepth 100000 in
/-- The digest of the three bytes `abc`, the first test vector of the standard. -/
theorem sha256_abc :
    sha256 [97, 98, 99]
      = [186, 120, 22, 191, 143, 1, 207, 234, 65, 65, 64, 222, 93, 174, 34, 35,
          176, 3, 97, 163, 150, 23, 122, 156, 180, 16, 255, 97, 242, 0, 21, 173] := by
  decide

end Sha256

namespace AptosUtils

theorem hexToBytes_ok_iff (hex : String) (buf : List Nat) (maxLength : Nat) :
    (hexToBytes hex buf maxLength).1 = true ↔
      ((removeHexPrefix hex).length % 2 = 0 ∧
        (∀ c ∈ (removeHexPrefix hex).data, isHexDigit c) ∧
        (removeHexPrefix hex).length ≤ 2 * maxLength) := by
  unfold hexToBytes
  simp only
  generalize removeHexPrefix hex = s
  split_ifs with hodd hbig
  · simp only [Bool.false_eq_true, false_iff]; intro h; omega
  · simp only [Bool.false_eq_true, false_iff]; intro h; omega
  · have hok := hexToBytesLoop_ok_iff s (s.length / 2) 0 buf
    have hlen : (0 + s.length / 2) * 2 = s.length := by omega
    rw [hlen] at hok
    have hall := all_charAt_iff s
    rw [hok]
    constructor
    · intro hn
      exact ⟨by omega, hall.1 (fun j hj => hn j (by omega) hj), by omega⟩
    · rintro ⟨_, hc, _⟩ j _ hj
      exact hall.2 hc j hj

theorem nibbleToHex_lower : ∀ n, n < 16 → isLowerHexDigit (nibbleToHex n) := by
  decide

theorem bytesToHexChars_lower (bytes : List Nat) :
    ∀ c ∈ bytesToHexChars bytes, isLowerHexDigit c := by
  induction bytes with
  | nil => intro c hc; simp [bytesToHexChars] at hc
  | cons b rest ih =>
    intro c hc
    simp only [bytesToHexChars, List.mem_cons] at hc
    rcases hc with rfl | rfl | hc
    · rw [nibbleToHex_mask]; exact nibbleToHex_lower _ (Nat.mod_lt _ (by decide))
    · rw [nibbleToHex_mask]; exact nibbleToHex_lower _ (Nat.mod_lt _ (by decide))
    · exact ih c hc

theorem isHexDigit_of_lower (c : Char) (h : isLowerHexDigit c) : isHexDigit c := by
  unfold isHexDigit
  unfold isLowerHexDigit at h
  rcases h with h | h
  · exact Or.inl h
  · exact Or.inr (Or.inl h)

theorem isNormalizedAddress_hex (bytes : List Nat) (h : bytes.length = 32) :
    isNormalizedAddress ("0x" ++ bytesToHex bytes) := by
  have hd : ("0x" ++ bytesToHex bytes).data = '0' :: 'x' :: bytesToHexChars bytes := rfl
  unfold isNormalizedAddress
  rw [hd]
  refine ⟨rfl, ?_, ?_⟩
  · simp only [List.drop_succ_cons, List.drop_zero, bytesToHexChars_length, h]
  · simp only [List.drop_succ_cons, List.drop_zero]
    exact bytesToHexChars_lower bytes

theorem hexToBytes_prefixed_bytesToHex (p : String) (hp : p = "" ∨ p = "0x" ∨ p = "0X")
    (b buf : List Nat) (maxLength : Nat)
    (hb : ∀ x ∈ b, x < 256) (hcap : b.length ≤ maxLength) (hbuf : maxLength ≤ buf.length) :
    hexToBytes (p ++ bytesToHex b) buf maxLength = (true, b ++ buf.drop b.length) := by
  have hr : removeHexPrefix (p ++ bytesToHex b) = removeHexPrefix (bytesToHex b) := by
    rw [removeHexPrefix_bytesToHex]
    exact removeHexPrefix_of_prefixed p _ hp
      (fun c hc => isHexDigit_of_lower c (bytesToHexChars_lower b c hc))
  have h := hexToBytes_after_bytesToHex b buf maxLength hb hcap hbuf
  unfold hexToBytes at h ⊢
  rw [hr]
  exact h

end AptosUtils

namespace AptosAccount
open AptosUtils Sha256

theorem generateKeyPair_eq (a : AptosAccount) :
    generateKeyPair a =
      (true, { a with
        publicKey := sha256 a.privateKey
        address := "0x" ++ bytesToHex (sha256 (sha256 a.privateKey ++ [0]))
        isInitialized := true }) := rfl

theorem fromPrivateKey_fst (a : AptosAccount) (hex : String) :
    (fromPrivateKey a hex).1 = (hexToBytes hex a.privateKey PRIVATE_KEY_SIZE).1 := by
  unfold fromPrivateKey
  simp only
  cases (hexToBytes hex a.privateKey PRIVATE_KEY_SIZE).1 <;> rfl

theorem fromPrivateKey_of_ok (a : AptosAccount) (hex : String) (key : List Nat)
    (h : hexToBytes hex a.privateKey PRIVATE_KEY_SIZE = (true, key)) :
    fromPrivateKey a hex =
      (true, { a with
        privateKey := key
        publicKey := sha256 key
        address := "0x" ++ bytesToHex (sha256 (sha256 key ++ [0]))
        isInitialized := true }) := by
  unfold fromPrivateKey
  rw [h]
  rfl

theorem fromPrivateKey_of_fail (a : AptosAccount) (hex : String) (key : List Nat)
    (h : hexToBytes hex a.privateKey PRIVATE_KEY_SIZE = (false, key)) :
    fromPrivateKey a hex = (false, { a with privateKey := key }) := by
  unfold fromPrivateKey
  rw [h]
  rfl

/-- Claim C21 fails on the code: `fromPrivateKey` succeeds on the empty string and on
the one-byte key `ab` although neither decodes to 32 bytes; the one decoded byte
replaces the first byte of the key buffer. -/
theorem fromPrivateKey_accepts_short_keys :
    (fromPrivateKey (new true) "").1 = true ∧ (fromPrivateKey (new true) "ab").1 = true ∧
      (fromPrivateKey (new true) "0xab").2.privateKey = 171 :: List.replicate 31 0 := by
  decide

/-- The inputs `fromPrivateKey(hex)` accepts: after the optional `0x`/`0X`, an even
number of hexadecimal digits, at most 64 of them; the number of decoded bytes is only
bounded by 32, not required to be 32. -/
theorem fromPrivateKey_succeeds_iff (a : AptosAccount) (hex : String) :
    (fromPrivateKey a hex).1 = true ↔
      ((removeHexPrefix hex).length % 2 = 0 ∧
        (∀ c ∈ (removeHexPrefix hex).data, isHexDigit c) ∧
        (removeHexPrefix hex).length ≤ 64) := by
  rw [fromPrivateKey_fst, hexToBytes_ok_iff]
  rfl

/-- Claim C22: key derivation is deterministic. For every 32-byte key `k`, importing its
hex text (with or without prefix) into any account gives private key `k`, public key
`SHA-256(k)` and address `0x` + hex of `SHA-256(publicKey ++ [0x00])`; two accounts, or
the same account imported twice, end with the same public key and address. -/
theorem fromPrivateKey_deterministic (a1 a2 : AptosAccount) (k : List Nat) (p1 p2 : String)
    (hk : k.length = 32) (hb : ∀ x ∈ k, x < 256)
    (h1 : a1.privateKey.length = 32) (h2 : a2.privateKey.length = 32)
    (hp1 : p1 = "" ∨ p1 = "0x" ∨ p1 = "0X") (hp2 : p2 = "" ∨ p2 = "0x" ∨ p2 = "0X") :
    (fromPrivateKey a1 (p1 ++ bytesToHex k)).1 = true ∧
      (fromPrivateKey a1 (p1 ++ bytesToHex k)).2.privateKey = k ∧
      (fromPrivateKey a1 (p1 ++ bytesToHex k)).2.publicKey = sha256 k ∧
      (fromPrivateKey a1 (p1 ++ bytesToHex k)).2.address
        = "0x" ++ bytesToHex (sha256 (sha256 k ++ [0])) ∧
      (fromPrivateKey a2 (p2 ++ bytesToHex k)).2.publicKey
        = (fromPrivateKey a1 (p1 ++ bytesToHex k)).2.publicKey ∧
      (fromPrivateKey a2 (p2 ++ bytesToHex k)).2.address
        = (fromPrivateKey a1 (p1 ++ bytesToHex k)).2.address ∧
      (fromPrivateKey (fromPrivateKey a1 (p1 ++ bytesToHex k)).2 (p2 ++ bytesToHex k)).2
        = (fromPrivateKey a1 (p1 ++ bytesToHex k)).2 := by
  have key : ∀ (a : AptosAccount) (p : String), a.privateKey.length = 32 →
      (p = "" ∨ p = "0x" ∨ p = "0X") →
      fromPrivateKey a (p ++ bytesToHex k) =
        (true, { a with
          privateKey := k
          publicKey := sha256 k
          address := "0x" ++ bytesToHex (sha256 (sha256 k ++ [0]))
          isInitialized := true }) := by
    intro a p ha hp
    apply fromPrivateKey_of_ok
    have h := hexToBytes_prefixed_bytesToHex p hp k a.privateKey PRIVATE_KEY_SIZE hb
      (by rw [hk]; exact le_refl 32) (by rw [ha]; exact le_refl 32)
    rw [h, hk, List.drop_of_length_le (by omega)]
    simp
  rw [key a1 p1 h1 hp1, key a2 p2 h2 hp2]
  refine ⟨rfl, rfl, rfl, rfl, rfl, rfl, ?_⟩
  simp only
  rw [key _ p2 hk hp2]

set_option maxRecDepth 100000 in
/-- Claim C23 fails on the code: after a successful import of the all-zero key, the
failed import `fromPrivateKey("12ZZ")` returns false but has already written the byte
`0x12` into the key buffer; the account is still valid, its public key is still the
digest of the old key and differs from the digest of the key it now holds. -/
theorem failed_import_corrupts_ready_account :
    isValid (run 0 0 (new true)
        [Op.fromPrivateKey "0000000000000000000000000000000000000000000000000000000000000000",
          Op.fromPrivateKey "12ZZ"]) = true ∧
      (fromPrivateKey (newFromKey true
        "0000000000000000000000000000000000000000000000000000000000000000") "12ZZ").1 = false ∧
      (run 0 0 (new true)
        [Op.fromPrivateKey "0000000000000000000000000000000000000000000000000000000000000000",
          Op.fromPrivateKey "12ZZ"]).privateKey = 18 :: List.replicate 31 0 ∧
      (run 0 0 (new true)
        [Op.fromPrivateKey "0000000000000000000000000000000000000000000000000000000000000000",
          Op.fromPrivateKey "12ZZ"]).publicKey = sha256 (List.replicate 32 0) ∧
      (run 0 0 (new true)
        [Op.fromPrivateKey "0000000000000000000000000000000000000000000000000000000000000000",
          Op.fromPrivateKey "12ZZ"]).publicKey
        ≠ sha256 (run 0 0 (new true)
          [Op.fromPrivateKey "0000000000000000000000000000000000000000000000000000000000000000",
            Op.fromPrivateKey "12ZZ"]).privateKey := by
  decide

theorem generateKeyPair_addressInv (a : AptosAccount) : addressInv (generateKeyPair a).2 := by
  rw [generateKeyPair_eq]
  constructor
  · intro _
    exact isNormalizedAddress_hex _ (sha256_length _)
  · intro h; simp at h

theorem step_addressInv (magic0 magic1 : Nat) (a : AptosAccount) (op : Op)
    (h : addressInv a) : addressInv (step magic0 magic1 a op) := by
  cases op with
  | clear => exact ⟨fun hc => by simp [step, clear] at hc, fun _ => rfl⟩
  | createRandom ret random =>
    simp only [step, createRandom]
    split_ifs
    · exact h
    · exact generateKeyPair_addressInv _
  | fromPrivateKey hex =>
    simp only [step, fromPrivateKey]
    split_ifs
    · exact h
    · exact generateKeyPair_addressInv _
  | loadFromEEPROM store offset =>
    simp only [step, loadFromEEPROM]
    split_ifs
    · exact h
    · exact generateKeyPair_addressInv _

theorem run_addressInv (magic0 magic1 : Nat) (ops : List Op) :
    ∀ a : AptosAccount, addressInv a → addressInv (run magic0 magic1 a ops) := by
  induction ops with
  | nil => intro a h; exact h
  | cons op ops ih => intro a h; exact ih _ (step_addressInv magic0 magic1 a op h)

theorem new_addressInv (seedOk : Bool) : addressInv (new seedOk) :=
  ⟨fun h => by simp [new] at h, fun _ => rfl⟩

/-- Claim C24: in every state reached from either constructor through `createRandom`,
`fromPrivateKey`, `loadFromEEPROM` and `clear`, `getAddress()` is `0x` followed by 64
lowercase hex digits when the account is valid and the empty string when it is not. -/
theorem address_normalized_or_empty (magic0 magic1 : Nat) (seedOk : Bool) (ops : List Op) :
    (isValid (run magic0 magic1 (new seedOk) ops) = true →
      isNormalizedAddress (getAddress (run magic0 magic1 (new seedOk) ops))) ∧
    (isValid (run magic0 magic1 (new seedOk) ops) = false →
      getAddress (run magic0 magic1 (new seedOk) ops) = "") ∧
    (∀ hex : String,
      (isValid (run magic0 magic1 (newFromKey seedOk hex) ops) = true →
        isNormalizedAddress (getAddress (run magic0 magic1 (newFromKey seedOk hex) ops))) ∧
      (isValid (run magic0 magic1 (newFromKey seedOk hex) ops) = false →
        getAddress (run magic0 magic1 (newFromKey seedOk hex) ops) = "")) := by
  have h1 := run_addressInv magic0 magic1 ops (new seedOk) (new_addressInv seedOk)
  refine ⟨h1.1, h1.2, fun hex => ?_⟩
  have h2 := run_addressInv magic0 magic1 ops (newFromKey seedOk hex)
    (step_addressInv magic0 magic1 (new seedOk) (Op.fromPrivateKey hex) (new_addressInv seedOk))
  exact ⟨h2.1, h2.2⟩

theorem foldl_set_range (f : Nat → Nat) (n : Nat) :
    ∀ buf : List Nat, n ≤ buf.length →
      (List.range n).foldl (fun b i => b.set i (f i)) buf
        = (List.range n).map f ++ buf.drop n := by
  induction n with
  | zero => intro buf _; simp
  | succ n ih =>
    intro buf h
    rw [List.range_succ, List.foldl_append, ih buf (by omega)]
    simp only [List.foldl_cons, List.foldl_nil, List.map_append, List.map_cons, List.map_nil]
    have hlen : ((List.range n).map f).length = n := by simp
    have hdrop : buf.drop n = buf[n] :: buf.drop (n + 1) := by
      rw [List.drop_eq_getElem_cons (by omega)]
    rw [hdrop]
    have hset : ((List.range n).map f ++ buf[n] :: buf.drop (n + 1)).set n (f n)
        = (List.range n).map f ++ f n :: buf.drop (n + 1) := by
      have general : ∀ (l r : List Nat) (x y : Nat),
          (l ++ x :: r).set l.length y = l ++ y :: r := by
        intro l r x y; simp
      have := general ((List.range n).map f) (buf.drop (n + 1)) buf[n] (f n)
      rwa [hlen] at this
    rw [hset]
    simp

theorem signatureBytes_length (key message : List Nat) :
    (signatureBytes key message).length = 64 := by
  simp [signatureBytes, SIGNATURE_SIZE]

theorem signatureBytes_getD (key message : List Nat) (i : Nat) (hi : i < 64) :
    (signatureBytes key message).getD i 0
      = (sha256 message).getD (i % 32) 0 ^^^ key.getD (i % 32) 0 := by
  unfold signatureBytes SIGNATURE_SIZE PRIVATE_KEY_SIZE
  rw [List.getD_eq_getElem _ _ (by simpa using hi)]
  simp

theorem signMessage_ready (a : AptosAccount) (message signature : List Nat)
    (hr : a.isInitialized = true) (hs : 64 ≤ signature.length) :
    signMessage a message signature
      = (true, signatureBytes a.privateKey message ++ signature.drop 64, a) := by
  unfold signMessage
  rw [hr]
  simp only [Bool.not_true, Bool.false_eq_true, if_false]
  rw [foldl_set_range _ SIGNATURE_SIZE signature hs]
  rfl

theorem signMessage_uninitialized (a : AptosAccount) (message signature : List Nat)
    (hr : a.isInitialized = false) :
    signMessage a message signature = (false, signature, a) := by
  unfold signMessage
  rw [hr]
  rfl

/-- Claim C25: on an uninitialized account `signMessage` returns false and leaves the
signature buffer as it was; on an initialized one it returns true, writes exactly the
first 64 bytes of the buffer, byte `i` being `SHA-256(message)[i mod 32]` xor
`privateKey[i mod 32]` (a function of the private key and the message only), and leaves
the account unchanged. -/
theorem signMessage_spec (a : AptosAccount) (message signature : List Nat) :
    (a.isInitialized = false → signMessage a message signature = (false, signature, a)) ∧
    (a.isInitialized = true → 64 ≤ signature.length →
      (signMessage a message signature).1 = true ∧
        (signMessage a message signature).2.1
          = signatureBytes a.privateKey message ++ signature.drop 64 ∧
        (signatureBytes a.privateKey message).length = 64 ∧
        (∀ i, i < 64 → (signMessage a message signature).2.1.getD i 0
          = (sha256 message).getD (i % 32) 0 ^^^ a.privateKey.getD (i % 32) 0) ∧
        (signMessage a message signature).2.2 = a) := by
  refine ⟨signMessage_uninitialized a message signature, fun hr hs => ?_⟩
  rw [signMessage_ready a message signature hr hs]
  refine ⟨rfl, rfl, signatureBytes_length _ _, fun i hi => ?_, rfl⟩
  simp only
  rw [List.getD_append _ _ _ _ (by rw [signatureBytes_length]; exact hi)]
  exact signatureBytes_getD _ _ i hi

theorem verifySignature_ready (a : AptosAccount) (message signature : List Nat)
    (hr : a.isInitialized = true) :
    verifySignature a message signature
      = decide (signature.take 64 = signatureBytes a.privateKey message) := by
  unfold verifySignature
  rw [hr, signMessage_ready a message _ hr (by simp [SIGNATURE_SIZE])]
  simp only [Bool.not_true, Bool.false_eq_true, if_false, SIGNATURE_SIZE]
  have : (signatureBytes a.privateKey message ++ (List.replicate 64 0).drop 64).take 64
      = signatureBytes a.privateKey message := by
    rw [List.take_append_of_le_length (by rw [signatureBytes_length])]
    exact List.take_of_length_le (by rw [signatureBytes_length])
  simp only [this]

theorem xor_pow_ne (x j : Nat) : x ^^^ 2 ^ j ≠ x := by
  intro h
  have h2 : x ^^^ (x ^^^ 2 ^ j) = x ^^^ x := by rw [h]
  rw [← Nat.xor_assoc, Nat.xor_self, Nat.zero_xor] at h2
  exact absurd h2 (by positivity)

/-- Claim C26: `verifySignature` is false on an uninitialized account; on an initialized
one it is true for a 64-byte `s` exactly when `s` is the signature `signMessage` writes,
so it accepts that signature and rejects it once any bit of any byte is flipped. -/
theorem verifySignature_spec (a : AptosAccount) (message : List Nat) :
    (a.isInitialized = false → ∀ s : List Nat, verifySignature a message s = false) ∧
    (a.isInitialized = true →
      (∀ s : List Nat, s.length = 64 →
        (verifySignature a message s = true ↔ s = signatureBytes a.privateKey message)) ∧
      (∀ buf : List Nat, buf.length = 64 →
        verifySignature a message (signMessage a message buf).2.1 = true) ∧
      (∀ i j : Nat, i < 64 →
        verifySignature a message
          ((signatureBytes a.privateKey message).set i
            ((signatureBytes a.privateKey message).getD i 0 ^^^ 2 ^ j)) = false)) := by
  constructor
  · intro hr s
    unfold verifySignature
    rw [hr]; rfl
  · intro hr
    have hiff : ∀ s : List Nat, s.length = 64 →
        (verifySignature a message s = true ↔ s = signatureBytes a.privateKey message) := by
      intro s hs
      rw [verifySignature_ready a message s hr, List.take_of_length_le (by omega)]
      simp
    refine ⟨hiff, ?_, ?_⟩
    · intro buf hb
      rw [signMessage_ready a message buf hr (by omega)]
      simp only
      rw [List.drop_of_length_le (by omega), List.append_nil]
      exact (hiff _ (signatureBytes_length _ _)).2 rfl
    · intro i j hi
      rw [← Bool.not_eq_true, hiff _ (by rw [List.length_set]; exact signatureBytes_length _ _)]
      intro h
      have hlen := signatureBytes_length a.privateKey message
      have h2 := congrArg (fun l => l.getD i 0) h
      simp only at h2
      rw [List.getD_eq_getElem _ _ (by rw [List.length_set, hlen]; exact hi),
        List.getElem_set_self] at h2
      exact xor_pow_ne _ _ h2

theorem signTransaction_ready (serializeJson : Json → String) (a : AptosAccount)
    (transaction : Json) (signedTxn : String) (hr : a.isInitialized = true) :
    signTransaction serializeJson a transaction signedTxn
      = (true,
          serializeJson (signedDocument a transaction
            (signatureBytes a.privateKey (stringBytes (serializeJson transaction)))), a) := by
  have hs := signMessage_ready a (stringBytes (serializeJson transaction))
    (List.replicate SIGNATURE_SIZE 0) hr (by simp [SIGNATURE_SIZE])
  rw [List.drop_of_length_le (by simp [SIGNATURE_SIZE]), List.append_nil] at hs
  unfold signTransaction
  simp only [hr, hs, Bool.not_true, Bool.false_eq_true, if_false]

theorem signTransaction_uninitialized (serializeJson : Json → String) (a : AptosAccount)
    (transaction : Json) (signedTxn : String) (hr : a.isInitialized = false) :
    signTransaction serializeJson a transaction signedTxn = (false, signedTxn, a) := by
  unfold signTransaction
  rw [hr]
  rfl

theorem getPublicKeyHex_ready (a : AptosAccount) (hr : a.isInitialized = true) :
    getPublicKeyHex a = bytesToHex a.publicKey := by
  unfold getPublicKeyHex
  rw [hr]
  rfl

/-- Claim C27: on an uninitialized account `signTransaction` returns false and leaves
the output string as it was; on an initialized one it returns true and its output is
the serialized signed document, whose authenticator has type "ed25519_signature",
public_key `0x` + hex of the account's public key (64 digits for a 32-byte key) and
signature `0x` + the 128 hex digits of `signMessage` applied to the serialized text of
the whole input envelope. -/
theorem signTransaction_spec (serializeJson : Json → String) (a : AptosAccount)
    (transaction : Json) (signedTxn : String) :
    (a.isInitialized = false →
      signTransaction serializeJson a transaction signedTxn = (false, signedTxn, a)) ∧
    (a.isInitialized = true →
      (signTransaction serializeJson a transaction signedTxn).1 = true ∧
        (signTransaction serializeJson a transaction signedTxn).2.1
          = serializeJson (signedDocument a transaction
              (signMessage a (stringBytes (serializeJson transaction))
                (List.replicate 64 0)).2.1) ∧
        AptosTransaction.getNested (signedDocument a transaction
            (signMessage a (stringBytes (serializeJson transaction))
              (List.replicate 64 0)).2.1) "signature" "type"
          = some (Json.str "ed25519_signature") ∧
        AptosTransaction.getNested (signedDocument a transaction
            (signMessage a (stringBytes (serializeJson transaction))
              (List.replicate 64 0)).2.1) "signature" "public_key"
          = some (Json.str ("0x" ++ bytesToHex a.publicKey)) ∧
        AptosTransaction.getNested (signedDocument a transaction
            (signMessage a (stringBytes (serializeJson transaction))
              (List.replicate 64 0)).2.1) "signature" "signature"
          = some (Json.str ("0x" ++ bytesToHex (signMessage a
              (stringBytes (serializeJson transaction)) (List.replicate 64 0)).2.1)) ∧
        (bytesToHex (signMessage a (stringBytes (serializeJson transaction))
          (List.replicate 64 0)).2.1).length = 128 ∧
        (a.publicKey.length = 32 → (bytesToHex a.publicKey).length = 64)) := by
  refine ⟨signTransaction_uninitialized serializeJson a transaction signedTxn, fun hr => ?_⟩
  have hsig : (signMessage a (stringBytes (serializeJson transaction))
      (List.replicate 64 0)).2.1
        = signatureBytes a.privateKey (stringBytes (serializeJson transaction)) := by
    rw [signMessage_ready a _ _ hr (by simp)]
    simp only
    rw [List.drop_of_length_le (by simp), List.append_nil]
  rw [hsig, signTransaction_ready serializeJson a transaction signedTxn hr]
  refine ⟨rfl, rfl, rfl, ?_, rfl, ?_, ?_⟩
  · have h : AptosTransaction.getNested (signedDocument a transaction
        (signatureBytes a.privateKey (stringBytes (serializeJson transaction))))
        "signature" "public_key" = some (Json.str ("0x" ++ getPublicKeyHex a)) := rfl
    rw [h, getPublicKeyHex_ready a hr]
  · show (bytesToHexChars _).length = 128
    rw [bytesToHexChars_length, signatureBytes_length]
  · intro hl
    show (bytesToHexChars _).length = 64
    rw [bytesToHexChars_length, hl]

/-- Claim C28, amended: for a valid account and every input envelope, the
sequence_number, max_gas_amount, gas_unit_price, expiration_timestamp_secs and payload
of the signed document are the values of the input envelope (null for a member the
input lacks), and its sender is the address of the signing account. -/
theorem signedDocument_fields (serializeJson : Json → String) (a : AptosAccount)
    (transaction : Json) (signedTxn : String) (hr : a.isInitialized = true) :
    (signTransaction serializeJson a transaction signedTxn).2.1
        = serializeJson (signedDocument a transaction
            (signatureBytes a.privateKey (stringBytes (serializeJson transaction)))) ∧
      (signedDocument a transaction
          (signatureBytes a.privateKey (stringBytes (serializeJson transaction)))).getMember
          "sender" = some (Json.str a.address) ∧
      ∀ k, k ∈ ["sequence_number", "max_gas_amount", "gas_unit_price",
          "expiration_timestamp_secs", "payload"] →
        (signedDocument a transaction
          (signatureBytes a.privateKey (stringBytes (serializeJson transaction)))).getMember k
          = some (memberValue transaction k) ∧
        ∀ v, transaction.getMember k = some v →
          (signedDocument a transaction
            (signatureBytes a.privateKey
              (stringBytes (serializeJson transaction)))).getMember k = some v := by
  rw [signTransaction_ready serializeJson a transaction signedTxn hr]
  refine ⟨rfl, rfl, fun k hk => ?_⟩
  have hval : ∀ v, transaction.getMember k = some v → memberValue transaction k = v := by
    intro v hv
    unfold memberValue
    rw [hv]; rfl
  simp only [List.mem_cons, List.mem_singleton, List.not_mem_nil, or_false] at hk
  rcases hk with rfl | rfl | rfl | rfl | rfl
  · exact ⟨rfl, fun v hv => by rw [← hval v hv]; rfl⟩
  · exact ⟨rfl, fun v hv => by rw [← hval v hv]; rfl⟩
  · exact ⟨rfl, fun v hv => by rw [← hval v hv]; rfl⟩
  · exact ⟨rfl, fun v hv => by rw [← hval v hv]; rfl⟩
  · exact ⟨rfl, fun v hv => by rw [← hval v hv]; rfl⟩

/-- Claim C29: `clear()` sets the 32 private-key bytes and the 32 public-key bytes to
zero, empties the address and un-initializes the account; afterwards the account is not
valid, both hex getters return the empty string, and `signMessage`, `signTransaction`
and `verifySignature` fail. -/
theorem clear_spec (serializeJson : Json → String) (a : AptosAccount)
    (message signature : List Nat) (transaction : Json) (signedTxn : String) :
    (clear a).privateKey = List.replicate 32 0 ∧
      (clear a).publicKey = List.replicate 32 0 ∧
      (clear a).address = "" ∧
      (clear a).isInitialized = false ∧
      isValid (clear a) = false ∧
      getPrivateKeyHex (clear a) = "" ∧
      getPublicKeyHex (clear a) = "" ∧
      signMessage (clear a) message signature = (false, signature, clear a) ∧
      signTransaction serializeJson (clear a) transaction signedTxn
        = (false, signedTxn, clear a) ∧
      verifySignature (clear a) message signature = false :=
  ⟨rfl, rfl, rfl, rfl, rfl, rfl, rfl, rfl, rfl, rfl⟩

/-- Claim C30: when the byte at `offset` or the byte at `offset + 1` of the store is not
the expected magic byte, `loadFromEEPROM` returns false and leaves the whole account
unchanged; a freshly constructed account stays uninitialized with an all-zero key. -/
theorem load_mismatch_atomic (magic0 magic1 : Nat) (a : AptosAccount) (store : List Nat)
    (offset : Int)
    (h : eepromRead store offset ≠ magic0 ∨ eepromRead store (offset + 1) ≠ magic1) :
    loadFromEEPROM magic0 magic1 a store offset = (false, a) ∧
      (∀ seedOk : Bool, a = new seedOk →
        (loadFromEEPROM magic0 magic1 a store offset).2.isInitialized = false ∧
        (loadFromEEPROM magic0 magic1 a store offset).2.privateKey = List.replicate 32 0) := by
  have h1 : loadFromEEPROM magic0 magic1 a store offset = (false, a) := by
    unfold loadFromEEPROM
    rw [if_pos h]
  refine ⟨h1, fun seedOk ha => ?_⟩
  rw [h1, ha]
  exact ⟨rfl, rfl⟩

theorem fromPrivateKey_deterministic_witness :
    (fromPrivateKey (new true) ("" ++ bytesToHex (List.replicate 32 7))).1 = true ∧
      (fromPrivateKey (new true) ("" ++ bytesToHex (List.replicate 32 7))).2.privateKey
        = List.replicate 32 7 ∧
      (fromPrivateKey (new true) ("" ++ bytesToHex (List.replicate 32 7))).2.publicKey
        = sha256 (List.replicate 32 7) ∧
      (fromPrivateKey (new true) ("" ++ bytesToHex (List.replicate 32 7))).2.address
        = "0x" ++ bytesToHex (sha256 (sha256 (List.replicate 32 7) ++ [0])) ∧
      (fromPrivateKey (newFromKey false "0xab") ("0X" ++ bytesToHex (List.replicate 32 7))).2.publicKey
        = (fromPrivateKey (new true) ("" ++ bytesToHex (List.replicate 32 7))).2.publicKey ∧
      (fromPrivateKey (newFromKey false "0xab") ("0X" ++ bytesToHex (List.replicate 32 7))).2.address
        = (fromPrivateKey (new true) ("" ++ bytesToHex (List.replicate 32 7))).2.address ∧
      (fromPrivateKey (fromPrivateKey (new true) ("" ++ bytesToHex (List.replicate 32 7))).2
          ("0X" ++ bytesToHex (List.replicate 32 7))).2
        = (fromPrivateKey (new true) ("" ++ bytesToHex (List.replicate 32 7))).2 :=
  fromPrivateKey_deterministic (new true) (newFromKey false "0xab") (List.replicate 32 7) ""
    "0X" (by decide) (by decide) (by decide) (by decide) (by decide) (by decide)

theorem address_normalized_or_empty_witness :
    isNormalizedAddress (getAddress (run 165 112 (new true)
      [Op.fromPrivateKey (bytesToHex (List.replicate 32 7)), Op.fromPrivateKey "zz"])) :=
  (address_normalized_or_empty 165 112 true
    [Op.fromPrivateKey (bytesToHex (List.replicate 32 7)), Op.fromPrivateKey "zz"]).1
    (by decide)

theorem signMessage_spec_witness :
    (signMessage (newFromKey true (bytesToHex (List.replicate 32 7))) [1, 2, 3]
        (List.replicate 64 0)).1 = true ∧
      (signMessage (newFromKey true (bytesToHex (List.replicate 32 7))) [1, 2, 3]
        (List.replicate 64 0)).2.1
        = signatureBytes (newFromKey true (bytesToHex (List.replicate 32 7))).privateKey
            [1, 2, 3] ++ (List.replicate 64 0).drop 64 :=
  ⟨((signMessage_spec (newFromKey true (bytesToHex (List.replicate 32 7))) [1, 2, 3]
      (List.replicate 64 0)).2 (by decide) (by decide)).1,
    ((signMessage_spec (newFromKey true (bytesToHex (List.replicate 32 7))) [1, 2, 3]
      (List.replicate 64 0)).2 (by decide) (by decide)).2.1⟩

theorem verifySignature_spec_witness :
    verifySignature (newFromKey true (bytesToHex (List.replicate 32 7))) [1, 2, 3]
      (signMessage (newFromKey true (bytesToHex (List.replicate 32 7))) [1, 2, 3]
        (List.replicate 64 0)).2.1 = true :=
  ((verifySignature_spec (newFromKey true (bytesToHex (List.replicate 32 7))) [1, 2, 3]).2
    (by decide)).2.1 (List.replicate 64 0) (by decide)

theorem signTransaction_spec_witness :
    (signTransaction Json.compact (newFromKey true (bytesToHex (List.replicate 32 7)))
      (Json.obj [("sender", Json.str "0x1"), ("sequence_number", Json.str "5")]) "").1 = true :=
  ((signTransaction_spec Json.compact (newFromKey true (bytesToHex (List.replicate 32 7)))
    (Json.obj [("sender", Json.str "0x1"), ("sequence_number", Json.str "5")]) "").2
    (by decide)).1

set_option maxRecDepth 100000 in
/-- Claim C28 as stated fails: signing an envelope whose sender is "0x1" with a valid
account gives a signed document whose sender is not "0x1" (it is the address of the
account). -/
theorem signed_sender_is_account_address :
    isValid (newFromKey true (bytesToHex (List.replicate 32 7))) = true ∧
      getJsonString (Json.obj [("sender", Json.str "0x1"), ("sequence_number", Json.str "5")])
        "sender" "" = "0x1" ∧
      getJsonString
        (signedDocument (newFromKey true (bytesToHex (List.replicate 32 7)))
          (Json.obj [("sender", Json.str "0x1"), ("sequence_number", Json.str "5")])
          (signatureBytes (newFromKey true (bytesToHex (List.replicate 32 7))).privateKey
            (stringBytes (Json.compact
              (Json.obj [("sender", Json.str "0x1"), ("sequence_number", Json.str "5")])))))
        "sender" "" ≠ "0x1" := by
  decide

theorem signedDocument_fields_witness :
    (signedDocument (newFromKey true (bytesToHex (List.replicate 32 7)))
        (Json.obj [("sender", Json.str "0x1"), ("sequence_number", Json.str "5")])
        (signatureBytes (newFromKey true (bytesToHex (List.replicate 32 7))).privateKey
          (stringBytes (Json.compact
            (Json.obj [("sender", Json.str "0x1"),
              ("sequence_number", Json.str "5")]))))).getMember "sender"
      = some (Json.str (newFromKey true (bytesToHex (List.replicate 32 7))).address) :=
  (signedDocument_fields Json.compact (newFromKey true (bytesToHex (List.replicate 32 7)))
    (Json.obj [("sender", Json.str "0x1"), ("sequence_number", Json.str "5")]) ""
    (by decide)).2.1

theorem load_mismatch_atomic_witness :
    loadFromEEPROM 165 112 (new true) (List.replicate 512 255) 0 = (false, new true) :=
  (load_mismatch_atomic 165 112 (new true) (List.replicate 512 255) 0 (by decide)).1

end AptosAccount

/-! ## Properties of the BCS encoders, the hex codec and the address checks -/

namespace AptosUtils

theorem charAt_bytesToHex_pair (b : List Nat) (i : Nat) (hi : i < b.length) :
    charAt (bytesToHex b) (2 * i) = nibbleToHex (b.getD i 0 >>> 4) ∧
      charAt (bytesToHex b) (2 * i + 1) = nibbleToHex (b.getD i 0 &&& 0x0F) := by
  have hsplit : b = b.take i ++ (b.getD i 0 :: b.drop (i + 1)) := by
    rw [List.getD_eq_getElem _ _ hi, ← List.drop_eq_getElem_cons hi, List.take_append_drop]
  have hlen : (b.take i).length = i := by
    rw [List.length_take]; omega
  have c0 := charAt_bytesToHex (b.take i) (b.getD i 0 :: b.drop (i + 1)) 0
  have c1 := charAt_bytesToHex (b.take i) (b.getD i 0 :: b.drop (i + 1)) 1
  rw [← hsplit, hlen] at c0 c1
  simp only [bytesToHexChars, List.getD_cons_zero, List.getD_cons_succ, Nat.add_zero] at c0 c1
  have e : i * 2 = 2 * i := by omega
  rw [e] at c0 c1
  exact ⟨c0, c1⟩

/-- Claim C36: `bytesToHex` is total and lowercase. For every byte sequence `b` the
result has exactly `2 * b.length` characters, each one in `0-9` or `a-f`; characters
`2i` and `2i+1` are the hex digits of the high and of the low nibble of `b[i]`, and
for a byte below 256 they read back as `b[i] / 16` and `b[i] % 16`. -/
theorem bytesToHex_spec (b : List Nat) :
    (bytesToHex b).length = 2 * b.length ∧
      (∀ c ∈ (bytesToHex b).data, isLowerHexDigit c) ∧
      (∀ i, i < b.length →
        charAt (bytesToHex b) (2 * i) = nibbleToHex (b.getD i 0 >>> 4) ∧
        charAt (bytesToHex b) (2 * i + 1) = nibbleToHex (b.getD i 0 &&& 0x0F)) ∧
      (∀ i, i < b.length → b.getD i 0 < 256 →
        hexToNibble (charAt (bytesToHex b) (2 * i)) = b.getD i 0 / 16 ∧
        hexToNibble (charAt (bytesToHex b) (2 * i + 1)) = b.getD i 0 % 16) := by
  refine ⟨bytesToHexChars_length b, bytesToHexChars_lower b,
    fun i hi => charAt_bytesToHex_pair b i hi, fun i hi hb => ?_⟩
  obtain ⟨h0, h1⟩ := charAt_bytesToHex_pair b i hi
  rw [h0, h1]
  exact byte_nibbles _ hb

theorem bytesToHex_spec_witness :
    hexToNibble (charAt (bytesToHex [0, 255, 26]) (2 * 2)) = [0, 255, 26].getD 2 0 / 16 ∧
      hexToNibble (charAt (bytesToHex [0, 255, 26]) (2 * 2 + 1)) = [0, 255, 26].getD 2 0 % 16 :=
  (bytesToHex_spec [0, 255, 26]).2.2.2 2 (by decide) (by decide)

theorem bytesToHex_append (xs ys : List Nat) :
    bytesToHex (xs ++ ys) = bytesToHex xs ++ bytesToHex ys := by
  apply String.ext
  show bytesToHexChars (xs ++ ys) = bytesToHexChars xs ++ bytesToHexChars ys
  exact bytesToHexChars_append xs ys

theorem serializeStringLoop_eq (cs : List Char) : ∀ result : String,
    serializeStringLoop cs result
      = result ++ bytesToHex (cs.map fun c => c.toNat % 256) := by
  induction cs with
  | nil => intro result; apply String.ext; simp [serializeStringLoop, bytesToHex, bytesToHexChars]
  | cons c rest ih =>
    intro result
    rw [serializeStringLoop, ih, List.map_cons, String.append_assoc]
    congr 1

theorem serializeString_eq (s : String) :
    serializeString s = serializeU64 s.length ++ bytesToHex (AptosAccount.stringBytes s) :=
  serializeStringLoop_eq s.data _

theorem serializeU64_length (v : Nat) : (serializeU64 v).length = 16 := by
  show (bytesToHexChars (serializeU64Bytes v)).length = 16
  rw [bytesToHexChars_length]
  rfl

theorem serializeString_length (s : String) : (serializeString s).length = 16 + 2 * s.length := by
  rw [serializeString_eq, String.length_append, serializeU64_length]
  show 16 + (bytesToHexChars _).length = _
  rw [bytesToHexChars_length]
  simp [AptosAccount.stringBytes]

theorem char_eq_of_toNat_mod (c d : Char) (hc : c.toNat < 256) (hd : d.toNat < 256)
    (h : c.toNat % 256 = d.toNat % 256) : c = d := by
  rw [Nat.mod_eq_of_lt hc, Nat.mod_eq_of_lt hd] at h
  rw [← Char.ofNat_toNat c, ← Char.ofNat_toNat d, h]

theorem stringBytes_injective : ∀ (cs ds : List Char),
    (∀ c ∈ cs, c.toNat < 256) → (∀ c ∈ ds, c.toNat < 256) →
    cs.map (fun c => c.toNat % 256) = ds.map (fun c => c.toNat % 256) → cs = ds := by
  intro cs
  induction cs with
  | nil => intro ds _ _ h; cases ds with
    | nil => rfl
    | cons d ds => simp at h
  | cons c cs ih =>
    intro ds hc hd h
    cases ds with
    | nil => simp at h
    | cons d ds =>
      simp only [List.map_cons, List.cons.injEq] at h
      rw [char_eq_of_toNat_mod c d (hc c (by simp)) (hd d (by simp)) h.1,
        ih ds (fun x hx => hc x (by simp [hx])) (fun x hx => hd x (by simp [hx])) h.2]

/-- Claim C32: `serializeString s` is `serializeU64` of the length of `s` followed by
the hex of the bytes of `s` in order; it has `16 + 2 * s.length` characters; and two
byte strings with the same encoding are equal. -/
theorem serializeString_spec (s : String) :
    serializeString s = serializeU64 s.length ++ bytesToHex (AptosAccount.stringBytes s) ∧
      (serializeString s).length = 16 + 2 * s.length ∧
      ∀ t : String, (∀ c ∈ s.data, c.toNat < 256) → (∀ c ∈ t.data, c.toNat < 256) →
        serializeString s = serializeString t → s = t := by
  refine ⟨serializeString_eq s, serializeString_length s, fun t hs ht h => ?_⟩
  have hlen : s.length = t.length := by
    have := congrArg String.length h
    rw [serializeString_length, serializeString_length] at this
    omega
  rw [serializeString_eq, serializeString_eq, hlen] at h
  have hbody : bytesToHex (AptosAccount.stringBytes s) = bytesToHex (AptosAccount.stringBytes t) := by
    have hd := congrArg String.data h
    simp only [String.data_append] at hd
    exact String.ext (List.append_cancel_left hd)
  have hbytes := bytesToHex_injective _ _
    (fun x hx => by
      obtain ⟨c, _, rfl⟩ := List.mem_map.1 hx
      exact Nat.mod_lt _ (by decide))
    (fun x hx => by
      obtain ⟨c, _, rfl⟩ := List.mem_map.1 hx
      exact Nat.mod_lt _ (by decide))
    (by simp only [AptosAccount.stringBytes, List.length_map]; exact hlen) hbody
  exact String.ext (stringBytes_injective s.data t.data hs ht hbytes)

theorem serializeString_spec_witness :
    (serializeString "ab").length = 16 + 2 * "ab".length ∧ "ab" = "ab" :=
  ⟨(serializeString_spec "ab").2.1,
    (serializeString_spec "ab").2.2 "ab" (by decide) (by decide) rfl⟩

theorem toLower_eq_x_iff (c : Char) : c.toLower = 'x' ↔ (c = 'x' ∨ c = 'X') := by
  by_cases hu : 65 ≤ c.toNat ∧ c.toNat ≤ 90
  · have ht := toLower_toNat_of_upper c hu
    constructor
    · intro h
      rw [h] at ht
      have hx : 'x'.toNat = 120 := rfl
      rw [hx] at ht
      right
      rw [← Char.ofNat_toNat c]
      have : c.toNat = 88 := by omega
      rw [this]
    · rintro (rfl | rfl)
      · rfl
      · rfl
  · rw [toLower_eq_self_of_not_upper c hu]
    constructor
    · intro h; exact Or.inl h
    · rintro (h | h)
      · exact h
      · rw [h] at hu; exact absurd (by decide) hu

theorem toLower_eq_zero_iff (c : Char) : c.toLower = '0' ↔ c = '0' := by
  by_cases hu : 65 ≤ c.toNat ∧ c.toNat ≤ 90
  · have ht := toLower_toNat_of_upper c hu
    constructor
    · intro h
      rw [h] at ht
      have hx : '0'.toNat = 48 := rfl
      omega
    · rintro rfl
      rfl
  · rw [toLower_eq_self_of_not_upper c hu]

/-- Stripping the prefix and lowercasing commute. -/
theorem removeHexPrefix_toLowerCase (h : String) :
    removeHexPrefix (toLowerCase h) = toLowerCase (removeHexPrefix h) := by
  obtain ⟨cs⟩ := h
  match cs with
  | [] => rfl
  | [c] =>
    unfold removeHexPrefix toLowerCase
    simp
  | c1 :: c2 :: rest =>
    by_cases h1 : c1 = '0'
    · subst h1
      by_cases h2 : c2 = 'x'
      · subst h2; rfl
      · by_cases h3 : c2 = 'X'
        · subst h3; rfl
        · have hl : c2.toLower ≠ 'x' := fun e => by
            rcases (toLower_eq_x_iff c2).1 e with e | e
            · exact h2 e
            · exact h3 e
          have hL : c2.toLower ≠ 'X' := fun e => by
            have := toLower_idem c2
            rw [e] at this
            have e2 : 'X'.toLower = 'x' := by decide
            rw [e2] at this
            exact absurd this (by decide)
          have e1 : removeHexPrefix (String.mk ('0' :: c2 :: rest))
              = String.mk ('0' :: c2 :: rest) := by
            unfold removeHexPrefix
            split
            · rename_i r hh; simp at hh; exact absurd hh.1 h2
            · rename_i r hh; simp at hh; exact absurd hh.1 h3
            · rfl
          have e2 : removeHexPrefix (toLowerCase (String.mk ('0' :: c2 :: rest)))
              = toLowerCase (String.mk ('0' :: c2 :: rest)) := by
            unfold removeHexPrefix
            have hd : (toLowerCase (String.mk ('0' :: c2 :: rest))).data
                = '0' :: c2.toLower :: rest.map Char.toLower := rfl
            split
            · rename_i r hh; rw [hd] at hh; simp at hh; exact absurd hh.1 hl
            · rename_i r hh; rw [hd] at hh; simp at hh; exact absurd hh.1 hL
            · rfl
          rw [e1, e2]
    · have hl : c1.toLower ≠ '0' := fun e => h1 ((toLower_eq_zero_iff c1).1 e)
      have e1 : removeHexPrefix (String.mk (c1 :: c2 :: rest)) = String.mk (c1 :: c2 :: rest) := by
        unfold removeHexPrefix
        split
        · rename_i r hh; simp at hh; exact absurd hh.1 h1
        · rename_i r hh; simp at hh; exact absurd hh.1 h1
        · rfl
      have e2 : removeHexPrefix (toLowerCase (String.mk (c1 :: c2 :: rest)))
          = toLowerCase (String.mk (c1 :: c2 :: rest)) := by
        unfold removeHexPrefix
        have hd : (toLowerCase (String.mk (c1 :: c2 :: rest))).data
            = c1.toLower :: c2.toLower :: rest.map Char.toLower := rfl
        split
        · rename_i r hh; rw [hd] at hh; simp at hh; exact absurd hh.1 hl
        · rename_i r hh; rw [hd] at hh; simp at hh; exact absurd hh.1 hl
        · rfl
      rw [e1, e2]

theorem charAt_toLowerCase (s : String) (j : Nat) :
    charAt (toLowerCase s) j = (charAt s j).toLower := by
  unfold charAt toLowerCase
  simp only
  by_cases hj : j < s.data.length
  · rw [List.getD_eq_getElem _ _ (by simpa using hj), List.getD_eq_getElem _ _ hj]
    simp
  · rw [List.getD_eq_default _ _ (by simpa using hj), List.getD_eq_default _ _ (by omega)]
    decide

theorem hexToBytesLoop_toLowerCase (s : String) (n : Nat) : ∀ (i : Nat) (bytes : List Nat),
    hexToBytesLoop (toLowerCase s) n i bytes = hexToBytesLoop s n i bytes := by
  induction n with
  | zero => intro i bytes; rfl
  | succ n ih =>
    intro i bytes
    simp only [hexToBytesLoop, charAt_toLowerCase, hexToNibble_toLower, ih]

theorem hexToBytes_toLowerCase (h : String) (buf : List Nat) (n : Nat) :
    hexToBytes (toLowerCase h) buf n = hexToBytes h buf n := by
  unfold hexToBytes
  simp only [removeHexPrefix_toLowerCase, toLowerCase_length, hexToBytesLoop_toLowerCase]

/-- Claim C35: hex decoding is case-insensitive. When `h2` differs from `h` only in
the case of letters (the `x` of the prefix included), `hexToBytes` returns the same
flag and the same buffer on both, so it succeeds on one exactly when it succeeds on
the other and then has written the same bytes. -/
theorem hexToBytes_case_insensitive (h h2 : String) (buf : List Nat) (n : Nat)
    (hsame : h2.data.map Char.toLower = h.data.map Char.toLower) :
    hexToBytes h2 buf n = hexToBytes h buf n ∧
      ((hexToBytes h2 buf n).1 = true ↔ (hexToBytes h buf n).1 = true) := by
  have e : toLowerCase h2 = toLowerCase h := String.ext hsame
  have key : hexToBytes h2 buf n = hexToBytes h buf n := by
    rw [← hexToBytes_toLowerCase h2, ← hexToBytes_toLowerCase h, e]
  rw [key]
  exact ⟨rfl, Iff.rfl⟩

theorem hexToBytes_case_insensitive_witness :
    hexToBytes "0XcAfE" [0, 0] 2 = hexToBytes "0xCafe" [0, 0] 2 ∧
      ((hexToBytes "0XcAfE" [0, 0] 2).1 = true ↔ (hexToBytes "0xCafe" [0, 0] 2).1 = true) :=
  hexToBytes_case_insensitive "0xCafe" "0XcAfE" [0, 0] 2 (by decide)

end AptosUtils

namespace AptosAccount
open AptosUtils Sha256

theorem xor_cancel_right (x y : Nat) : (x ^^^ y) ^^^ x = y := by
  rw [Nat.xor_comm x y, Nat.xor_assoc, Nat.xor_self, Nat.xor_zero]

/-- Claim C38: one signature discloses the private key. For a Ready account holding a
32-byte key and any message, the first 32 bytes of the signature XOR the SHA-256 of
the message are the private key, and bytes 32..63 of the signature repeat bytes
0..31. -/
theorem signature_discloses_key (a : AptosAccount) (message signature : List Nat)
    (hr : a.isInitialized = true) (hk : a.privateKey.length = 32)
    (hs : 64 ≤ signature.length) :
    (List.range 32).map (fun i =>
        (signMessage a message signature).2.1.getD i 0 ^^^ (sha256 message).getD i 0)
        = a.privateKey ∧
      ∀ i, i < 32 →
        (signMessage a message signature).2.1.getD (i + 32) 0
          = (signMessage a message signature).2.1.getD i 0 := by
  have hget : ∀ i, i < 64 → (signMessage a message signature).2.1.getD i 0
      = (sha256 message).getD (i % 32) 0 ^^^ a.privateKey.getD (i % 32) 0 := by
    intro i hi
    rw [signMessage_ready a message signature hr hs]
    simp only
    rw [List.getD_append _ _ _ _ (by rw [signatureBytes_length]; exact hi)]
    exact signatureBytes_getD _ _ i hi
  constructor
  · apply List.ext_getElem
    · simp [hk]
    · intro i h1 h2
      have hi : i < 32 := by simpa using h1
      simp only [List.getElem_map, List.getElem_range]
      rw [hget i (by omega), Nat.mod_eq_of_lt hi, xor_cancel_right,
        List.getD_eq_getElem _ _ h2]
  · intro i hi
    rw [hget (i + 32) (by omega), hget i (by omega)]
    have e : (i + 32) % 32 = i % 32 := by omega
    rw [e]

theorem signature_discloses_key_witness :
    (List.range 32).map (fun i =>
        (signMessage (newFromKey true (bytesToHex (List.replicate 32 7))) [1, 2, 3]
          (List.replicate 64 0)).2.1.getD i 0 ^^^ (sha256 [1, 2, 3]).getD i 0)
      = (newFromKey true (bytesToHex (List.replicate 32 7))).privateKey :=
  (signature_discloses_key (newFromKey true (bytesToHex (List.replicate 32 7))) [1, 2, 3]
    (List.replicate 64 0) (by decide) (by decide) (by decide)).1

theorem generateKeyPair_seed (a : AptosAccount) (b : Bool) :
    generateKeyPair { a with seeded := b }
      = ((generateKeyPair a).1, { (generateKeyPair a).2 with seeded := b }) := by
  simp only [generateKeyPair_eq]

end AptosAccount

namespace AptosSDK
open AptosUtils

theorem normalizeLoop_eq_padLoop_aux (n : Nat) :
    ∀ s : String, 64 - s.length = n → normalizeLoop s = padLoop s := by
  induction n with
  | zero =>
    intro s h
    rw [normalizeLoop, padLoop, if_neg (by omega), if_neg (by omega)]
  | succ n ih =>
    intro s h
    have hl : ("0" ++ s).length = s.length + 1 := by
      rw [String.length_append]; have : "0".length = 1 := rfl; omega
    rw [normalizeLoop, padLoop, if_pos (by omega), if_pos (by omega)]
    exact ih _ (by omega)

theorem normalizeAddress_eq (a : String) : normalizeAddress a = padHexAddress a := by
  unfold normalizeAddress padHexAddress
  simp only
  rw [normalizeLoop_eq_padLoop_aux _ _ rfl]
  rfl

theorem allHexChars_iff (cs : List Char) :
    allHexChars cs = true ↔ ∀ c ∈ cs, isHexDigit c := by
  induction cs with
  | nil => simp [allHexChars]
  | cons c rest ih =>
    unfold allHexChars
    by_cases hc : ('0' ≤ c ∧ c ≤ '9') ∨ ('a' ≤ c ∧ c ≤ 'f') ∨ ('A' ≤ c ∧ c ≤ 'F')
    · have hd : isHexDigit c := hc
      simp only [hc, decide_True, Bool.not_true, Bool.false_eq_true, if_false]
      rw [ih]
      constructor
      · intro h x hx
        rcases List.mem_cons.1 hx with rfl | hx
        · exact hd
        · exact h x hx
      · intro h x hx
        exact h x (List.mem_cons_of_mem _ hx)
    · have hd : ¬ isHexDigit c := hc
      simp only [hc, decide_False, Bool.not_false, if_true, Bool.false_eq_true, false_iff]
      intro h
      exact hd (h c (List.mem_cons_self _ _))

theorem isValidAddress_iff (a : String) :
    isValidAddress a = true ↔
      (1 ≤ (removeHexPrefix a).length ∧ (removeHexPrefix a).length ≤ 64 ∧
        ∀ c ∈ (removeHexPrefix a).data, isHexDigit c) := by
  have h : isValidAddress a =
      (if (removeHexPrefix a).length = 0 ∨ (removeHexPrefix a).length > 64 then false
        else allHexChars (removeHexPrefix a).data) := rfl
  rw [h]
  split_ifs with hc
  · simp only [Bool.false_eq_true, false_iff]
    intro h2; omega
  · rw [allHexChars_iff]
    constructor
    · intro h2; exact ⟨by omega, by omega, h2⟩
    · intro h2; exact h2.2.2

/-- Claim C39: the two address normalizers agree. For every string `a`,
`AptosSDK::normalizeAddress a` equals `AptosUtils::padHexAddress a`; and whenever
`AptosSDK::isValidAddress a` is true that result is `0x` followed by exactly 64
lowercase hex digits. -/
theorem normalizers_agree (a : String) :
    normalizeAddress a = padHexAddress a ∧
      (isValidAddress a = true →
        isNormalizedAddress (normalizeAddress a) ∧ isNormalizedAddress (padHexAddress a)) := by
  refine ⟨normalizeAddress_eq a, fun hv => ?_⟩
  obtain ⟨_, h64, hhex⟩ := (isValidAddress_iff a).1 hv
  rw [normalizeAddress_eq]
  exact ⟨isNormalizedAddress_padHexAddress a ⟨hhex, h64⟩,
    isNormalizedAddress_padHexAddress a ⟨hhex, h64⟩⟩

theorem normalizers_agree_witness :
    isNormalizedAddress (normalizeAddress "0xCAFE") ∧
      isNormalizedAddress (padHexAddress "0xCAFE") :=
  (normalizers_agree "0xCAFE").2 (by decide)

end AptosSDK

namespace AptosUtils

/-! ### `hexToBytes`: which bytes of the destination change -/

theorem hexToBytesLoop_frame (s : String) (n : Nat) :
    ∀ (i : Nat) (buf : List Nat),
      (hexToBytesLoop s n i buf).2.length = buf.length ∧
      (∀ k, k < i → (hexToBytesLoop s n i buf).2[k]? = buf[k]?) ∧
      (∀ k, i + n ≤ k → (hexToBytesLoop s n i buf).2[k]? = buf[k]?) ∧
      (∀ j, i ≤ j → j < i + n →
        ¬ (isHexDigit (charAt s (j * 2)) ∧ isHexDigit (charAt s (j * 2 + 1))) →
        ∀ k, j ≤ k → (hexToBytesLoop s n i buf).2[k]? = buf[k]?) ∧
      ((hexToBytesLoop s n i buf).1 = true → ∀ k, i ≤ k → k < i + n → k < buf.length →
        (hexToBytesLoop s n i buf).2[k]?
          = some (hexToNibble (charAt s (k * 2)) * 16 + hexToNibble (charAt s (k * 2 + 1)))) := by
  induction n with
  | zero =>
    intro i buf
    refine ⟨rfl, fun _ _ => rfl, fun _ _ => rfl, fun _ _ _ _ _ _ => rfl, ?_⟩
    intro _ k h1 h2 _
    omega
  | succ n ih =>
    intro i buf
    simp only [hexToBytesLoop]
    split_ifs with hbad
    · refine ⟨rfl, fun _ _ => rfl, fun _ _ => rfl, fun _ _ _ _ _ _ => rfl, ?_⟩
      intro h
      simp at h
    · have hhi : isHexDigit (charAt s (i * 2)) := by
        by_contra hc; exact hbad (Or.inl ((hexToNibble_eq_ff_iff _).2 hc))
      have hlo : isHexDigit (charAt s (i * 2 + 1)) := by
        by_contra hc; exact hbad (Or.inr ((hexToNibble_eq_ff_iff _).2 hc))
      have hv := pack_nibbles _ (hexToNibble_lt_of_isHexDigit _ hhi) _
        (hexToNibble_lt_of_isHexDigit _ hlo)
      rw [hv]
      obtain ⟨h1, h2, h3, h4, h5⟩ := ih (i + 1)
        (buf.set i (hexToNibble (charAt s (i * 2)) * 16 + hexToNibble (charAt s (i * 2 + 1))))
      have hne : ∀ k, k ≠ i →
          (buf.set i (hexToNibble (charAt s (i * 2)) * 16
            + hexToNibble (charAt s (i * 2 + 1))))[k]? = buf[k]? := by
        intro k hk
        exact List.getElem?_set_ne (fun e => hk e.symm)
      refine ⟨?_, ?_, ?_, ?_, ?_⟩
      · rw [h1, List.length_set]
      · intro k hk
        rw [h2 k (by omega), hne k (by omega)]
      · intro k hk
        rw [h3 k (by omega), hne k (by omega)]
      · intro j hj1 hj2 hbadj k hk
        have hji : j ≠ i := by
          intro e
          rw [e] at hbadj
          exact hbadj ⟨hhi, hlo⟩
        rw [h4 j (by omega) (by omega) hbadj k hk, hne k (by omega)]
      · intro hok k hk1 hk2 hk3
        by_cases e : k = i
        · rw [e, h2 i (by omega), List.getElem?_set_eq_of_lt _ (by omega)]
        · rw [List.length_set] at h5
          exact h5 hok k (by omega) (by omega) hk3

/-- Claim C40 as stated fails: `hexToBytes("12ZZ", buf, 2)` on the buffer `[0, 0]`
returns false and has already stored the byte `0x12` at index 0. -/
theorem hexToBytes_not_atomic :
    hexToBytes "12ZZ" [0, 0] 2 = (false, [18, 0]) := by
  decide

theorem hexToBytesLoop_written (s : String) (n : Nat) :
    ∀ (i : Nat) (buf : List Nat) (j : Nat), i ≤ j → j < i + n →
      (∀ m, i ≤ m → m < j →
        isHexDigit (charAt s (m * 2)) ∧ isHexDigit (charAt s (m * 2 + 1))) →
      ¬ (isHexDigit (charAt s (j * 2)) ∧ isHexDigit (charAt s (j * 2 + 1))) →
      (hexToBytesLoop s n i buf).1 = false ∧
        ∀ k, i ≤ k → k < j → k < buf.length →
          (hexToBytesLoop s n i buf).2[k]?
            = some (hexToNibble (charAt s (k * 2)) * 16 + hexToNibble (charAt s (k * 2 + 1))) := by
  induction n with
  | zero =>
    intro i buf j h1 h2
    omega
  | succ n ih =>
    intro i buf j h1 h2 hgood hbadj
    simp only [hexToBytesLoop]
    split_ifs with hbad
    · refine ⟨rfl, ?_⟩
      intro k hk1 hk2 _
      have hg := hgood i (le_refl i) (by omega)
      rcases hbad with hb | hb
      · exact absurd hg.1 ((hexToNibble_eq_ff_iff _).1 hb)
      · exact absurd hg.2 ((hexToNibble_eq_ff_iff _).1 hb)
    · have hhi : isHexDigit (charAt s (i * 2)) := by
        by_contra hc; exact hbad (Or.inl ((hexToNibble_eq_ff_iff _).2 hc))
      have hlo : isHexDigit (charAt s (i * 2 + 1)) := by
        by_contra hc; exact hbad (Or.inr ((hexToNibble_eq_ff_iff _).2 hc))
      have hji : j ≠ i := by
        intro e
        rw [e] at hbadj
        exact hbadj ⟨hhi, hlo⟩
      have hv := pack_nibbles _ (hexToNibble_lt_of_isHexDigit _ hhi) _
        (hexToNibble_lt_of_isHexDigit _ hlo)
      rw [hv]
      obtain ⟨r1, r2⟩ := ih (i + 1)
        (buf.set i (hexToNibble (charAt s (i * 2)) * 16 + hexToNibble (charAt s (i * 2 + 1))))
        j (by omega) (by omega) (fun m hm1 hm2 => hgood m (by omega) hm2) hbadj
      refine ⟨r1, ?_⟩
      intro k hk1 hk2 hk3
      by_cases e : k = i
      · obtain ⟨_, f2, _⟩ := hexToBytesLoop_frame s n (i + 1)
          (buf.set i (hexToNibble (charAt s (i * 2)) * 16 + hexToNibble (charAt s (i * 2 + 1))))
        rw [e, f2 i (by omega), List.getElem?_set_eq_of_lt _ (by omega)]
      · rw [List.length_set] at r2
        exact r2 k (by omega) hk2 hk3

/-- Claim C40, amended: `hexToBytes` keeps the length of the buffer and changes only
indices below `maxLength` and below half the cleaned length; on success the first
(cleaned length / 2) entries are the decoded bytes and every later entry is
unchanged; on a failure from odd length or from exceeding the capacity the buffer is
unchanged; on a failure from a non-hex character every entry from the offending pair
on is unchanged, and the entries before the first offending pair hold the bytes
decoded so far. -/
theorem hexToBytes_frame (hex : String) (buf : List Nat) (maxLength : Nat) :
    (hexToBytes hex buf maxLength).2.length = buf.length ∧
      (∀ k, (hexToBytes hex buf maxLength).2[k]? ≠ buf[k]? →
        k < maxLength ∧ k < (removeHexPrefix hex).length / 2) ∧
      ((hexToBytes hex buf maxLength).1 = true →
        (∀ k, k < (removeHexPrefix hex).length / 2 → k < buf.length →
          (hexToBytes hex buf maxLength).2[k]?
            = some (hexToNibble (charAt (removeHexPrefix hex) (k * 2)) * 16
                + hexToNibble (charAt (removeHexPrefix hex) (k * 2 + 1)))) ∧
        (∀ k, (removeHexPrefix hex).length / 2 ≤ k →
          (hexToBytes hex buf maxLength).2[k]? = buf[k]?)) ∧
      ((removeHexPrefix hex).length % 2 ≠ 0 ∨ (removeHexPrefix hex).length / 2 > maxLength →
        hexToBytes hex buf maxLength = (false, buf)) ∧
      (∀ j, j < (removeHexPrefix hex).length / 2 →
        ¬ (isHexDigit (charAt (removeHexPrefix hex) (j * 2))
          ∧ isHexDigit (charAt (removeHexPrefix hex) (j * 2 + 1))) →
        ∀ k, j ≤ k → (hexToBytes hex buf maxLength).2[k]? = buf[k]?) ∧
      ((removeHexPrefix hex).length % 2 = 0 → (removeHexPrefix hex).length / 2 ≤ maxLength →
        ∀ j, j < (removeHexPrefix hex).length / 2 →
          (∀ m, m < j → isHexDigit (charAt (removeHexPrefix hex) (m * 2))
            ∧ isHexDigit (charAt (removeHexPrefix hex) (m * 2 + 1))) →
          ¬ (isHexDigit (charAt (removeHexPrefix hex) (j * 2))
            ∧ isHexDigit (charAt (removeHexPrefix hex) (j * 2 + 1))) →
          (hexToBytes hex buf maxLength).1 = false ∧
            ∀ k, k < j → k < buf.length →
              (hexToBytes hex buf maxLength).2[k]?
                = some (hexToNibble (charAt (removeHexPrefix hex) (k * 2)) * 16
                    + hexToNibble (charAt (removeHexPrefix hex) (k * 2 + 1)))) := by
  unfold hexToBytes
  simp only
  by_cases hodd : (removeHexPrefix hex).length % 2 ≠ 0
  · rw [if_pos hodd]
    refine ⟨rfl, fun k h => absurd rfl h, fun h => by simp at h, fun _ => rfl,
      fun _ _ _ _ _ => rfl, fun he => absurd he hodd⟩
  · rw [if_neg hodd]
    by_cases hcap : (removeHexPrefix hex).length / 2 > maxLength
    · rw [if_pos hcap]
      refine ⟨rfl, fun k h => absurd rfl h, fun h => by simp at h, fun _ => rfl,
        fun _ _ _ _ _ => rfl, fun _ hle => absurd hcap (by omega)⟩
    · rw [if_neg hcap]
      obtain ⟨h1, _, h3, h4, h5⟩ :=
        hexToBytesLoop_frame (removeHexPrefix hex) ((removeHexPrefix hex).length / 2) 0 buf
      refine ⟨h1, ?_, ?_, ?_, ?_, ?_⟩
      · intro k hk
        have hlt : k < (removeHexPrefix hex).length / 2 := by
          by_contra hge
          exact hk (h3 k (by omega))
        exact ⟨by omega, hlt⟩
      · intro hok
        exact ⟨fun k hk hb => h5 hok k (Nat.zero_le _) (by omega) hb,
          fun k hk => h3 k (by omega)⟩
      · intro h
        rcases h with h | h
        · exact absurd h hodd
        · exact absurd h hcap
      · intro j hj hbad k hk
        exact h4 j (Nat.zero_le _) (by omega) hbad k hk
      · intro _ _ j hj hgood hbad
        obtain ⟨w1, w2⟩ := hexToBytesLoop_written (removeHexPrefix hex)
          ((removeHexPrefix hex).length / 2) 0 buf j (Nat.zero_le _) (by omega)
          (fun m _ hm => hgood m hm) hbad
        exact ⟨w1, fun k hk hb => w2 k (Nat.zero_le _) hk hb⟩

theorem hexToBytes_frame_witness :
    (hexToBytes "0x12ab" [7, 7, 7] 3).2[2]? = [7, 7, 7][2]? ∧
      hexToBytes "123" [7, 7, 7] 3 = (false, [7, 7, 7]) ∧
      (hexToBytes "12ZZ56" [7, 7, 7] 3).2[1]? = [7, 7, 7][1]? ∧
      (hexToBytes "12ZZ56" [7, 7, 7] 3).2[0]?
        = some (hexToNibble (charAt (removeHexPrefix "12ZZ56") (0 * 2)) * 16
            + hexToNibble (charAt (removeHexPrefix "12ZZ56") (0 * 2 + 1))) :=
  ⟨((hexToBytes_frame "0x12ab" [7, 7, 7] 3).2.2.1 (by decide)).2 2 (by decide),
    (hexToBytes_frame "123" [7, 7, 7] 3).2.2.2.1 (by decide),
    (hexToBytes_frame "12ZZ56" [7, 7, 7] 3).2.2.2.2.1 1 (by decide) (by decide) 1 (le_refl 1),
    ((hexToBytes_frame "12ZZ56" [7, 7, 7] 3).2.2.2.2.2 (by decide) (by decide) 1 (by decide)
      (by decide) (by decide)).2 0 (by decide) (by decide)⟩

/-! ### `serializeVector` -/

/-- Claim C34 fails on the code: for the one-element array holding the integer
5000000000 `serializeVector` returns only the length prefix `serializeU64 1`, not the
prefix followed by `serializeU64 5000000000`; a small integer, a string and a null
element behave as the claim says. -/
theorem serializeVector_drops_large_integer :
    serializeVector (Json.arr [Json.num 5000000000]) = serializeU64 1 ∧
      serializeVector (Json.arr [Json.num 5000000000])
        ≠ serializeU64 1 ++ serializeU64 5000000000 ∧
      serializeVector (Json.arr [Json.num 5]) = serializeU64 1 ++ serializeU64 5 ∧
      serializeVector (Json.arr [Json.str "a", Json.null, Json.num 5])
        = serializeU64 3 ++ serializeString "a" ++ serializeU64 5 := by
  decide

/-! ### `serializeAddress` -/

theorem lowerHex_eq_nibbleToHex (c : Char) (h : isLowerHexDigit c) :
    ∃ n, n < 16 ∧ c = nibbleToHex n := by
  obtain ⟨e0, e9, ea, ef, _, _⟩ := char_consts
  unfold isLowerHexDigit at h
  simp only [char_le_iff] at h
  rw [e0, e9, ea, ef] at h
  have hc : c = Char.ofNat c.toNat := (Char.ofNat_toNat c).symm
  have key : ∀ m, (48 ≤ m ∧ m ≤ 57) ∨ (97 ≤ m ∧ m ≤ 102) →
      ∃ n, n < 16 ∧ Char.ofNat m = nibbleToHex n := by
    intro m hm
    rcases hm with ⟨h1, h2⟩ | ⟨h1, h2⟩
    · refine ⟨m - 48, by omega, ?_⟩
      interval_cases m <;> rfl
    · refine ⟨m - 97 + 10, by omega, ?_⟩
      interval_cases m <;> rfl
  obtain ⟨n, hn, e⟩ := key c.toNat h
  exact ⟨n, hn, hc.trans e⟩

theorem nibbleToHex_hexToNibble (c : Char) (h : isLowerHexDigit c) :
    nibbleToHex (hexToNibble c) = c := by
  obtain ⟨n, hn, rfl⟩ := lowerHex_eq_nibbleToHex c h
  rw [hexToNibble_nibbleToHex n hn]

theorem split_nibbles : ∀ h, h < 16 → ∀ l, l < 16 →
    (h * 16 + l) >>> 4 = h ∧ (h * 16 + l) &&& 0x0F = l := by
  decide

theorem bytesToHexChars_pairsToBytes (n : Nat) :
    ∀ cs : List Char, cs.length = 2 * n → (∀ c ∈ cs, isLowerHexDigit c) →
      bytesToHexChars (pairsToBytes cs) = cs ∧ (pairsToBytes cs).length = n ∧
        ∀ x ∈ pairsToBytes cs, x < 256 := by
  induction n with
  | zero =>
    intro cs hl _
    have : cs = [] := List.length_eq_zero.1 (by omega)
    subst this
    exact ⟨rfl, rfl, fun x hx => by simp [pairsToBytes] at hx⟩
  | succ n ih =>
    intro cs hl hc
    match cs, hl, hc with
    | [], hl, _ => simp at hl
    | [_], hl, _ => simp at hl; omega
    | c1 :: c2 :: rest, hl, hc =>
      have hr : rest.length = 2 * n := by simp at hl; omega
      obtain ⟨i1, i2, i3⟩ := ih rest hr (fun c hcm =>
        hc c (List.mem_cons_of_mem _ (List.mem_cons_of_mem _ hcm)))
      have l1 : isLowerHexDigit c1 := hc c1 (List.mem_cons_self _ _)
      have l2 : isLowerHexDigit c2 := hc c2 (List.mem_cons_of_mem _ (List.mem_cons_self _ _))
      have b1 := hexToNibble_lt_of_isHexDigit c1 (isHexDigit_of_lower c1 l1)
      have b2 := hexToNibble_lt_of_isHexDigit c2 (isHexDigit_of_lower c2 l2)
      obtain ⟨s1, s2⟩ := split_nibbles _ b1 _ b2
      refine ⟨?_, ?_, ?_⟩
      · simp only [pairsToBytes, bytesToHexChars]
        rw [s1, s2, nibbleToHex_hexToNibble c1 l1, nibbleToHex_hexToNibble c2 l2, i1]
      · simp only [pairsToBytes, List.length_cons, i2]
      · intro x hx
        simp only [pairsToBytes, List.mem_cons] at hx
        rcases hx with rfl | hx
        · omega
        · exact i3 x hx

theorem padHexAddress_of_long (a : String) (h : 64 ≤ (removeHexPrefix a).length) :
    padHexAddress a = "0x" ++ toLowerCase (removeHexPrefix a) := by
  unfold padHexAddress
  rw [padLoop_of_long _ (by rw [toLowerCase_length]; exact h)]

theorem serializeAddress_eq (a : String) :
    serializeAddress a =
      if (hexToBytes (padLoop (toLowerCase (removeHexPrefix a))) (List.replicate 32 0) 32).1
      then bytesToHex
        (hexToBytes (padLoop (toLowerCase (removeHexPrefix a))) (List.replicate 32 0) 32).2
      else "" := rfl

theorem serializeAddress_of_hex (a : String) (h : isHexAddressText a) :
    serializeAddress a = padLoop (toLowerCase (removeHexPrefix a)) ∧
      (pairsToBytes (padLoop (toLowerCase (removeHexPrefix a))).data).length = 32 ∧
      (∀ x ∈ pairsToBytes (padLoop (toLowerCase (removeHexPrefix a))).data, x < 256) ∧
      hexToBytes (padLoop (toLowerCase (removeHexPrefix a))) (List.replicate 32 0) 32
        = (true, pairsToBytes (padLoop (toLowerCase (removeHexPrefix a))).data) ∧
      bytesToHex (pairsToBytes (padLoop (toLowerCase (removeHexPrefix a))).data)
        = padLoop (toLowerCase (removeHexPrefix a)) := by
  have hn := isNormalizedAddress_padHexAddress a h
  unfold isNormalizedAddress at hn
  rw [padHexAddress_data] at hn
  simp only [List.drop_succ_cons, List.drop_zero] at hn
  rw [← padLoop_data] at hn
  obtain ⟨_, hlen, hlow⟩ := hn
  obtain ⟨p1, p2, p3⟩ := bytesToHexChars_pairsToBytes 32 _ hlen hlow
  have hstr : bytesToHex (pairsToBytes (padLoop (toLowerCase (removeHexPrefix a))).data)
      = padLoop (toLowerCase (removeHexPrefix a)) := by
    show String.mk (bytesToHexChars _) = _
    rw [p1]
  have hdec : hexToBytes (padLoop (toLowerCase (removeHexPrefix a))) (List.replicate 32 0) 32
      = (true, pairsToBytes (padLoop (toLowerCase (removeHexPrefix a))).data) := by
    have hh := hexToBytes_after_bytesToHex
      (pairsToBytes (padLoop (toLowerCase (removeHexPrefix a))).data) (List.replicate 32 0) 32
      p3 (by omega) (by simp)
    rw [hstr, p2] at hh
    rw [hh]
    simp
  refine ⟨?_, p2, p3, hdec, hstr⟩
  rw [serializeAddress_eq, hdec]
  exact hstr

theorem foldl_pairsToBytes (n : Nat) :
    ∀ (cs : List Char) (acc : Nat), cs.length = 2 * n →
      (pairsToBytes cs).foldl (fun a b => a * 256 + b) acc
        = cs.foldl (fun a c => a * 16 + hexToNibble c) acc := by
  induction n with
  | zero =>
    intro cs acc hl
    have : cs = [] := List.length_eq_zero.1 (by omega)
    subst this
    rfl
  | succ n ih =>
    intro cs acc hl
    match cs, hl with
    | [], hl => simp at hl
    | [_], hl => simp at hl; omega
    | c1 :: c2 :: rest, hl =>
      have hr : rest.length = 2 * n := by simp at hl; omega
      simp only [pairsToBytes, List.foldl_cons]
      rw [ih rest _ hr]
      congr 1
      ring

/-- Claim C33: for an address made of an optional `0x`/`0X` followed by 1 to 64 hex
digits `d`, `serializeAddress` returns `64 - |d|` zeros followed by `d` in lowercase,
which is `padHexAddress` of the address without its `0x`: 64 lowercase hex characters
denoting the same number as `d`, the hex of the 32 bytes (each below 256, big-endian
value the number `d` denotes) that the padded address decodes to. -/
theorem serializeAddress_spec (p d : String) (hp : p = "" ∨ p = "0x" ∨ p = "0X")
    (hd : ∀ c ∈ d.data, isHexDigit c) (h1 : 1 ≤ d.length) (h64 : d.length ≤ 64) :
    serializeAddress (p ++ d)
        = String.mk (List.replicate (64 - d.length) '0' ++ d.data.map Char.toLower) ∧
      serializeAddress (p ++ d) = removeHexPrefix (padHexAddress (p ++ d)) ∧
      (serializeAddress (p ++ d)).length = 64 ∧
      (∀ c ∈ (serializeAddress (p ++ d)).data, isLowerHexDigit c) ∧
      hexValue (serializeAddress (p ++ d)) = hexValue d ∧
      ∃ bytes : List Nat, bytes.length = 32 ∧ (∀ x ∈ bytes, x < 256) ∧
        bytes.foldl (fun a b => a * 256 + b) 0 = hexValue d ∧
        serializeAddress (p ++ d) = bytesToHex bytes ∧
        padHexAddress (p ++ d) = "0x" ++ bytesToHex bytes ∧
        hexToBytes (padHexAddress (p ++ d)) (List.replicate 32 0) 32 = (true, bytes) := by
  have _ := h1
  have hr : removeHexPrefix (p ++ d) = d := removeHexPrefix_of_prefixed p d hp hd
  have ht : isHexAddressText (p ++ d) := by
    unfold isHexAddressText
    rw [hr]
    exact ⟨hd, h64⟩
  obtain ⟨s1, s2, s3, s4, s5⟩ := serializeAddress_of_hex (p ++ d) ht
  have hn := isNormalizedAddress_padHexAddress (p ++ d) ht
  unfold isNormalizedAddress at hn
  rw [padHexAddress_data] at hn
  simp only [List.drop_succ_cons, List.drop_zero] at hn
  rw [← padLoop_data] at hn
  have hpad : padHexAddress (p ++ d) = "0x" ++ padLoop (toLowerCase (removeHexPrefix (p ++ d))) :=
    rfl
  have hdata : (padLoop (toLowerCase (removeHexPrefix (p ++ d)))).data
      = List.replicate (64 - d.length) '0' ++ d.data.map Char.toLower := by
    rw [padLoop_data, hr, toLowerCase_length]
    rfl
  have hval : hexValue (padLoop (toLowerCase (removeHexPrefix (p ++ d)))) = hexValue d := by
    unfold hexValue
    rw [hdata, List.foldl_append, foldl_hex_zeros]
    exact foldl_hex_toLower d.data 0
  refine ⟨?_, ?_, ?_, ?_, ?_, ?_⟩
  · rw [s1]
    apply String.ext
    exact hdata
  · rw [s1, hpad, removeHexPrefix_0x]
  · rw [s1]; exact hn.2.1
  · rw [s1]; exact hn.2.2
  · rw [s1]; exact hval
  · refine ⟨_, s2, s3, ?_, ?_, ?_, ?_⟩
    · rw [foldl_pairsToBytes 32 _ 0 hn.2.1]
      exact hval
    · rw [s1, s5]
    · rw [s5]; rfl
    · have hh := hexToBytes_prefixed_bytesToHex "0x" (Or.inr (Or.inl rfl)) _
        (List.replicate 32 0) 32 s3 (by omega) (by simp)
      rw [s5, s2] at hh
      rw [hpad, hh]
      simp

theorem serializeAddress_spec_witness :
    serializeAddress ("0X" ++ "CAFE")
        = "000000000000000000000000000000000000000000000000000000000000cafe" ∧
      (serializeAddress ("0X" ++ "CAFE")).length = 64 ∧
      hexValue (serializeAddress ("0X" ++ "CAFE")) = 51966 :=
  ⟨(serializeAddress_spec "0X" "CAFE" (by decide) (by decide) (by decide)
      (by decide)).1.trans (by decide),
    (serializeAddress_spec "0X" "CAFE" (by decide) (by decide) (by decide)
      (by decide)).2.2.1,
    (serializeAddress_spec "0X" "CAFE" (by decide) (by decide) (by decide)
      (by decide)).2.2.2.2.1.trans (by decide)⟩

/-- Claim C37 fails on the code: for `0x0x` followed by 64 hex digits
`serializeAddress` returns those 64 digits, not the empty string, although the input
with one prefix stripped still starts with `0x` and is not a text of at most 64 hex
digits. -/
theorem serializeAddress_accepts_doubled_prefix :
    serializeAddress
        "0x0x1111111111111111111111111111111111111111111111111111111111111111"
      = "1111111111111111111111111111111111111111111111111111111111111111" ∧
    serializeAddress
        "0x0x1111111111111111111111111111111111111111111111111111111111111111" ≠ "" ∧
    removeHexPrefix "0x0x1111111111111111111111111111111111111111111111111111111111111111"
      = "0x1111111111111111111111111111111111111111111111111111111111111111" ∧
    ¬ isHexAddressText
        "0x0x1111111111111111111111111111111111111111111111111111111111111111" := by
  have hlong : padLoop (toLowerCase (removeHexPrefix
      "0x0x1111111111111111111111111111111111111111111111111111111111111111"))
      = "0x1111111111111111111111111111111111111111111111111111111111111111" := by
    rw [padLoop_of_long _ (by decide)]
    decide
  have hval : serializeAddress
      "0x0x1111111111111111111111111111111111111111111111111111111111111111"
      = "1111111111111111111111111111111111111111111111111111111111111111" := by
    rw [serializeAddress_eq, hlong]
    decide
  refine ⟨hval, ?_, by decide, by decide⟩
  rw [hval]
  decide

end AptosUtils
